import Mathlib

/-!
A shallow embedding of `src/HWBus.h`: a pin-accurate hardware bus model, its
transaction-level variant, and the media access layer on top of them.

* The media access layer (`MasterHardwareBusLinkAccess`, `SlaveHardwareBusLinkAccess`)
  is embedded as state-passing functions over an injected protocol.
* The protocol layer (`MasterHardwareBus`, `SlaveHardwareBus`, `HardwareBusProtocolTLM`)
  is embedded as threads that run from one suspension point to the next, under a
  discrete-event kernel with evaluation, update and delta-notification phases.
-/

namespace HWBus

/-! ## Configuration -/

/-- Address width in bits (`#define ADDR_WIDTH 16u`). -/
def ADDR_WIDTH : Nat := 16

/-- The settings of the macro `DATA_WIDTH` under which the header builds; every other
value stops the build at `#error "Invalid data width"`. -/
inductive DataWidth where
  | w32
  | w16
  | w8
  deriving DecidableEq, Repr

/-- Data width in bits. -/
def DATA_WIDTH : DataWidth → Nat
  | .w32 => 32
  | .w16 => 16
  | .w8 => 8

/-- Bytes per data word, the `#if DATA_WIDTH == ...` chain. -/
def DATA_BYTES : DataWidth → Nat
  | .w32 => 4
  | .w16 => 2
  | .w8 => 1

/-- An `unsigned char`. -/
abbrev Byte := Fin 256

/-- Conversion of the `int` argument `addr` to `sc_bv<ADDR_WIDTH>`: the low
`ADDR_WIDTH` bits of its two's complement representation. -/
def toAddr (addr : Int) : Nat := (addr % 2 ^ ADDR_WIDTH).toNat

/-- The bits `DATA_WIDTH-1 .. DATA_WIDTH-8` of a word,
`(sc_uint<8>)((sc_bv<8>)word.range(DATA_WIDTH-1,DATA_WIDTH-8))`. -/
def topByte (cfg : DataWidth) (word : Nat) : Byte :=
  ⟨(word / 2 ^ (DATA_WIDTH cfg - 8)) % 256, Nat.mod_lt _ (by decide)⟩

/-! ## Protocol interfaces -/

/-- The interface `IMasterHardwareBusProtocol`; `σ` is the state of the implementation
behind the port. Addresses and data words are bit patterns, held as naturals. -/
structure IMasterHardwareBusProtocol (σ : Type) where
  masterRead : Nat → σ → Nat × σ
  masterWrite : Nat → Nat → σ → σ

/-- The interface `ISlaveHardwareBusProtocol`. -/
structure ISlaveHardwareBusProtocol (σ : Type) where
  slaveRead : Nat → σ → Nat × σ
  slaveWrite : Nat → Nat → σ → σ

/-! ## Media access layer -/

/-- The `for` loop of `MasterHardwareBusLinkAccess::MasterWrite`: `n` iterations remain,
`i` is the loop index, `word` the accumulator of type `sc_uint<DATA_WIDTH>`. -/
def MasterWrite.loop {σ : Type} (cfg : DataWidth) (protocol : IMasterHardwareBusProtocol σ)
    (addr : Int) (data : Nat → Byte) : Nat → Nat → Nat → σ → Nat × σ
  | 0, _, word, s => (word, s)
  | n + 1, i, word, s =>
    let word := ((word <<< 8) + (data i).val) % 2 ^ DATA_WIDTH cfg
    if (i + 1) % DATA_BYTES cfg = 0 then
      MasterWrite.loop cfg protocol addr data n (i + 1) 0
        (protocol.masterWrite (toAddr addr) word s)
    else
      MasterWrite.loop cfg protocol addr data n (i + 1) word s

/-- The method `MasterHardwareBusLinkAccess::MasterWrite(addr, data, len)`. -/
def MasterWrite {σ : Type} (cfg : DataWidth) (protocol : IMasterHardwareBusProtocol σ)
    (addr : Int) (data : Nat → Byte) (len : Nat) (s : σ) : σ :=
  let r := MasterWrite.loop cfg protocol addr data len 0 0 s
  let i := len
  if i % DATA_BYTES cfg ≠ 0 then
    let word := (r.1 <<< (8 * (DATA_BYTES cfg - i % DATA_BYTES cfg))) % 2 ^ DATA_WIDTH cfg
    protocol.masterWrite (toAddr addr) word r.2
  else
    r.2

/-- The `for` loop of `MasterHardwareBusLinkAccess::MasterRead`; `data` is the output
buffer, `word` the local of type `sc_bv<DATA_WIDTH>`. -/
def MasterRead.loop {σ : Type} (cfg : DataWidth) (protocol : IMasterHardwareBusProtocol σ)
    (addr : Int) : Nat → Nat → Nat → (Nat → Byte) → σ → (Nat → Byte) × σ
  | 0, _, _, data, s => (data, s)
  | n + 1, i, word, data, s =>
    let r := if i % DATA_BYTES cfg = 0 then protocol.masterRead (toAddr addr) s else (word, s)
    let data := Function.update data i (topByte cfg r.1)
    MasterRead.loop cfg protocol addr n (i + 1) ((r.1 <<< 8) % 2 ^ DATA_WIDTH cfg) data r.2

/-- The method `MasterHardwareBusLinkAccess::MasterRead(addr, data, len)`; the local
`word` is default-constructed (all bits zero) and is read only after the first
protocol read has overwritten it. -/
def MasterRead {σ : Type} (cfg : DataWidth) (protocol : IMasterHardwareBusProtocol σ)
    (addr : Int) (data : Nat → Byte) (len : Nat) (s : σ) : (Nat → Byte) × σ :=
  MasterRead.loop cfg protocol addr len 0 0 data s

/-- The `for` loop of `SlaveHardwareBusLinkAccess::SlaveWrite`. -/
def SlaveWrite.loop {σ : Type} (cfg : DataWidth) (protocol : ISlaveHardwareBusProtocol σ)
    (addr : Int) (data : Nat → Byte) : Nat → Nat → Nat → σ → Nat × σ
  | 0, _, word, s => (word, s)
  | n + 1, i, word, s =>
    let word := ((word <<< 8) + (data i).val) % 2 ^ DATA_WIDTH cfg
    if (i + 1) % DATA_BYTES cfg = 0 then
      SlaveWrite.loop cfg protocol addr data n (i + 1) 0
        (protocol.slaveWrite (toAddr addr) word s)
    else
      SlaveWrite.loop cfg protocol addr data n (i + 1) word s

/-- The method `SlaveHardwareBusLinkAccess::SlaveWrite(addr, data, len)`. -/
def SlaveWrite {σ : Type} (cfg : DataWidth) (protocol : ISlaveHardwareBusProtocol σ)
    (addr : Int) (data : Nat → Byte) (len : Nat) (s : σ) : σ :=
  let r := SlaveWrite.loop cfg protocol addr data len 0 0 s
  let i := len
  if i % DATA_BYTES cfg ≠ 0 then
    let word := (r.1 <<< (8 * (DATA_BYTES cfg - i % DATA_BYTES cfg))) % 2 ^ DATA_WIDTH cfg
    protocol.slaveWrite (toAddr addr) word r.2
  else
    r.2

/-- The `for` loop of `SlaveHardwareBusLinkAccess::SlaveRead`. -/
def SlaveRead.loop {σ : Type} (cfg : DataWidth) (protocol : ISlaveHardwareBusProtocol σ)
    (addr : Int) : Nat → Nat → Nat → (Nat → Byte) → σ → (Nat → Byte) × σ
  | 0, _, _, data, s => (data, s)
  | n + 1, i, word, data, s =>
    let r := if i % DATA_BYTES cfg = 0 then protocol.slaveRead (toAddr addr) s else (word, s)
    let data := Function.update data i (topByte cfg r.1)
    SlaveRead.loop cfg protocol addr n (i + 1) ((r.1 <<< 8) % 2 ^ DATA_WIDTH cfg) data r.2

/-- The method `SlaveHardwareBusLinkAccess::SlaveRead(addr, data, len)`. -/
def SlaveRead {σ : Type} (cfg : DataWidth) (protocol : ISlaveHardwareBusProtocol σ)
    (addr : Int) (data : Nat → Byte) (len : Nat) (s : σ) : (Nat → Byte) × σ :=
  SlaveRead.loop cfg protocol addr len 0 0 data s

/-! ## Protocol implementations used to observe the media access layer -/

/-- One call through a protocol port, as seen by the implementation behind it. -/
inductive Call where
  | masterRead (a : Nat)
  | masterWrite (a : Nat) (d : Nat)
  | slaveRead (a : Nat)
  | slaveWrite (a : Nat) (d : Nat)
  deriving DecidableEq, Repr

/-- The address argument of a call. -/
def Call.addr : Call → Nat
  | .masterRead a => a
  | .masterWrite a _ => a
  | .slaveRead a => a
  | .slaveWrite a _ => a

/-- State of a recording protocol: the calls received so far, oldest first, and the
number of reads among them. -/
structure Recorder where
  calls : List Call
  reads : Nat
  deriving Repr

/-- The recorder before any call. -/
def Recorder.init : Recorder := ⟨[], 0⟩

/-- A master protocol that records every call and answers the `k`-th read with the
word `feed k`. -/
def recMaster (feed : Nat → Nat) : IMasterHardwareBusProtocol Recorder where
  masterRead a s := (feed s.reads, ⟨s.calls ++ [.masterRead a], s.reads + 1⟩)
  masterWrite a d s := ⟨s.calls ++ [.masterWrite a d], s.reads⟩

/-- A slave protocol that records every call and answers the `k`-th read with the
word `feed k`. -/
def recSlave (feed : Nat → Nat) : ISlaveHardwareBusProtocol Recorder where
  slaveRead a s := (feed s.reads, ⟨s.calls ++ [.slaveRead a], s.reads + 1⟩)
  slaveWrite a d s := ⟨s.calls ++ [.slaveWrite a d], s.reads⟩

/-- A loopback behind the master port: it stores the most recent word written per
address and returns the stored word on every read of that address. -/
def loopback : IMasterHardwareBusProtocol (Nat → Nat) where
  masterRead a s := (s a, s)
  masterWrite a d s := Function.update s a d

/-- Byte number `j`, counted from the most significant byte, of a data word. -/
def byteOf (cfg : DataWidth) (word : Nat) (j : Nat) : Nat :=
  (word / 256 ^ (DATA_BYTES cfg - 1 - j)) % 256

/-- A buffer holding the listed bytes, zero beyond them. -/
def bufOf (l : List Nat) : Nat → Byte := fun i => Fin.ofNat (l.getD i 0)

/-- Big-endian value of the `cnt` consecutive bytes `data[start .. start+cnt-1]`:
the sum over `j < cnt` of `data[start+j] * 256^(cnt-1-j)`. -/
def bigEndian (data : Nat → Byte) (start cnt : Nat) : Nat :=
  ((List.range cnt).map fun j => (data (start + j)).val * 256 ^ (cnt - 1 - j)).sum

/-- The words packed from the first `q` complete groups of `DATA_BYTES` bytes. -/
def fullWords (cfg : DataWidth) (data : Nat → Byte) (q : Nat) : List Nat :=
  (List.range q).map fun k => bigEndian data (k * DATA_BYTES cfg) (DATA_BYTES cfg)

/-- Issue the listed words, in order, as protocol writes to one address. -/
def writeAll {σ : Type} (wr : Nat → Nat → σ → σ) (a : Nat) (ws : List Nat) (s : σ) : σ :=
  ws.foldl (fun t w => wr a w t) s

/-- A slave protocol seen through the master interface: reads as reads, writes as
writes. The two link access classes run the same loops over their ports. -/
def asMaster {σ : Type} (p : ISlaveHardwareBusProtocol σ) : IMasterHardwareBusProtocol σ where
  masterRead := p.slaveRead
  masterWrite := p.slaveWrite

/-- State of the implementation behind a port after `k` consecutive reads of address `a`. -/
def readState {σ : Type} (rd : Nat → σ → Nat × σ) (a : Nat) (s : σ) : Nat → σ
  | 0 => s
  | k + 1 => (rd a (readState rd a s k)).2

/-- The word returned by read number `k` (counted from zero) of a run of consecutive
reads of address `a`. -/
def readWord {σ : Type} (rd : Nat → σ → Nat × σ) (a : Nat) (s : σ) (k : Nat) : Nat :=
  (rd a (readState rd a s k)).1

/-- The number of words needed for `len` bytes, `ceil(len / DATA_BYTES)`. -/
def wordCount (cfg : DataWidth) (len : Nat) : Nat :=
  (len + DATA_BYTES cfg - 1) / DATA_BYTES cfg

/-- The data word of a write call; read calls carry none and give zero. -/
def Call.data : Call → Nat
  | .masterWrite _ d => d
  | .slaveWrite _ d => d
  | _ => 0

/-- The words written by a sequence of calls, offered back one per read: read number `k`
is answered with the word of call number `k`. -/
def replay (calls : List Call) : Nat → Nat := fun k => (calls.map Call.data).getD k 0

/-! ## Discrete-event kernel

Threads run one at a time from one suspension point to the next (evaluation phase);
signal writes take effect afterwards (update phase) and a changed signal notifies its
event; threads waiting on a notified event become runnable for the next delta cycle;
simulated time advances to the earliest timed wake-up only when nothing is runnable. -/

/-- The events a thread can wait on. -/
inductive Event where
  /-- Value change of the signal `ready`, `ready.default_event()`. -/
  | readyChanged
  /-- Value change of the signal `ack`, `ack.default_event()`. -/
  | ackChanged
  /-- Rising edge of the signal `intr`, `intr.posedge_event()`. -/
  | intrPosedge
  /-- The member `sc_event ready` of `HardwareBusProtocolTLM`. -/
  | ready
  /-- The member `sc_event ack` of `HardwareBusProtocolTLM`. -/
  | ack
  deriving DecidableEq, Repr

/-- The shared medium: the signals bound to the ports of the pin-accurate channels and
the data members of `HardwareBusProtocolTLM`. Addresses and data words are bit
patterns, held as naturals; the protocol only copies and compares them. -/
structure Bus where
  ready : Bool
  ack : Bool
  A : Nat
  D : Nat
  intr : Bool
  bus_addr : Nat
  bus_data : Nat
  deriving DecidableEq, Repr

/-- What a thread does to the shared medium between two suspension points. -/
inductive Effect where
  /-- The call `A.write(v)`. -/
  | writeA (v : Nat)
  /-- The call `D.write(v)`. -/
  | writeD (v : Nat)
  /-- The call `ready.write(b)`. -/
  | writeReady (b : Bool)
  /-- The call `ack.write(b)`. -/
  | writeAck (b : Bool)
  /-- The call `intr.write(b)`. -/
  | writeIntr (b : Bool)
  /-- The assignment `bus_addr = v`. -/
  | setAddr (v : Nat)
  /-- The assignment `bus_data = v`. -/
  | setData (v : Nat)
  /-- The call `e.notify(SC_ZERO_TIME)`. -/
  | notify (e : Event)
  /-- The address check `a != A.read()`, respectively `a != bus_addr`, found the
  value `seen` on the address line or cell. This records a read; it changes nothing. -/
  | checkAddr (seen : Nat)
  deriving DecidableEq, Repr

/-- How a thread suspends: `L` is the type of its program points. -/
inductive Suspend (L : Type) where
  /-- The call `wait(ps, SC_PS)`, to continue at `k`. -/
  | time (ps : Nat) (k : L)
  /-- A wait on the event `e`, to continue at `k`. -/
  | event (e : Event) (k : L)
  /-- The method returns. -/
  | ret
  deriving Repr

/-- One run of a thread from a program point to its next suspension. -/
structure Segment (L : Type) where
  /-- The effects, in program order. -/
  effects : List Effect
  /-- The value of the parameter `d` afterwards. -/
  d : Nat
  next : Suspend L
  deriving Repr

/-- A method body: from a program point, the arguments `a` and `d`, and the shared
medium as the thread sees it, to the segment it runs. -/
abbrev Body (L : Type) := L → Nat → Nat → Bus → Segment L

/-! ## Pin-accurate protocol: `MasterHardwareBus`, `SlaveHardwareBus` -/

/-- Program points of `masterWrite` and `masterRead`: where the thread continues after
each `wait`. -/
inductive MasterPoint where
  /-- Start of the method. -/
  | entry
  /-- After `wait(5000,SC_PS)`. -/
  | setupDone
  /-- Inside `while(!ack.read()) wait(ack.default_event())`. -/
  | awaitAck
  /-- After `wait(10000,SC_PS)`, respectively `wait(15000,SC_PS)`. -/
  | holdDone
  /-- Inside `while(ack.read()) wait(ack.default_event())`. -/
  | awaitAckLow
  deriving DecidableEq, Repr

/-- The method `MasterHardwareBus::masterWrite(a, d)`. -/
def MasterHardwareBus.masterWrite : Body MasterPoint := fun k a d bus =>
  match k with
  | .entry => ⟨[.writeA a, .writeD d], d, .time 5000 .setupDone⟩
  | .setupDone =>
    if !bus.ack then ⟨[.writeReady true], d, .event .ackChanged .awaitAck⟩
    else ⟨[.writeReady true], d, .time 10000 .holdDone⟩
  | .awaitAck =>
    if !bus.ack then ⟨[], d, .event .ackChanged .awaitAck⟩
    else ⟨[], d, .time 10000 .holdDone⟩
  | .holdDone =>
    if bus.ack then ⟨[.writeReady false], d, .event .ackChanged .awaitAckLow⟩
    else ⟨[.writeReady false], d, .ret⟩
  | .awaitAckLow =>
    if bus.ack then ⟨[], d, .event .ackChanged .awaitAckLow⟩
    else ⟨[], d, .ret⟩

/-- The method `MasterHardwareBus::masterRead(a, d)`. -/
def MasterHardwareBus.masterRead : Body MasterPoint := fun k a d bus =>
  match k with
  | .entry => ⟨[.writeA a], d, .time 5000 .setupDone⟩
  | .setupDone =>
    if !bus.ack then ⟨[.writeReady true], d, .event .ackChanged .awaitAck⟩
    else ⟨[.writeReady true], bus.D, .time 15000 .holdDone⟩
  | .awaitAck =>
    if !bus.ack then ⟨[], d, .event .ackChanged .awaitAck⟩
    else ⟨[], bus.D, .time 15000 .holdDone⟩
  | .holdDone =>
    if bus.ack then ⟨[.writeReady false], d, .event .ackChanged .awaitAckLow⟩
    else ⟨[.writeReady false], d, .ret⟩
  | .awaitAckLow =>
    if bus.ack then ⟨[], d, .event .ackChanged .awaitAckLow⟩
    else ⟨[], d, .ret⟩

/-- Program points of `slaveWrite` and `slaveRead`. -/
inductive SlavePoint where
  /-- The label `t1`: start of the method, inside
  `while(!ready.read()) wait(ready.default_event())`, and after the
  `wait(1000,SC_PS); goto t1;` of an address mismatch. -/
  | t1
  /-- After `wait(12000,SC_PS)`. -/
  | matched
  /-- Inside `while(ready.read()) wait(ready.default_event())`. -/
  | awaitReadyLow
  /-- After `wait(7000,SC_PS)`. -/
  | releaseDone
  deriving DecidableEq, Repr

/-- The method `SlaveHardwareBus::slaveWrite(a, d)`. -/
def SlaveHardwareBus.slaveWrite : Body SlavePoint := fun k a d bus =>
  match k with
  | .t1 =>
    if !bus.ready then ⟨[], d, .event .readyChanged .t1⟩
    else if a ≠ bus.A then ⟨[.checkAddr bus.A], d, .time 1000 .t1⟩
    else ⟨[.checkAddr bus.A, .writeD d], d, .time 12000 .matched⟩
  | .matched =>
    if bus.ready then ⟨[.writeAck true], d, .event .readyChanged .awaitReadyLow⟩
    else ⟨[.writeAck true], d, .time 7000 .releaseDone⟩
  | .awaitReadyLow =>
    if bus.ready then ⟨[], d, .event .readyChanged .awaitReadyLow⟩
    else ⟨[], d, .time 7000 .releaseDone⟩
  | .releaseDone => ⟨[.writeAck false], d, .ret⟩

/-- The method `SlaveHardwareBus::slaveRead(a, d)`. -/
def SlaveHardwareBus.slaveRead : Body SlavePoint := fun k a d bus =>
  match k with
  | .t1 =>
    if !bus.ready then ⟨[], d, .event .readyChanged .t1⟩
    else if a ≠ bus.A then ⟨[.checkAddr bus.A], d, .time 1000 .t1⟩
    else ⟨[.checkAddr bus.A], bus.D, .time 12000 .matched⟩
  | .matched =>
    if bus.ready then ⟨[.writeAck true], d, .event .readyChanged .awaitReadyLow⟩
    else ⟨[.writeAck true], d, .time 7000 .releaseDone⟩
  | .awaitReadyLow =>
    if bus.ready then ⟨[], d, .event .readyChanged .awaitReadyLow⟩
    else ⟨[], d, .time 7000 .releaseDone⟩
  | .releaseDone => ⟨[.writeAck false], d, .ret⟩

/-! ## Transaction-level protocol: `HardwareBusProtocolTLM` -/

/-- Program points of the master methods of `HardwareBusProtocolTLM`. -/
inductive TlmMasterPoint where
  /-- Start of the method. -/
  | entry
  /-- After `wait(5000, SC_PS)`. -/
  | setupDone
  /-- After `wait(ack)`. -/
  | acked
  /-- After the final timed wait. -/
  | holdDone
  deriving DecidableEq, Repr

/-- The method `HardwareBusProtocolTLM::masterWrite(a, d)`. -/
def HardwareBusProtocolTLM.masterWrite : Body TlmMasterPoint := fun k a d _ =>
  match k with
  | .entry => ⟨[.setAddr a, .setData d], d, .time 5000 .setupDone⟩
  | .setupDone => ⟨[.notify .ready], d, .event .ack .acked⟩
  | .acked => ⟨[], d, .time 10000 .holdDone⟩
  | .holdDone => ⟨[], d, .ret⟩

/-- The method `HardwareBusProtocolTLM::masterRead(a, d)`. -/
def HardwareBusProtocolTLM.masterRead : Body TlmMasterPoint := fun k a d bus =>
  match k with
  | .entry => ⟨[.setAddr a], d, .time 5000 .setupDone⟩
  | .setupDone => ⟨[.notify .ready], d, .event .ack .acked⟩
  | .acked => ⟨[], bus.bus_data, .time 15000 .holdDone⟩
  | .holdDone => ⟨[], d, .ret⟩

/-- Program points of the slave methods of `HardwareBusProtocolTLM`. -/
inductive TlmSlavePoint where
  /-- Start of the method, at the label `t1`, before `wait(ready)`. -/
  | entry
  /-- After `wait(ready)`. -/
  | t1
  /-- After `wait(12000,SC_PS)`. -/
  | matched
  /-- After `wait(7000,SC_PS)`. -/
  | releaseDone
  deriving DecidableEq, Repr

/-- The method `HardwareBusProtocolTLM::slaveWrite(a, d)`. -/
def HardwareBusProtocolTLM.slaveWrite : Body TlmSlavePoint := fun k a d bus =>
  match k with
  | .entry => ⟨[], d, .event .ready .t1⟩
  | .t1 =>
    if a ≠ bus.bus_addr then ⟨[.checkAddr bus.bus_addr], d, .event .ready .t1⟩
    else ⟨[.checkAddr bus.bus_addr, .setData d], d, .time 12000 .matched⟩
  | .matched => ⟨[], d, .time 7000 .releaseDone⟩
  | .releaseDone => ⟨[.notify .ack], d, .ret⟩

/-- The method `HardwareBusProtocolTLM::slaveRead(a, d)`. -/
def HardwareBusProtocolTLM.slaveRead : Body TlmSlavePoint := fun k a d bus =>
  match k with
  | .entry => ⟨[], d, .event .ready .t1⟩
  | .t1 =>
    if a ≠ bus.bus_addr then ⟨[.checkAddr bus.bus_addr], d, .event .ready .t1⟩
    else ⟨[.checkAddr bus.bus_addr], bus.bus_data, .time 12000 .matched⟩
  | .matched => ⟨[], d, .time 7000 .releaseDone⟩
  | .releaseDone => ⟨[.notify .ack], d, .ret⟩

/-! ## Scheduler -/

/-- Scheduling state of a thread. -/
inductive Status (L : Type) where
  /-- Ready to run from program point `k` in the next evaluation phase. -/
  | runnable (k : L)
  /-- In a timed wait that ends at the absolute time `wake`. -/
  | sleeping (wake : Nat) (k : L)
  /-- Waiting on the event `e`. -/
  | waiting (e : Event) (k : L)
  /-- The method has returned, at the time `t`. -/
  | returned (t : Nat)
  deriving Repr

/-- A thread executing one protocol method with arguments `a` and `d`. -/
structure Thread (L : Type) where
  a : Nat
  d : Nat
  status : Status L
  deriving Repr

/-- The two sides of the bus. -/
inductive Side where
  | master
  | slave
  deriving DecidableEq, Repr

/-- One entry of the simulation trace. -/
structure Entry where
  time : Nat
  side : Side
  effect : Effect
  deriving DecidableEq, Repr

/-- A simulation with one master-side and one slave-side thread on one bus. -/
structure Sim (M S : Type) where
  now : Nat
  bus : Bus
  master : Thread M
  slave : Thread S
  trace : List Entry
  deriving Repr

/-- Assignments to the data members of `HardwareBusProtocolTLM` take effect at once. -/
def Effect.immediate (b : Bus) : Effect → Bus
  | .setAddr v => { b with bus_addr := v }
  | .setData v => { b with bus_data := v }
  | _ => b

/-- Signal writes take effect in the update phase. -/
def Effect.update (b : Bus) : Effect → Bus
  | .writeA v => { b with A := v }
  | .writeD v => { b with D := v }
  | .writeReady v => { b with ready := v }
  | .writeAck v => { b with ack := v }
  | .writeIntr v => { b with intr := v }
  | _ => b

/-- The event of a delta notification request. -/
def Effect.notified : Effect → Option Event
  | .notify e => some e
  | _ => none

/-- Result of letting one thread take its turn in an evaluation phase. -/
structure Turn (L : Type) where
  thread : Thread L
  bus : Bus
  effects : List Effect

/-- A runnable thread runs to its next suspension; any other thread is left alone. -/
def Thread.turn {L : Type} (body : Body L) (now : Nat) (bus : Bus) (t : Thread L) : Turn L :=
  match t.status with
  | .runnable k =>
    let seg := body k t.a t.d bus
    { thread :=
        { a := t.a, d := seg.d,
          status := match seg.next with
            | .time ps k' => .sleeping (now + ps) k'
            | .event e k' => .waiting e k'
            | .ret => .returned now },
      bus := seg.effects.foldl Effect.immediate bus,
      effects := seg.effects }
  | _ => { thread := t, bus := bus, effects := [] }

/-- The events notified at the end of a delta cycle: value changes of the signals and
the requested delta notifications. -/
def firedEvents (old new : Bus) (effects : List Effect) : List Event :=
  (if old.ready ≠ new.ready then [Event.readyChanged] else []) ++
  (if old.ack ≠ new.ack then [Event.ackChanged] else []) ++
  (if old.intr = false ∧ new.intr = true then [Event.intrPosedge] else []) ++
  effects.filterMap Effect.notified

/-- A thread waiting on a notified event becomes runnable. -/
def Thread.wake {L : Type} (fired : List Event) (t : Thread L) : Thread L :=
  match t.status with
  | .waiting e k => if e ∈ fired then { t with status := .runnable k } else t
  | _ => t

/-- Whether the thread is runnable. -/
def Thread.isRunnable {L : Type} (t : Thread L) : Bool :=
  match t.status with
  | .runnable _ => true
  | _ => false

/-- The end of the thread's timed wait, when it is in one. -/
def Thread.wakeTime {L : Type} (t : Thread L) : Option Nat :=
  match t.status with
  | .sleeping w _ => some w
  | _ => none

/-- The earliest pending timed wake-up. -/
def earliest : Option Nat → Option Nat → Option Nat
  | some t, some u => some (min t u)
  | some t, none => some t
  | none, some u => some u
  | none, none => none

/-- A thread whose timed wait ends at `t` becomes runnable. -/
def Thread.timeout {L : Type} (t : Nat) (th : Thread L) : Thread L :=
  match th.status with
  | .sleeping w k => if w = t then { th with status := .runnable k } else th
  | _ => th

/-- Outcome of an evaluation phase. -/
structure Evaluated (M S : Type) where
  master : Thread M
  slave : Thread S
  bus : Bus
  /-- The effects of the phase, in the order in which they were made. -/
  effects : List Effect
  /-- The same effects as trace entries. -/
  entries : List Entry

/-- Evaluation phase: the runnable threads run one after the other, in the order given
by `masterFirst`. -/
def evaluate {M S : Type} (mb : Body M) (sb : Body S) (masterFirst : Bool) (s : Sim M S) :
    Evaluated M S :=
  if masterFirst then
    { master := (s.master.turn mb s.now s.bus).thread,
      slave := (s.slave.turn sb s.now (s.master.turn mb s.now s.bus).bus).thread,
      bus := (s.slave.turn sb s.now (s.master.turn mb s.now s.bus).bus).bus,
      effects := (s.master.turn mb s.now s.bus).effects ++
        (s.slave.turn sb s.now (s.master.turn mb s.now s.bus).bus).effects,
      entries := (s.master.turn mb s.now s.bus).effects.map (Entry.mk s.now .master) ++
        (s.slave.turn sb s.now (s.master.turn mb s.now s.bus).bus).effects.map
          (Entry.mk s.now .slave) }
  else
    { master := (s.master.turn mb s.now (s.slave.turn sb s.now s.bus).bus).thread,
      slave := (s.slave.turn sb s.now s.bus).thread,
      bus := (s.master.turn mb s.now (s.slave.turn sb s.now s.bus).bus).bus,
      effects := (s.slave.turn sb s.now s.bus).effects ++
        (s.master.turn mb s.now (s.slave.turn sb s.now s.bus).bus).effects,
      entries := (s.slave.turn sb s.now s.bus).effects.map (Entry.mk s.now .slave) ++
        (s.master.turn mb s.now (s.slave.turn sb s.now s.bus).bus).effects.map
          (Entry.mk s.now .master) }

/-- Update phase, delta notification phase and, when no thread is runnable afterwards,
advance of simulated time to the earliest timed wake-up. -/
def settle {M S : Type} (now : Nat) (trace : List Entry) (e : Evaluated M S) : Sim M S :=
  -- update phase
  let bus2 := e.effects.foldl Effect.update e.bus
  -- delta notification phase
  let fired := firedEvents e.bus bus2 e.effects
  let m2 := e.master.wake fired
  let s2 := e.slave.wake fired
  -- advance of time
  if m2.isRunnable || s2.isRunnable then
    { now := now, bus := bus2, master := m2, slave := s2, trace := trace ++ e.entries }
  else
    match earliest m2.wakeTime s2.wakeTime with
    | some t =>
      { now := t, bus := bus2, master := m2.timeout t, slave := s2.timeout t,
        trace := trace ++ e.entries }
    | none =>
      { now := now, bus := bus2, master := m2, slave := s2, trace := trace ++ e.entries }

/-- One delta cycle. -/
def step {M S : Type} (mb : Body M) (sb : Body S) (masterFirst : Bool) (s : Sim M S) :
    Sim M S :=
  settle s.now s.trace (evaluate mb sb masterFirst s)

/-- The state after `n` delta cycles; `order i` says whether the master side runs first
in the evaluation phase of cycle `i` (the order of evaluation is not fixed by the
simulation semantics). -/
def run {M S : Type} (mb : Body M) (sb : Body S) (order : Nat → Bool) : Nat → Sim M S → Sim M S
  | 0, s => s
  | n + 1, s => step mb sb (order n) (run mb sb order n s)

/-- Nothing can happen any more: no thread is runnable or in a timed wait. -/
def Sim.quiet {M S : Type} (s : Sim M S) : Bool :=
  !s.master.isRunnable && !s.slave.isRunnable && s.master.wakeTime.isNone &&
    s.slave.wakeTime.isNone

/-- A bus at rest: `ready` and `ack` low, and arbitrary values left on the address and
data lines and cells by earlier traffic. -/
def Bus.idle (A0 D0 : Nat) : Bus :=
  { ready := false, ack := false, A := A0, D := D0, intr := false, bus_addr := A0,
    bus_data := D0 }

/-- The effects of one side in a trace, with their times. -/
def effectsOf (side : Side) (tr : List Entry) : List (Nat × Effect) :=
  (tr.filter fun e => e.side = side).map fun e => (e.time, e.effect)

/-- A simulation that starts at time `t0` on a bus at rest, with an empty trace. -/
def Sim.start {M S : Type} (t0 A0 D0 : Nat) (master : Thread M) (slave : Thread S) : Sim M S :=
  { now := t0, bus := Bus.idle A0 D0, master := master, slave := slave, trace := [] }

/-- The effects of one thread when every resumption finds the shared medium in an
arbitrary state: `envs` lists the states found, one per resumption, `k` is the program
point and `d` the value of the parameter `d`. The waits themselves are not modelled:
whatever the rest of the system does in between is covered by the choice of `envs`. -/
def effectsAgainst {L : Type} (body : Body L) (a : Nat) : List Bus → L → Nat → List Effect
  | [], _, _ => []
  | bus :: rest, k, d =>
    (body k a d bus).effects ++
      match (body k a d bus).next with
      | .time _ k' => effectsAgainst body a rest k' (body k a d bus).d
      | .event _ k' => effectsAgainst body a rest k' (body k a d bus).d
      | .ret => []

/-- The effects by which a slave asserts or notifies `ack`. -/
def Effect.assertsAck : Effect → Bool
  | .writeAck true => true
  | .notify .ack => true
  | _ => false

/-! ## Zero-delay responders

The environment assumed by the master-side timing figures: a slave side whose `ack`
answers `ready` without any delay of its own. -/

/-- Program points of the pin-level zero-delay responder. -/
inductive ResponderPoint where
  /-- Waiting for `ready` to go high. -/
  | awaitReady
  /-- Waiting for `ready` to go low. -/
  | awaitReadyLow
  deriving DecidableEq, Repr

/-- Pin level: `ack` is driven high as soon as `ready` is seen high and low as soon as
`ready` is seen low, with no timed wait in between. -/
def zeroDelayAck : Body ResponderPoint := fun k _ d bus =>
  match k with
  | .awaitReady =>
    if bus.ready then ⟨[.writeAck true], d, .event .readyChanged .awaitReadyLow⟩
    else ⟨[], d, .event .readyChanged .awaitReady⟩
  | .awaitReadyLow =>
    if bus.ready then ⟨[], d, .event .readyChanged .awaitReadyLow⟩
    else ⟨[.writeAck false], d, .event .readyChanged .awaitReady⟩

/-- Transaction level: `ack` is notified as soon as `ready` has been notified. -/
def zeroDelayAckTLM : Body Unit := fun _ _ d _ =>
  ⟨[.notify .ack], d, .event .ready ()⟩

/-! ## Scenarios -/

/-- Pin-accurate write transfer: `masterWrite(A, D)` is called at time `t0` on a bus at
rest, while a slave is suspended at `t1` in `slaveRead(a, d0)`. -/
def pinWrite (t0 A0 D0 A D a d0 : Nat) : Sim MasterPoint SlavePoint :=
  Sim.start t0 A0 D0 ⟨A, D, .runnable .entry⟩ ⟨a, d0, .waiting .readyChanged .t1⟩

/-- Transaction-level write transfer: `masterWrite(A, D)` is called at time `t0`, while a
slave is suspended in the `wait(ready)` of `slaveRead(a, d0)`. -/
def tlmWrite (t0 A0 D0 A D a d0 : Nat) : Sim TlmMasterPoint TlmSlavePoint :=
  Sim.start t0 A0 D0 ⟨A, D, .runnable .entry⟩ ⟨a, d0, .waiting .ready .t1⟩

/-- A master call at time `t0` on a bus at rest, facing the pin-level zero-delay
responder. -/
def pinIdeal (t0 A0 D0 a d : Nat) : Sim MasterPoint ResponderPoint :=
  Sim.start t0 A0 D0 ⟨a, d, .runnable .entry⟩ ⟨0, 0, .waiting .readyChanged .awaitReady⟩

/-- A master call at time `t0`, facing the transaction-level zero-delay responder. -/
def tlmIdeal (t0 A0 D0 a d : Nat) : Sim TlmMasterPoint Unit :=
  Sim.start t0 A0 D0 ⟨a, d, .runnable .entry⟩ ⟨0, 0, .waiting .ready ()⟩

/-- Pin-accurate read transfer: `masterRead(A, d0)` is called at time `t0` on a bus at
rest, while a slave is suspended at `t1` in `slaveWrite(a, D)`. -/
def pinRead (t0 A0 D0 A d0 a D : Nat) : Sim MasterPoint SlavePoint :=
  Sim.start t0 A0 D0 ⟨A, d0, .runnable .entry⟩ ⟨a, D, .waiting .readyChanged .t1⟩

/-- Transaction-level read transfer: `masterRead(A, d0)` is called at time `t0`, while a
slave is suspended in the `wait(ready)` of `slaveWrite(a, D)`. -/
def tlmRead (t0 A0 D0 A d0 a D : Nat) : Sim TlmMasterPoint TlmSlavePoint :=
  Sim.start t0 A0 D0 ⟨A, d0, .runnable .entry⟩ ⟨a, D, .waiting .ready .t1⟩

/-- The time at which the thread's method returned, once it has. -/
def Thread.returnTime {L : Type} (t : Thread L) : Option Nat :=
  match t.status with
  | .returned r => some r
  | _ => none

/-- A master call at time `t0` on a bus at rest, with a slave-side thread that makes its
call only later, at time `t0 + 5001 + g`: after the master has signalled `ready`, which
it does at `t0 + 5000`. Until then the slave-side thread is in a timed wait of its
caller. -/
def lateSlave {M S : Type} (entryM : M) (entryS : S) (t0 A0 D0 A dm a ds g : Nat) : Sim M S :=
  Sim.start t0 A0 D0 ⟨A, dm, .runnable entryM⟩ ⟨a, ds, .sleeping (t0 + 5001 + g) entryS⟩

/-! ## Who drives which line -/

/-- The signals of the pin-level bus and of the interrupt. -/
inductive Line where
  | A
  | D
  | ready
  | ack
  | intr
  deriving DecidableEq, Repr

/-- The signal an effect writes, if it is a signal write. -/
def Effect.drives : Effect → Option Line
  | .writeA _ => some .A
  | .writeD _ => some .D
  | .writeReady _ => some .ready
  | .writeAck _ => some .ack
  | .writeIntr _ => some .intr
  | _ => none

/-- The effect writes no signal outside `allowed`. -/
def Effect.drivesOnly (allowed : List Line) (e : Effect) : Bool :=
  match e.drives with
  | none => true
  | some l => decide (l ∈ allowed)

/-- The trace entry writes no signal outside the lines allowed to its side. -/
def Entry.within (master slave : List Line) (e : Entry) : Bool :=
  match e.side with
  | .master => e.effect.drivesOnly master
  | .slave => e.effect.drivesOnly slave

/-! ## Interrupt: `SlaveHardwareSyncGenerate`, `MasterHardwareSyncDetect` -/

/-- Program points of `send`. -/
inductive SendPoint where
  /-- Start of the method. -/
  | entry
  /-- After `wait(5000,SC_PS)`. -/
  | pulsed
  deriving DecidableEq, Repr

/-- The method `SlaveHardwareSyncGenerate::send()`; it has no arguments, `a` and `d` are
not used. -/
def SlaveHardwareSyncGenerate.send : Body SendPoint := fun k _ d _ =>
  match k with
  | .entry => ⟨[.writeIntr true], d, .time 5000 .pulsed⟩
  | .pulsed => ⟨[.writeIntr false], d, .ret⟩

/-- Program points of `receive`. -/
inductive ReceivePoint where
  /-- Start of the method. -/
  | entry
  /-- After `wait(intr.posedge_event())`. -/
  | edge
  deriving DecidableEq, Repr

/-- The method `MasterHardwareSyncDetect::receive()`. -/
def MasterHardwareSyncDetect.receive : Body ReceivePoint := fun k _ d _ =>
  match k with
  | .entry => ⟨[], d, .event .intrPosedge .edge⟩
  | .edge => ⟨[], d, .ret⟩

/-- An interrupt: `send()` is called at time `t0` with the line low, while the master
side is suspended in `receive()`. -/
def pulse (t0 : Nat) : Sim ReceivePoint SendPoint :=
  Sim.start t0 0 0 ⟨0, 0, .waiting .intrPosedge .edge⟩ ⟨0, 0, .runnable .entry⟩

/-! ## Threads that make one call after the other -/

/-- The calls of a thread: call number `i` is of the method `body i`, entered at `start`,
with the arguments `a i` and `d i`; it is made `gap i` ps after call `i - 1` has
returned, at once when `gap i = 0`. -/
structure Caller (L : Type) where
  body : Nat → Body L
  start : L
  a : Nat → Nat
  d : Nat → Nat
  gap : Nat → Nat

/-- A suspension of call number `i`, as a suspension of the calling thread. -/
def Suspend.inCall {L : Type} (i : Nat) : Suspend L → Suspend (Nat × L)
  | .time ps k => .time ps (i, k)
  | .event e k => .event e (i, k)
  | .ret => .ret

/-- The thread of a caller: at the program point `(i, k)` it is in call number `i` at
`k`. When a call returns, the thread either waits `gap (i + 1)` or goes on with the
next call in the same evaluation. The thread keeps in `d` the argument `d` of the call
in hand; its `a` is not used. -/
def Caller.thread {L : Type} (c : Caller L) : Body (Nat × L) := fun p _ d bus =>
  match (c.body p.1 p.2 (c.a p.1) d bus).next with
  | .time ps k =>
    ⟨(c.body p.1 p.2 (c.a p.1) d bus).effects, (c.body p.1 p.2 (c.a p.1) d bus).d,
      .time ps (p.1, k)⟩
  | .event e k =>
    ⟨(c.body p.1 p.2 (c.a p.1) d bus).effects, (c.body p.1 p.2 (c.a p.1) d bus).d,
      .event e (p.1, k)⟩
  | .ret =>
    if c.gap (p.1 + 1) = 0 then
      ⟨(c.body p.1 p.2 (c.a p.1) d bus).effects ++
          (c.body (p.1 + 1) c.start (c.a (p.1 + 1)) (c.d (p.1 + 1))
            ((c.body p.1 p.2 (c.a p.1) d bus).effects.foldl Effect.immediate bus)).effects,
        (c.body (p.1 + 1) c.start (c.a (p.1 + 1)) (c.d (p.1 + 1))
            ((c.body p.1 p.2 (c.a p.1) d bus).effects.foldl Effect.immediate bus)).d,
        (c.body (p.1 + 1) c.start (c.a (p.1 + 1)) (c.d (p.1 + 1))
            ((c.body p.1 p.2 (c.a p.1) d bus).effects.foldl Effect.immediate bus)).next.inCall
          (p.1 + 1)⟩
    else
      ⟨(c.body p.1 p.2 (c.a p.1) d bus).effects, c.d (p.1 + 1),
        .time (c.gap (p.1 + 1)) (p.1 + 1, c.start)⟩

/-- A master-side caller of the pin-accurate protocol: call `i` is `masterWrite` when
`write i`, else `masterRead`. -/
def masterCaller (write : Nat → Bool) (a d gap : Nat → Nat) : Caller MasterPoint where
  body i := if write i then MasterHardwareBus.masterWrite else MasterHardwareBus.masterRead
  start := .entry
  a := a
  d := d
  gap := gap

/-- A slave-side caller of the pin-accurate protocol: call `j` is `slaveWrite` when
`write j`, else `slaveRead`. -/
def slaveCaller (write : Nat → Bool) (a d gap : Nat → Nat) : Caller SlavePoint where
  body j := if write j then SlaveHardwareBus.slaveWrite else SlaveHardwareBus.slaveRead
  start := .t1
  a := a
  d := d
  gap := gap

/-- The part of a simulation state the handshake depends on: where the two threads are
and the levels of `ready` and `ack`. -/
structure Shape where
  master : Status (Nat × MasterPoint)
  slave : Status (Nat × SlavePoint)
  ready : Bool
  ack : Bool

/-- The shape of a simulation state. -/
def Sim.shape (s : Sim (Nat × MasterPoint) (Nat × SlavePoint)) : Shape :=
  ⟨s.master.status, s.slave.status, s.bus.ready, s.bus.ack⟩

/-- The shapes a pin-accurate bus with one master-side and one slave-side caller goes
through: `i` and `j` number the calls in hand, `w` is the end of a timed wait. -/
inductive Alternates : Shape → Prop where
  /-- Both sides idle; the master about to start a call. -/
  | idleEntry (i j : Nat) :
    Alternates ⟨.runnable (i, .entry), .runnable (j, .t1), false, false⟩
  | idleEntryWaiting (i j : Nat) :
    Alternates ⟨.runnable (i, .entry), .waiting .readyChanged (j, .t1), false, false⟩
  | idleEntrySleeping (i j w : Nat) :
    Alternates ⟨.runnable (i, .entry), .sleeping w (j, .t1), false, false⟩
  /-- The master in the gap before its call, the slave entering its call. -/
  | gapSlaveEntering (i j w : Nat) :
    Alternates ⟨.sleeping w (i, .entry), .runnable (j, .t1), false, false⟩
  /-- The master in the 5000 ps before it asserts `ready`, the slave entering its call. -/
  | setupSlaveEntering (i j w : Nat) :
    Alternates ⟨.sleeping w (i, .setupDone), .runnable (j, .t1), false, false⟩
  /-- The master about to assert `ready`. -/
  | setup (i j : Nat) :
    Alternates ⟨.runnable (i, .setupDone), .runnable (j, .t1), false, false⟩
  | setupWaiting (i j : Nat) :
    Alternates ⟨.runnable (i, .setupDone), .waiting .readyChanged (j, .t1), false, false⟩
  | setupSleeping (i j w : Nat) :
    Alternates ⟨.runnable (i, .setupDone), .sleeping w (j, .t1), false, false⟩
  /-- `ready` is high; the slave about to check the address. -/
  | check (i j : Nat) :
    Alternates ⟨.waiting .ackChanged (i, .awaitAck), .runnable (j, .t1), true, false⟩
  /-- The address matched; the slave about to assert `ack`. -/
  | matched (i j : Nat) :
    Alternates ⟨.waiting .ackChanged (i, .awaitAck), .runnable (j, .matched), true, false⟩
  /-- `ack` is high; the master about to start its hold time. -/
  | acked (i j : Nat) :
    Alternates ⟨.runnable (i, .awaitAck), .waiting .readyChanged (j, .awaitReadyLow), true, true⟩
  /-- The master about to deassert `ready`. -/
  | hold (i j : Nat) :
    Alternates ⟨.runnable (i, .holdDone), .waiting .readyChanged (j, .awaitReadyLow), true, true⟩
  /-- `ready` is low; the slave about to start its release time. -/
  | lowered (i j : Nat) :
    Alternates ⟨.waiting .ackChanged (i, .awaitAckLow), .runnable (j, .awaitReadyLow), false, true⟩
  /-- The slave about to deassert `ack` and to return. -/
  | release (i j : Nat) :
    Alternates ⟨.waiting .ackChanged (i, .awaitAckLow), .runnable (j, .releaseDone), false, true⟩
  /-- `ack` is low again; the master about to return. -/
  | done (i j : Nat) :
    Alternates ⟨.runnable (i, .awaitAckLow), .waiting .readyChanged (j, .t1), false, false⟩
  | doneSleeping (i j w : Nat) :
    Alternates ⟨.runnable (i, .awaitAckLow), .sleeping w (j, .t1), false, false⟩

/-- The start of a simulation with two callers: both threads are runnable, at the
entry of their first call, at time `t0` on a bus at rest. -/
def callersStart (t0 A0 D0 : Nat) (md sd : Nat → Nat) :
    Sim (Nat × MasterPoint) (Nat × SlavePoint) :=
  Sim.start t0 A0 D0 ⟨0, md 0, .runnable (0, .entry)⟩ ⟨0, sd 0, .runnable (0, .t1)⟩

/-- One resumption of a thread: the state of the shared medium it found and the effects
it made before it suspended again or returned. -/
structure Visit where
  seen : Bus
  effects : List Effect
  deriving Repr

/-- The resumptions of one call when every resumption finds the shared medium in an
arbitrary state (`envs`, one per resumption), and whether the call returned within
them. -/
def visitsAgainst {L : Type} (body : Body L) (a : Nat) : List Bus → L → Nat → List Visit × Bool
  | [], _, _ => ([], false)
  | bus :: rest, k, d =>
    match (body k a d bus).next with
    | .ret => ([⟨bus, (body k a d bus).effects⟩], true)
    | .time _ k' =>
      (⟨bus, (body k a d bus).effects⟩ :: (visitsAgainst body a rest k' (body k a d bus).d).1,
        (visitsAgainst body a rest k' (body k a d bus).d).2)
    | .event _ k' =>
      (⟨bus, (body k a d bus).effects⟩ :: (visitsAgainst body a rest k' (body k a d bus).d).1,
        (visitsAgainst body a rest k' (body k a d bus).d).2)

/-- The master call drove `ready` low in the resumption `v`, made no effect afterwards,
and its last resumption, `v` or a later one, found `ack` low. -/
def ReleasedThenAckLow (vs : List Visit) : Prop :=
  ∃ pre v post last, vs = pre ++ v :: post ∧ v.effects = [Effect.writeReady false] ∧
    (∀ u ∈ post, u.effects = []) ∧ (v :: post).getLast? = some last ∧ last.seen.ack = false

/-- The slave call found `ready` low in the resumption `v` and drove `ack` low in its
next and last resumption. -/
def ReadyLowThenReleased (vs : List Visit) : Prop :=
  ∃ pre v last, vs = pre ++ [v, last] ∧ v.seen.ready = false ∧
    last.effects = [Effect.writeAck false]

/-- The control flow shared by `masterWrite` and `masterRead`: setup, wait for `ack`
high, hold, drive `ready` low, wait for `ack` low, return. -/
structure MasterFlow (body : Body MasterPoint) : Prop where
  entry : ∀ a d bus, ∃ ps, (body .entry a d bus).next = .time ps .setupDone
  setup : ∀ a d bus, (∃ e, (body .setupDone a d bus).next = .event e .awaitAck) ∨
    ∃ ps, (body .setupDone a d bus).next = .time ps .holdDone
  awaitAck : ∀ a d bus, (∃ e, (body .awaitAck a d bus).next = .event e .awaitAck) ∨
    ∃ ps, (body .awaitAck a d bus).next = .time ps .holdDone
  hold : ∀ a d bus, (body .holdDone a d bus).effects = [.writeReady false] ∧
    ((bus.ack = true ∧ ∃ e, (body .holdDone a d bus).next = .event e .awaitAckLow) ∨
      (bus.ack = false ∧ (body .holdDone a d bus).next = .ret))
  low : ∀ a d bus, (body .awaitAckLow a d bus).effects = [] ∧
    ((bus.ack = true ∧ ∃ e, (body .awaitAckLow a d bus).next = .event e .awaitAckLow) ∨
      (bus.ack = false ∧ (body .awaitAckLow a d bus).next = .ret))

/-- The control flow shared by `slaveWrite` and `slaveRead`: wait at `t1` for `ready`
and a matching address, wait 12000, drive `ack` high, wait for `ready` low, wait 7000,
drive `ack` low, return. -/
structure SlaveFlow (body : Body SlavePoint) : Prop where
  t1 : ∀ a d bus, (∃ e, (body .t1 a d bus).next = .event e .t1) ∨
    (∃ ps, (body .t1 a d bus).next = .time ps .t1) ∨
    ∃ ps, (body .t1 a d bus).next = .time ps .matched
  matched : ∀ a d bus,
    (bus.ready = true ∧ ∃ e, (body .matched a d bus).next = .event e .awaitReadyLow) ∨
      (bus.ready = false ∧ ∃ ps, (body .matched a d bus).next = .time ps .releaseDone)
  awaitReadyLow : ∀ a d bus,
    (bus.ready = true ∧ ∃ e, (body .awaitReadyLow a d bus).next = .event e .awaitReadyLow) ∨
      (bus.ready = false ∧ ∃ ps, (body .awaitReadyLow a d bus).next = .time ps .releaseDone)
  release : ∀ a d bus, (body .releaseDone a d bus).effects = [.writeAck false] ∧
    (body .releaseDone a d bus).next = .ret

/-! ## Facts about the configuration and about packing -/

theorem DATA_BYTES_pos (cfg : DataWidth) : 0 < DATA_BYTES cfg := by
  cases cfg <;> decide

theorem DATA_WIDTH_eq (cfg : DataWidth) : DATA_WIDTH cfg = 8 * DATA_BYTES cfg := by
  cases cfg <;> rfl

theorem two_pow_DATA_WIDTH (cfg : DataWidth) : 2 ^ DATA_WIDTH cfg = 256 ^ DATA_BYTES cfg := by
  rw [DATA_WIDTH_eq, pow_mul]; norm_num

theorem succ_of_boundary (cfg : DataWidth) (i : Nat) (h : (i + 1) % DATA_BYTES cfg = 0) :
    (i + 1) / DATA_BYTES cfg = i / DATA_BYTES cfg + 1 ∧ i % DATA_BYTES cfg + 1 = DATA_BYTES cfg := by
  cases cfg <;> simp only [DATA_BYTES] at * <;> omega

theorem succ_of_inner (cfg : DataWidth) (i : Nat) (h : ¬ (i + 1) % DATA_BYTES cfg = 0) :
    (i + 1) / DATA_BYTES cfg = i / DATA_BYTES cfg ∧
      (i + 1) % DATA_BYTES cfg = i % DATA_BYTES cfg + 1 := by
  cases cfg <;> simp only [DATA_BYTES] at * <;> omega

theorem bigEndian_zero (data : Nat → Byte) (start : Nat) : bigEndian data start 0 = 0 := rfl

theorem bigEndian_succ (data : Nat → Byte) (start c : Nat) :
    bigEndian data start (c + 1) = bigEndian data start c * 256 + (data (start + c)).val := by
  unfold bigEndian
  rw [List.range_succ, List.map_append, List.sum_append]
  simp only [List.map_cons, List.map_nil, List.sum_cons, List.sum_nil, Nat.add_sub_cancel,
    Nat.sub_self, pow_zero, Nat.mul_one, Nat.add_zero]
  congr 1
  rw [← List.sum_map_mul_right]
  congr 1
  apply List.map_congr_left
  intro j hj
  have hj' : j < c := List.mem_range.mp hj
  have : c - j = (c - 1 - j) + 1 := by omega
  rw [this, pow_succ, Nat.mul_assoc]

theorem bigEndian_lt (data : Nat → Byte) (start c : Nat) : bigEndian data start c < 256 ^ c := by
  induction c with
  | zero => simp [bigEndian_zero]
  | succ c ih =>
    rw [bigEndian_succ, pow_succ]
    have := (data (start + c)).isLt
    omega

/-! ## The write direction -/

/-- The word of the final, partial transfer: the `len % DATA_BYTES` trailing bytes,
shifted into the most significant positions. -/
def tailWord (cfg : DataWidth) (data : Nat → Byte) (len : Nat) : Nat :=
  bigEndian data (len / DATA_BYTES cfg * DATA_BYTES cfg) (len % DATA_BYTES cfg) *
    256 ^ (DATA_BYTES cfg - len % DATA_BYTES cfg)

/-- All words of one write, in the order of issue. -/
def wordsOf (cfg : DataWidth) (data : Nat → Byte) (len : Nat) : List Nat :=
  fullWords cfg data (len / DATA_BYTES cfg) ++
    (if len % DATA_BYTES cfg ≠ 0 then [tailWord cfg data len] else [])

theorem fullWords_succ (cfg : DataWidth) (data : Nat → Byte) (q : Nat) :
    fullWords cfg data (q + 1) =
      fullWords cfg data q ++ [bigEndian data (q * DATA_BYTES cfg) (DATA_BYTES cfg)] := by
  simp [fullWords, List.range_succ]

theorem writeAll_append {σ : Type} (wr : Nat → Nat → σ → σ) (a : Nat) (ws : List Nat) (w : Nat)
    (s : σ) : writeAll wr a (ws ++ [w]) s = wr a w (writeAll wr a ws s) := by
  simp [writeAll, List.foldl_append]

theorem accumulate_eq (cfg : DataWidth) (data : Nat → Byte) (i : Nat) :
    ((bigEndian data (i / DATA_BYTES cfg * DATA_BYTES cfg) (i % DATA_BYTES cfg) <<< 8) +
        (data i).val) % 2 ^ DATA_WIDTH cfg =
      bigEndian data (i / DATA_BYTES cfg * DATA_BYTES cfg) (i % DATA_BYTES cfg + 1) := by
  have hpos := DATA_BYTES_pos cfg
  have hi : i / DATA_BYTES cfg * DATA_BYTES cfg + i % DATA_BYTES cfg = i := Nat.div_add_mod' _ _
  rw [bigEndian_succ, hi, Nat.shiftLeft_eq]
  have h1 : bigEndian data (i / DATA_BYTES cfg * DATA_BYTES cfg) (i % DATA_BYTES cfg + 1) <
      256 ^ (i % DATA_BYTES cfg + 1) := bigEndian_lt _ _ _
  rw [bigEndian_succ, hi] at h1
  have h2 : 256 ^ (i % DATA_BYTES cfg + 1) ≤ 256 ^ DATA_BYTES cfg :=
    Nat.pow_le_pow_right (by decide) (Nat.mod_lt _ hpos)
  rw [two_pow_DATA_WIDTH]
  exact Nat.mod_eq_of_lt (by norm_num at h1 ⊢; omega)

/-- Invariant of the write loop: after `i` iterations the accumulator holds the bytes
of the current, incomplete group and every complete group has been issued. -/
theorem MasterWrite_loop_spec {σ : Type} (cfg : DataWidth)
    (protocol : IMasterHardwareBusProtocol σ) (addr : Int) (data : Nat → Byte) (s0 : σ)
    (n i : Nat) :
    MasterWrite.loop cfg protocol addr data n i
        (bigEndian data (i / DATA_BYTES cfg * DATA_BYTES cfg) (i % DATA_BYTES cfg))
        (writeAll protocol.masterWrite (toAddr addr) (fullWords cfg data (i / DATA_BYTES cfg)) s0) =
      (bigEndian data ((i + n) / DATA_BYTES cfg * DATA_BYTES cfg) ((i + n) % DATA_BYTES cfg),
        writeAll protocol.masterWrite (toAddr addr)
          (fullWords cfg data ((i + n) / DATA_BYTES cfg)) s0) := by
  induction n generalizing i with
  | zero => simp [MasterWrite.loop]
  | succ n ih =>
    rw [MasterWrite.loop, accumulate_eq]
    have hn : i + (n + 1) = (i + 1) + n := by omega
    by_cases hb : (i + 1) % DATA_BYTES cfg = 0
    · obtain ⟨hq, hr⟩ := succ_of_boundary cfg i hb
      have := ih (i + 1)
      rw [hb, hq, bigEndian_zero, fullWords_succ, writeAll_append] at this
      simp only [hb, if_true, hr, hn]
      exact this
    · obtain ⟨hq, hr⟩ := succ_of_inner cfg i hb
      have := ih (i + 1)
      rw [hq, hr] at this
      simp only [hb, if_false, hn]
      exact this

theorem tail_shift_eq (cfg : DataWidth) (data : Nat → Byte) (len : Nat) :
    (bigEndian data (len / DATA_BYTES cfg * DATA_BYTES cfg) (len % DATA_BYTES cfg) <<<
        (8 * (DATA_BYTES cfg - len % DATA_BYTES cfg))) % 2 ^ DATA_WIDTH cfg =
      tailWord cfg data len := by
  have hpos := DATA_BYTES_pos cfg
  have hr : len % DATA_BYTES cfg < DATA_BYTES cfg := Nat.mod_lt _ hpos
  rw [Nat.shiftLeft_eq, pow_mul, two_pow_DATA_WIDTH, tailWord]
  norm_num
  apply Nat.mod_eq_of_lt
  have h1 := bigEndian_lt data (len / DATA_BYTES cfg * DATA_BYTES cfg) (len % DATA_BYTES cfg)
  calc _ < 256 ^ (len % DATA_BYTES cfg) * 256 ^ (DATA_BYTES cfg - len % DATA_BYTES cfg) :=
        Nat.mul_lt_mul_of_pos_right h1 (by positivity)
    _ = 256 ^ DATA_BYTES cfg := by rw [← pow_add]; congr 1; omega

/-- A master write issues exactly the words of `wordsOf`, in order, to the one
address `toAddr addr`, whatever the protocol behind the port. -/
theorem MasterWrite_eq_writeAll {σ : Type} (cfg : DataWidth)
    (protocol : IMasterHardwareBusProtocol σ) (addr : Int) (data : Nat → Byte) (len : Nat)
    (s : σ) :
    MasterWrite cfg protocol addr data len s =
      writeAll protocol.masterWrite (toAddr addr) (wordsOf cfg data len) s := by
  have h := MasterWrite_loop_spec cfg protocol addr data s len 0
  simp only [Nat.zero_div, Nat.zero_mod, Nat.zero_mul, bigEndian_zero, Nat.zero_add,
    fullWords, List.range_zero, List.map_nil, writeAll, List.foldl_nil] at h
  unfold MasterWrite wordsOf
  simp only [h]
  by_cases hr : len % DATA_BYTES cfg = 0
  · simp [hr, writeAll, fullWords]
  · simp only [ne_eq, hr, not_false_eq_true, if_true, tail_shift_eq]
    rw [writeAll_append]
    simp [writeAll, fullWords]

theorem SlaveWrite_loop_eq {σ : Type} (cfg : DataWidth) (protocol : ISlaveHardwareBusProtocol σ)
    (addr : Int) (data : Nat → Byte) (n i word : Nat) (s : σ) :
    SlaveWrite.loop cfg protocol addr data n i word s =
      MasterWrite.loop cfg (asMaster protocol) addr data n i word s := by
  induction n generalizing i word s with
  | zero => rfl
  | succ n ih =>
    rw [SlaveWrite.loop, MasterWrite.loop]
    simp only [ih, asMaster]

/-- The slave write is the master write over the slave port. -/
theorem SlaveWrite_eq_MasterWrite {σ : Type} (cfg : DataWidth)
    (protocol : ISlaveHardwareBusProtocol σ) (addr : Int) (data : Nat → Byte) (len : Nat)
    (s : σ) :
    SlaveWrite cfg protocol addr data len s =
      MasterWrite cfg (asMaster protocol) addr data len s := by
  unfold SlaveWrite MasterWrite
  simp only [SlaveWrite_loop_eq, asMaster]

/-! ## The read direction -/

theorem SlaveRead_loop_eq {σ : Type} (cfg : DataWidth) (protocol : ISlaveHardwareBusProtocol σ)
    (addr : Int) (n i word : Nat) (data : Nat → Byte) (s : σ) :
    SlaveRead.loop cfg protocol addr n i word data s =
      MasterRead.loop cfg (asMaster protocol) addr n i word data s := by
  induction n generalizing i word data s with
  | zero => rfl
  | succ n ih =>
    rw [SlaveRead.loop, MasterRead.loop]
    simp only [ih, asMaster]

/-- The slave read is the master read over the slave port. -/
theorem SlaveRead_eq_MasterRead {σ : Type} (cfg : DataWidth)
    (protocol : ISlaveHardwareBusProtocol σ) (addr : Int) (data : Nat → Byte) (len : Nat)
    (s : σ) :
    SlaveRead cfg protocol addr data len s =
      MasterRead cfg (asMaster protocol) addr data len s := by
  unfold SlaveRead MasterRead
  exact SlaveRead_loop_eq cfg protocol addr len 0 0 data s

/-- The byte the read loop extracts after `r` shifts of the word `cur`. -/
theorem topByte_shifted (cfg : DataWidth) (word cur r : Nat) (hr : r < DATA_BYTES cfg)
    (h : word % 2 ^ DATA_WIDTH cfg = (cur * 256 ^ r) % 2 ^ DATA_WIDTH cfg) :
    (topByte cfg word).val = byteOf cfg cur r := by
  have hw : DATA_WIDTH cfg - 8 = 8 * (DATA_BYTES cfg - 1) := by
    rw [DATA_WIDTH_eq]; omega
  have h256 : (2 : Nat) ^ (8 * (DATA_BYTES cfg - 1)) = 256 ^ (DATA_BYTES cfg - 1) := by
    rw [pow_mul]; norm_num
  have hsplit : (256 : Nat) ^ DATA_BYTES cfg = 256 ^ (DATA_BYTES cfg - 1) * 256 := by
    rw [← pow_succ]; congr 1; omega
  have hsplit2 : (256 : Nat) ^ (DATA_BYTES cfg - 1) = 256 ^ (DATA_BYTES cfg - 1 - r) * 256 ^ r := by
    rw [← pow_add]; congr 1; omega
  rw [two_pow_DATA_WIDTH, hsplit] at h
  show word / 2 ^ (DATA_WIDTH cfg - 8) % 256 = byteOf cfg cur r
  rw [hw, h256, ← Nat.mod_mul_right_div_self, h, Nat.mod_mul_right_div_self, byteOf]
  congr 1
  rw [hsplit2]
  exact Nat.mul_div_mul_right _ _ (by positivity)

theorem wordCount_succ (cfg : DataWidth) (i : Nat) :
    wordCount cfg (i + 1) =
      if i % DATA_BYTES cfg = 0 then wordCount cfg i + 1 else wordCount cfg i := by
  unfold wordCount
  cases cfg <;> simp only [DATA_BYTES] <;> split <;> omega

theorem wordCount_of_boundary (cfg : DataWidth) (i : Nat) (h : i % DATA_BYTES cfg = 0) :
    wordCount cfg i = i / DATA_BYTES cfg := by
  unfold wordCount
  cases cfg <;> simp only [DATA_BYTES] at * <;> omega

/-- Invariant of the read loop, relative to the state `s0` of the protocol and the
buffer contents at the start of the call: after `i` iterations `ceil(i / DATA_BYTES)`
reads have been made and the local word is the last word read, shifted left by
`i % DATA_BYTES` bytes. -/
theorem MasterRead_loop_spec {σ : Type} (cfg : DataWidth)
    (protocol : IMasterHardwareBusProtocol σ) (addr : Int) (s0 : σ) (n i word : Nat)
    (data : Nat → Byte) (s : σ)
    (hs : s = readState protocol.masterRead (toAddr addr) s0 (wordCount cfg i))
    (hword : i % DATA_BYTES cfg ≠ 0 → word % 2 ^ DATA_WIDTH cfg =
      (readWord protocol.masterRead (toAddr addr) s0 (i / DATA_BYTES cfg) *
        256 ^ (i % DATA_BYTES cfg)) % 2 ^ DATA_WIDTH cfg) :
    (MasterRead.loop cfg protocol addr n i word data s).2 =
        readState protocol.masterRead (toAddr addr) s0 (wordCount cfg (i + n)) ∧
      ∀ j, (i ≤ j → j < i + n →
          ((MasterRead.loop cfg protocol addr n i word data s).1 j).val =
            byteOf cfg (readWord protocol.masterRead (toAddr addr) s0 (j / DATA_BYTES cfg))
              (j % DATA_BYTES cfg)) ∧
        (¬ (i ≤ j ∧ j < i + n) →
          (MasterRead.loop cfg protocol addr n i word data s).1 j = data j) := by
  induction n generalizing i word data s with
  | zero =>
    refine ⟨by simpa [MasterRead.loop] using hs, fun j => ⟨fun h1 h2 => by omega, fun _ => rfl⟩⟩
  | succ n ih =>
    have hpos := DATA_BYTES_pos cfg
    have hlt : i % DATA_BYTES cfg < DATA_BYTES cfg := Nat.mod_lt _ hpos
    rw [MasterRead.loop]
    -- the word in hand at iteration `i`, after the conditional refill
    set r := (if i % DATA_BYTES cfg = 0 then protocol.masterRead (toAddr addr) s else (word, s))
      with hrdef
    have hr2 : r.2 = readState protocol.masterRead (toAddr addr) s0 (wordCount cfg (i + 1)) := by
      rw [wordCount_succ]
      by_cases hb : i % DATA_BYTES cfg = 0
      · simp only [hrdef, hb, if_true, readState, hs]
      · simp only [hrdef, hb, if_false, hs]
    have hr1 : r.1 % 2 ^ DATA_WIDTH cfg =
        (readWord protocol.masterRead (toAddr addr) s0 (i / DATA_BYTES cfg) *
          256 ^ (i % DATA_BYTES cfg)) % 2 ^ DATA_WIDTH cfg := by
      by_cases hb : i % DATA_BYTES cfg = 0
      · simp only [hrdef, hb, if_true, pow_zero, Nat.mul_one, readWord, hs,
          wordCount_of_boundary cfg i hb]
      · simp only [hrdef, hb, if_false]
        exact hword hb
    have hbyte := topByte_shifted cfg r.1 _ _ hlt hr1
    have hnext : (i + 1) % DATA_BYTES cfg ≠ 0 → ((r.1 <<< 8) % 2 ^ DATA_WIDTH cfg) %
        2 ^ DATA_WIDTH cfg =
        (readWord protocol.masterRead (toAddr addr) s0 ((i + 1) / DATA_BYTES cfg) *
          256 ^ ((i + 1) % DATA_BYTES cfg)) % 2 ^ DATA_WIDTH cfg := by
      intro hb
      obtain ⟨hq, hm⟩ := succ_of_inner cfg i hb
      rw [hq, hm, Nat.mod_mod, Nat.shiftLeft_eq, pow_succ 256, ← Nat.mul_assoc]
      exact Nat.ModEq.mul_right (2 ^ 8) hr1
    obtain ⟨ih1, ih2⟩ := ih (i + 1) _ (Function.update data i (topByte cfg r.1)) r.2 hr2 hnext
    have hn : i + 1 + n = i + (n + 1) := by omega
    rw [hn] at ih1 ih2
    refine ⟨ih1, fun j => ⟨fun h1 h2 => ?_, fun h => ?_⟩⟩
    · by_cases hj : j = i
      · subst hj
        rw [(ih2 j).2 (by omega), Function.update_same]
        exact hbyte
      · exact (ih2 j).1 (by omega) h2
    · rw [(ih2 j).2 (by omega), Function.update_noteq (by omega)]

/-! ## The recording protocols -/

theorem wordsOf_length (cfg : DataWidth) (data : Nat → Byte) (len : Nat) :
    (wordsOf cfg data len).length = (len + DATA_BYTES cfg - 1) / DATA_BYTES cfg := by
  unfold wordsOf fullWords
  rw [List.length_append, List.length_map, List.length_range]
  cases cfg <;> simp only [DATA_BYTES] <;> split <;> simp <;> omega

theorem writeAll_recMaster (feed : Nat → Nat) (a : Nat) (ws : List Nat) (s : Recorder) :
    writeAll (recMaster feed).masterWrite a ws s =
      ⟨s.calls ++ ws.map (Call.masterWrite a), s.reads⟩ := by
  induction ws generalizing s with
  | nil => simp [writeAll]
  | cons w ws ih =>
    have := ih ⟨s.calls ++ [Call.masterWrite a w], s.reads⟩
    simp only [writeAll, List.foldl_cons] at this ⊢
    simpa [recMaster] using this

theorem writeAll_recSlave (feed : Nat → Nat) (a : Nat) (ws : List Nat) (s : Recorder) :
    writeAll (asMaster (recSlave feed)).masterWrite a ws s =
      ⟨s.calls ++ ws.map (Call.slaveWrite a), s.reads⟩ := by
  induction ws generalizing s with
  | nil => simp [writeAll]
  | cons w ws ih =>
    have := ih ⟨s.calls ++ [Call.slaveWrite a w], s.reads⟩
    simp only [writeAll, List.foldl_cons] at this ⊢
    simpa [recSlave, asMaster] using this

theorem readState_recMaster (feed : Nat → Nat) (a : Nat) (s : Recorder) (k : Nat) :
    readState (recMaster feed).masterRead a s k =
      ⟨s.calls ++ List.replicate k (Call.masterRead a), s.reads + k⟩ := by
  induction k with
  | zero => simp [readState]
  | succ k ih =>
    rw [readState, ih]
    simp [recMaster, List.replicate_succ', Nat.add_assoc]

theorem readState_recSlave (feed : Nat → Nat) (a : Nat) (s : Recorder) (k : Nat) :
    readState (asMaster (recSlave feed)).masterRead a s k =
      ⟨s.calls ++ List.replicate k (Call.slaveRead a), s.reads + k⟩ := by
  induction k with
  | zero => simp [readState]
  | succ k ih =>
    rw [readState, ih]
    simp [recSlave, asMaster, List.replicate_succ', Nat.add_assoc]

theorem readWord_recMaster (feed : Nat → Nat) (a : Nat) (s : Recorder) (k : Nat) :
    readWord (recMaster feed).masterRead a s k = feed (s.reads + k) := by
  rw [readWord, readState_recMaster]; rfl

theorem readWord_recSlave (feed : Nat → Nat) (a : Nat) (s : Recorder) (k : Nat) :
    readWord (asMaster (recSlave feed)).masterRead a s k = feed (s.reads + k) := by
  rw [readWord, readState_recSlave]; rfl

/-- What a master read does, for any protocol behind the port. -/
theorem MasterRead_spec {σ : Type} (cfg : DataWidth) (protocol : IMasterHardwareBusProtocol σ)
    (addr : Int) (data : Nat → Byte) (len : Nat) (s : σ) :
    (MasterRead cfg protocol addr data len s).2 =
        readState protocol.masterRead (toAddr addr) s
          ((len + DATA_BYTES cfg - 1) / DATA_BYTES cfg) ∧
      ∀ j, (j < len → ((MasterRead cfg protocol addr data len s).1 j).val =
            byteOf cfg (readWord protocol.masterRead (toAddr addr) s (j / DATA_BYTES cfg))
              (j % DATA_BYTES cfg)) ∧
        (len ≤ j → (MasterRead cfg protocol addr data len s).1 j = data j) := by
  have h := MasterRead_loop_spec cfg protocol addr s len 0 0 data s
    (by simp [wordCount, readState, Nat.div_eq_of_lt (Nat.sub_lt (DATA_BYTES_pos cfg) Nat.one_pos)])
    (by simp)
  simp only [Nat.zero_add, Nat.zero_le, true_and, forall_const] at h
  refine ⟨h.1, fun j => ⟨(h.2 j).1, fun hj => (h.2 j).2 (by omega)⟩⟩

/-- The calls a master write makes on the recording protocol. -/
theorem MasterWrite_calls (cfg : DataWidth) (feed : Nat → Nat) (addr : Int)
    (data : Nat → Byte) (len : Nat) :
    (MasterWrite cfg (recMaster feed) addr data len Recorder.init).calls =
      (wordsOf cfg data len).map (Call.masterWrite (toAddr addr)) := by
  rw [MasterWrite_eq_writeAll, writeAll_recMaster]; rfl

/-- The calls a slave write makes on the recording protocol. -/
theorem SlaveWrite_calls (cfg : DataWidth) (feed : Nat → Nat) (addr : Int)
    (data : Nat → Byte) (len : Nat) :
    (SlaveWrite cfg (recSlave feed) addr data len Recorder.init).calls =
      (wordsOf cfg data len).map (Call.slaveWrite (toAddr addr)) := by
  rw [SlaveWrite_eq_MasterWrite, MasterWrite_eq_writeAll, writeAll_recSlave]; rfl

/-- The calls a master read makes on the recording protocol. -/
theorem MasterRead_calls (cfg : DataWidth) (feed : Nat → Nat) (addr : Int)
    (data : Nat → Byte) (len : Nat) :
    (MasterRead cfg (recMaster feed) addr data len Recorder.init).2.calls =
      List.replicate ((len + DATA_BYTES cfg - 1) / DATA_BYTES cfg)
        (Call.masterRead (toAddr addr)) := by
  rw [(MasterRead_spec cfg (recMaster feed) addr data len Recorder.init).1, readState_recMaster]
  simp [Recorder.init]

/-- The calls a slave read makes on the recording protocol. -/
theorem SlaveRead_calls (cfg : DataWidth) (feed : Nat → Nat) (addr : Int)
    (data : Nat → Byte) (len : Nat) :
    (SlaveRead cfg (recSlave feed) addr data len Recorder.init).2.calls =
      List.replicate ((len + DATA_BYTES cfg - 1) / DATA_BYTES cfg)
        (Call.slaveRead (toAddr addr)) := by
  rw [SlaveRead_eq_MasterRead,
    (MasterRead_spec cfg (asMaster (recSlave feed)) addr data len Recorder.init).1,
    readState_recSlave]
  simp [Recorder.init]

/-! ## Claims about the media access layer -/

/-- C1: each of MasterWrite, SlaveWrite, MasterRead and SlaveRead issues exactly
`ceil(len / DATA_BYTES)` calls to the protocol behind its port, all of them calls of its
own kind (masterWrite, slaveWrite, masterRead, slaveRead), for every buffer, every
length (zero and non-multiples of `DATA_BYTES` included) and each of the three legal
data widths. -/
theorem C1_transaction_count (cfg : DataWidth) (feed : Nat → Nat) (addr : Int)
    (data : Nat → Byte) (len : Nat) :
    (∃ ws : List Nat, ws.length = (len + DATA_BYTES cfg - 1) / DATA_BYTES cfg ∧
        (MasterWrite cfg (recMaster feed) addr data len Recorder.init).calls =
          ws.map (Call.masterWrite (toAddr addr))) ∧
      (∃ ws : List Nat, ws.length = (len + DATA_BYTES cfg - 1) / DATA_BYTES cfg ∧
        (SlaveWrite cfg (recSlave feed) addr data len Recorder.init).calls =
          ws.map (Call.slaveWrite (toAddr addr))) ∧
      (MasterRead cfg (recMaster feed) addr data len Recorder.init).2.calls =
        List.replicate ((len + DATA_BYTES cfg - 1) / DATA_BYTES cfg)
          (Call.masterRead (toAddr addr)) ∧
      (SlaveRead cfg (recSlave feed) addr data len Recorder.init).2.calls =
        List.replicate ((len + DATA_BYTES cfg - 1) / DATA_BYTES cfg)
          (Call.slaveRead (toAddr addr)) :=
  ⟨⟨_, wordsOf_length cfg data len, MasterWrite_calls cfg feed addr data len⟩,
    ⟨_, wordsOf_length cfg data len, SlaveWrite_calls cfg feed addr data len⟩,
    MasterRead_calls cfg feed addr data len, SlaveRead_calls cfg feed addr data len⟩

theorem wordsOf_getElem (cfg : DataWidth) (data : Nat → Byte) (len k : Nat)
    (hk : k < len / DATA_BYTES cfg) :
    (wordsOf cfg data len)[k]? = some (bigEndian data (k * DATA_BYTES cfg) (DATA_BYTES cfg)) := by
  unfold wordsOf fullWords
  rw [List.getElem?_append_left (by simpa using hk)]
  simp [hk]

theorem wordsOf_getLast (cfg : DataWidth) (data : Nat → Byte) (len : Nat)
    (hr : len % DATA_BYTES cfg ≠ 0) :
    (wordsOf cfg data len).getLast? = some (tailWord cfg data len) := by
  unfold wordsOf
  simp [hr]

/-- The bytes of a packed group, once it has been shifted into the most significant
positions of a word, are the bytes of the buffer in buffer order. -/
theorem byteOf_bigEndian (cfg : DataWidth) (data : Nat → Byte) (start c j : Nat)
    (hc : c ≤ DATA_BYTES cfg) (hj : j < c) :
    byteOf cfg (bigEndian data start c * 256 ^ (DATA_BYTES cfg - c)) j = (data (start + j)).val := by
  have e1 : DATA_BYTES cfg - 1 - j = (c - 1 - j) + (DATA_BYTES cfg - c) := by omega
  rw [byteOf, e1, pow_add, Nat.mul_div_mul_right _ _ (by positivity)]
  clear e1 hc
  induction c with
  | zero => omega
  | succ c ih =>
    rw [bigEndian_succ]
    by_cases hjc : j = c
    · subst hjc
      have := (data (start + j)).isLt
      simp only [Nat.add_sub_cancel, Nat.sub_self, pow_zero, Nat.div_one]
      omega
    · have e2 : c + 1 - 1 - j = (c - 1 - j) + 1 := by omega
      have := (data (start + c)).isLt
      rw [e2, pow_succ, Nat.mul_comm (256 ^ (c - 1 - j)) 256, ← Nat.div_div_eq_div_mul]
      have e3 : (bigEndian data start c * 256 + (data (start + c)).val) / 256 =
          bigEndian data start c := by omega
      rw [e3]
      exact ih (by omega)

/-- The low-order bytes of the final, partial word are zero. -/
theorem byteOf_tailWord_low (cfg : DataWidth) (data : Nat → Byte) (len j : Nat)
    (h1 : len % DATA_BYTES cfg ≤ j) (h2 : j < DATA_BYTES cfg) :
    byteOf cfg (tailWord cfg data len) j = 0 := by
  have e1 : DATA_BYTES cfg - len % DATA_BYTES cfg =
      (j - len % DATA_BYTES cfg) + 1 + (DATA_BYTES cfg - 1 - j) := by omega
  rw [byteOf, tailWord, e1, pow_add, ← Nat.mul_assoc, Nat.mul_div_cancel _ (by positivity),
    pow_succ, ← Nat.mul_assoc]
  exact Nat.mul_mod_left _ _

/-- C2: for every `k < floor(len / DATA_BYTES)`, the `k`-th word MasterWrite passes to
protocol masterWrite is the big-endian value of the bytes
`buf[k*DATA_BYTES .. k*DATA_BYTES + DATA_BYTES - 1]` alone, the sum over `j` of
`buf[k*DATA_BYTES + j] * 256^(DATA_BYTES-1-j)`. -/
theorem C2_full_word_big_endian (cfg : DataWidth) (feed : Nat → Nat) (addr : Int)
    (data : Nat → Byte) (len k : Nat) (hk : k < len / DATA_BYTES cfg) :
    (MasterWrite cfg (recMaster feed) addr data len Recorder.init).calls[k]? =
      some (Call.masterWrite (toAddr addr)
        (((List.range (DATA_BYTES cfg)).map fun j =>
          (data (k * DATA_BYTES cfg + j)).val * 256 ^ (DATA_BYTES cfg - 1 - j)).sum)) := by
  rw [MasterWrite_calls, List.getElem?_map, wordsOf_getElem cfg data len k hk]
  rfl

/-- C2, the scenario of the specification: the bytes `41 42 43 44` (hex) written to
address `0x0010` with 32-bit words give the word `0x41424344` as call number zero. -/
theorem C2_full_word_big_endian_witness :
    (MasterWrite .w32 (recMaster fun _ => 0) 0x0010 (bufOf [0x41, 0x42, 0x43, 0x44]) 4
        Recorder.init).calls[0]? = some (Call.masterWrite 0x0010 0x41424344) :=
  (C2_full_word_big_endian .w32 (fun _ => 0) 0x0010 (bufOf [0x41, 0x42, 0x43, 0x44]) 4 0
    (by decide)).trans (by decide)

/-- C3: when `r = len % DATA_BYTES` is not zero, the last word MasterWrite passes to
protocol masterWrite holds the `r` remaining bytes of the buffer in its `r` most
significant byte positions, in buffer order, and its `DATA_BYTES - r` low-order bytes
are zero. -/
theorem C3_partial_word_padding (cfg : DataWidth) (feed : Nat → Nat) (addr : Int)
    (data : Nat → Byte) (len : Nat) (hr : len % DATA_BYTES cfg ≠ 0) :
    ∃ w : Nat,
      (MasterWrite cfg (recMaster feed) addr data len Recorder.init).calls.getLast? =
        some (Call.masterWrite (toAddr addr) w) ∧
      w < 2 ^ DATA_WIDTH cfg ∧
      (∀ j, j < len % DATA_BYTES cfg →
        byteOf cfg w j = (data (len / DATA_BYTES cfg * DATA_BYTES cfg + j)).val) ∧
      (∀ j, len % DATA_BYTES cfg ≤ j → j < DATA_BYTES cfg → byteOf cfg w j = 0) := by
  have hlt : len % DATA_BYTES cfg < DATA_BYTES cfg := Nat.mod_lt _ (DATA_BYTES_pos cfg)
  refine ⟨tailWord cfg data len, ?_, ?_, ?_, ?_⟩
  · rw [MasterWrite_calls, List.getLast?_map, wordsOf_getLast cfg data len hr]
    rfl
  · rw [← tail_shift_eq]
    exact Nat.mod_lt _ (by positivity)
  · intro j hj
    exact byteOf_bigEndian cfg data _ _ j (Nat.le_of_lt hlt) hj
  · intro j h1 h2
    exact byteOf_tailWord_low cfg data len j h1 h2

/-- C3, the scenario of the specification: the bytes `41 42` (hex) written to address
`0x0010` with 32-bit words give the single word `0x41420000`. -/
theorem C3_partial_word_padding_witness :
    2 % DATA_BYTES .w32 ≠ 0 ∧
      (MasterWrite .w32 (recMaster fun _ => 0) 0x0010 (bufOf [0x41, 0x42]) 2
        Recorder.init).calls = [Call.masterWrite 0x0010 0x41420000] ∧
      ∃ w : Nat,
        (MasterWrite .w32 (recMaster fun _ => 0) 0x0010 (bufOf [0x41, 0x42]) 2
          Recorder.init).calls.getLast? = some (Call.masterWrite (toAddr 0x0010) w) ∧
        w < 2 ^ DATA_WIDTH .w32 ∧
        (∀ j, j < 2 % DATA_BYTES .w32 →
          byteOf .w32 w j = ((bufOf [0x41, 0x42]) (2 / DATA_BYTES .w32 * DATA_BYTES .w32 + j)).val) ∧
        (∀ j, 2 % DATA_BYTES .w32 ≤ j → j < DATA_BYTES .w32 → byteOf .w32 w j = 0) :=
  ⟨by decide, by decide,
    C3_partial_word_padding .w32 (fun _ => 0) 0x0010 (bufOf [0x41, 0x42]) 2 (by decide)⟩

/-- C4: every protocol call issued by one MasterWrite, MasterRead, SlaveWrite or
SlaveRead invocation carries the same address, the low 16 bits of the caller's `addr`;
the address is not incremented between the words of a transfer. -/
theorem C4_same_address (cfg : DataWidth) (feed : Nat → Nat) (addr : Int)
    (data : Nat → Byte) (len : Nat) :
    (toAddr addr < 2 ^ 16 ∧ (toAddr addr : Int) = addr % 2 ^ 16) ∧
      (MasterWrite cfg (recMaster feed) addr data len Recorder.init).calls.map Call.addr =
        List.replicate ((len + DATA_BYTES cfg - 1) / DATA_BYTES cfg) (toAddr addr) ∧
      (MasterRead cfg (recMaster feed) addr data len Recorder.init).2.calls.map Call.addr =
        List.replicate ((len + DATA_BYTES cfg - 1) / DATA_BYTES cfg) (toAddr addr) ∧
      (SlaveWrite cfg (recSlave feed) addr data len Recorder.init).calls.map Call.addr =
        List.replicate ((len + DATA_BYTES cfg - 1) / DATA_BYTES cfg) (toAddr addr) ∧
      (SlaveRead cfg (recSlave feed) addr data len Recorder.init).2.calls.map Call.addr =
        List.replicate ((len + DATA_BYTES cfg - 1) / DATA_BYTES cfg) (toAddr addr) := by
  have hmap : ∀ (f : Nat → Nat → Call) (ws : List Nat), (∀ w, (f (toAddr addr) w).addr = toAddr addr) →
      (ws.map (f (toAddr addr))).map Call.addr = List.replicate ws.length (toAddr addr) := by
    intro f ws hf
    induction ws with
    | nil => rfl
    | cons w ws ih => simp only [List.map_cons, hf, ih, List.length_cons, List.replicate_succ]
  refine ⟨⟨?_, ?_⟩, ?_, ?_, ?_, ?_⟩
  · unfold toAddr ADDR_WIDTH
    have := Int.emod_lt_of_pos addr (show (0 : Int) < 2 ^ 16 by norm_num)
    have := Int.emod_nonneg addr (show (2 ^ 16 : Int) ≠ 0 by norm_num)
    omega
  · unfold toAddr ADDR_WIDTH
    exact Int.toNat_of_nonneg (Int.emod_nonneg addr (by norm_num))
  · rw [MasterWrite_calls, hmap Call.masterWrite _ (fun _ => rfl), wordsOf_length]
  · rw [MasterRead_calls, List.map_replicate]; rfl
  · rw [SlaveWrite_calls, hmap Call.slaveWrite _ (fun _ => rfl), wordsOf_length]
  · rw [SlaveRead_calls, List.map_replicate]; rfl

/-- C5: for every `i < len`, the byte MasterRead stores at output index `i` is byte
number `i % DATA_BYTES`, counted from the most significant byte, of the word returned
by protocol masterRead call number `i / DATA_BYTES` of that invocation. -/
theorem C5_read_unpack_order (cfg : DataWidth) (feed : Nat → Nat) (addr : Int)
    (data : Nat → Byte) (len i : Nat) (hi : i < len) :
    ((MasterRead cfg (recMaster feed) addr data len Recorder.init).1 i).val =
      byteOf cfg (feed (i / DATA_BYTES cfg)) (i % DATA_BYTES cfg) := by
  rw [((MasterRead_spec cfg (recMaster feed) addr data len Recorder.init).2 i).1 hi,
    readWord_recMaster]
  simp [Recorder.init]

/-- C5 at a concrete input: six bytes read from the words `0x01020304`, `0x05060708`;
output index 5 receives byte 1 of word 1, that is `0x06`. -/
theorem C5_read_unpack_order_witness :
    ((MasterRead .w32 (recMaster fun k => [0x01020304, 0x05060708].getD k 0) 0x0010
        (fun _ => 0) 6 Recorder.init).1 5).val = 0x06 :=
  (C5_read_unpack_order .w32 (fun k => [0x01020304, 0x05060708].getD k 0) 0x0010
    (fun _ => 0) 6 5 (by decide)).trans (by decide)

/-- C6: MasterRead and SlaveRead with length `len` leave every position of the output
buffer at index `len` or above as it was, whatever the protocol returns and whether
or not `len` is a multiple of `DATA_BYTES`. -/
theorem C6_read_frame {σ : Type} (cfg : DataWidth) (pm : IMasterHardwareBusProtocol σ)
    (ps : ISlaveHardwareBusProtocol σ) (addr : Int) (data : Nat → Byte) (len : Nat) (s : σ)
    (j : Nat) (hj : len ≤ j) :
    (MasterRead cfg pm addr data len s).1 j = data j ∧
      (SlaveRead cfg ps addr data len s).1 j = data j := by
  refine ⟨((MasterRead_spec cfg pm addr data len s).2 j).2 hj, ?_⟩
  rw [SlaveRead_eq_MasterRead]
  exact ((MasterRead_spec cfg (asMaster ps) addr data len s).2 j).2 hj

/-- C6 at a concrete input: a read of 2 bytes from a 4-byte word leaves output
positions 2 and 3 at their previous value `0xEE`. -/
theorem C6_read_frame_witness :
    (MasterRead .w32 (recMaster fun _ => 0x01020304) 0x0010 (fun _ => 0xEE) 2
        Recorder.init).1 2 = 0xEE ∧
      (SlaveRead .w32 (recSlave fun _ => 0x01020304) 0x0010 (fun _ => 0xEE) 2
        Recorder.init).1 2 = 0xEE :=
  C6_read_frame .w32 (recMaster fun _ => 0x01020304) (recSlave fun _ => 0x01020304) 0x0010
    (fun _ => 0xEE) 2 Recorder.init 2 (by decide)

/-! ## Round trip through the loopback -/

theorem readState_loopback (a : Nat) (s : Nat → Nat) (k : Nat) :
    readState loopback.masterRead a s k = s := by
  induction k with
  | zero => rfl
  | succ k ih => rw [readState, ih]; rfl

theorem readWord_loopback (a : Nat) (s : Nat → Nat) (k : Nat) :
    readWord loopback.masterRead a s k = s a := by
  rw [readWord, readState_loopback]; rfl

/-- A write of at most one word's worth of bytes issues one word, unless it is empty. -/
theorem wordsOf_short (cfg : DataWidth) (data : Nat → Byte) (len : Nat) (h0 : 0 < len)
    (hlen : len ≤ DATA_BYTES cfg) :
    wordsOf cfg data len = [bigEndian data 0 len * 256 ^ (DATA_BYTES cfg - len)] := by
  unfold wordsOf fullWords tailWord
  rcases Nat.lt_or_eq_of_le hlen with h | h
  · have hq : len / DATA_BYTES cfg = 0 := Nat.div_eq_of_lt h
    have hm : len % DATA_BYTES cfg = len := Nat.mod_eq_of_lt h
    have : len ≠ 0 := by omega
    simp [hq, hm, this]
  · subst h
    have hq : DATA_BYTES cfg / DATA_BYTES cfg = 1 := Nat.div_self (DATA_BYTES_pos cfg)
    simp [hq, List.range_succ]

/-- C7 (as amended): through a loopback that stores the most recent word written per
address, MasterRead after MasterWrite at the same address reproduces the input bytes
whenever the transfer fits in one word, `len ≤ DATA_BYTES`. -/
theorem C7_round_trip_single_word (cfg : DataWidth) (addr : Int) (inp out : Nat → Byte)
    (len : Nat) (s : Nat → Nat) (hlen : len ≤ DATA_BYTES cfg) (i : Nat) (hi : i < len) :
    (MasterRead cfg loopback addr out len (MasterWrite cfg loopback addr inp len s)).1 i =
      inp i := by
  apply Fin.ext
  rw [((MasterRead_spec cfg loopback addr out len _).2 i).1 hi, readWord_loopback,
    MasterWrite_eq_writeAll, wordsOf_short cfg inp len (by omega) hlen]
  have hmod : i % DATA_BYTES cfg = i := Nat.mod_eq_of_lt (by omega)
  simp only [writeAll, List.foldl_cons, List.foldl_nil, loopback, Function.update_same, hmod]
  have := byteOf_bigEndian cfg inp 0 len i hlen hi
  simpa using this

/-- C7 (as amended) at a concrete input: three bytes through the loopback. -/
theorem C7_round_trip_single_word_witness :
    (MasterRead .w32 loopback 0x0010 (fun _ => 0) 3
        (MasterWrite .w32 loopback 0x0010 (bufOf [0x41, 0x42, 0x43]) 3 (fun _ => 0))).1 2 =
      bufOf [0x41, 0x42, 0x43] 2 :=
  C7_round_trip_single_word .w32 0x0010 (bufOf [0x41, 0x42, 0x43]) (fun _ => 0) 3 (fun _ => 0)
    (by decide) 2 (by decide)

/-- C7 as stated fails for a transfer of more than one word: all words go to the one
address, the loopback keeps only the last, and every read returns it. Writing the
bytes `1 .. 8` and reading 8 bytes back gives `5` at output index 0. -/
theorem C7_round_trip_counterexample :
    ¬ (∀ i, i < 8 →
        (MasterRead .w32 loopback 0x0010 (fun _ => 0) 8
          (MasterWrite .w32 loopback 0x0010 (bufOf [1, 2, 3, 4, 5, 6, 7, 8]) 8
            (fun _ => 0))).1 i = bufOf [1, 2, 3, 4, 5, 6, 7, 8] i) := by
  intro h
  have h0 := h 0 (by decide)
  revert h0
  decide


theorem quiet_step {M S : Type} (mb : Body M) (sb : Body S) (b : Bool) (s : Sim M S)
    (hm : s.master.isRunnable = false) (hs : s.slave.isRunnable = false)
    (hmw : s.master.wakeTime = none) (hsw : s.slave.wakeTime = none) :
    step mb sb b s = s := by
  obtain ⟨now, bus, ⟨ma, md, mst⟩, ⟨sa, sd, sst⟩, tr⟩ := s
  cases mst <;> cases sst <;>
    simp_all [step, evaluate, settle, Thread.turn, Thread.isRunnable, Thread.wakeTime,
      Thread.wake, firedEvents, earliest]

/-! ## Facts about the scheduler -/

theorem quiet_run {M S : Type} (mb : Body M) (sb : Body S) (order : Nat → Bool) (s : Sim M S)
    (hq : s.quiet = true) (n : Nat) : run mb sb order n s = s := by
  induction n with
  | zero => rfl
  | succ n ih =>
    rw [run, ih]
    simp only [Sim.quiet, Bool.and_eq_true, Bool.not_eq_eq_eq_not, Bool.not_true,
      Option.isNone_iff_eq_none] at hq
    exact quiet_step mb sb _ s hq.1.1.1 hq.1.1.2 hq.1.2 hq.2

theorem run_add {M S : Type} (mb : Body M) (sb : Body S) (order : Nat → Bool) (s : Sim M S)
    (m j : Nat) :
    run mb sb order (m + j) s = run mb sb (fun i => order (m + i)) j (run mb sb order m s) := by
  induction j with
  | zero => rfl
  | succ j ih =>
    show step mb sb (order (m + j)) (run mb sb order (m + j) s) = _
    rw [ih]; rfl

/-- Once a simulation has come to rest after `m` delta cycles, it stays as it is. -/
theorem run_of_quiet {M S : Type} (mb : Body M) (sb : Body S) (order : Nat → Bool)
    (s r : Sim M S) (m n : Nat) (hm : run mb sb order m s = r) (hq : r.quiet = true)
    (hn : m ≤ n) : run mb sb order n s = r := by
  obtain ⟨j, rfl⟩ := Nat.exists_eq_add_of_le hn
  rw [run_add, hm, quiet_run mb sb _ r hq]

/-! ## Write transfers, both variants -/

set_option maxHeartbeats 1000000 in
/-- The pin-accurate write transfer with matching addresses comes to rest after nine
delta cycles. -/
theorem pinWrite_run (t0 A0 D0 A D d0 : Nat) (order : Nat → Bool) :
    run MasterHardwareBus.masterWrite SlaveHardwareBus.slaveRead order 9
        (pinWrite t0 A0 D0 A D A d0) =
      { now := t0 + 34000,
        bus := { ready := false, ack := false, A := A, D := D, intr := false, bus_addr := A0,
                 bus_data := D0 },
        master := ⟨A, D, .returned (t0 + 34000)⟩,
        slave := ⟨A, D, .returned (t0 + 34000)⟩,
        trace := [⟨t0, .master, .writeA A⟩, ⟨t0, .master, .writeD D⟩,
          ⟨t0 + 5000, .master, .writeReady true⟩, ⟨t0 + 5000, .slave, .checkAddr A⟩,
          ⟨t0 + 17000, .slave, .writeAck true⟩, ⟨t0 + 27000, .master, .writeReady false⟩,
          ⟨t0 + 34000, .slave, .writeAck false⟩] } := by
  simp [run, step, evaluate, settle, Thread.turn, Thread.isRunnable, Thread.wakeTime, Thread.wake, Thread.timeout,
    firedEvents, earliest, Bus.idle, Effect.update, Effect.immediate, Effect.notified,
    MasterHardwareBus.masterWrite, SlaveHardwareBus.slaveRead, Nat.add_assoc, Sim.start,
    pinWrite]

set_option maxHeartbeats 1000000 in
/-- The transaction-level write transfer with matching addresses comes to rest after
seven delta cycles. -/
theorem tlmWrite_run (t0 A0 D0 A D d0 : Nat) (order : Nat → Bool) :
    run HardwareBusProtocolTLM.masterWrite HardwareBusProtocolTLM.slaveRead order 7
        (tlmWrite t0 A0 D0 A D A d0) =
      { now := t0 + 34000,
        bus := { ready := false, ack := false, A := A0, D := D0, intr := false, bus_addr := A,
                 bus_data := D },
        master := ⟨A, D, .returned (t0 + 34000)⟩,
        slave := ⟨A, D, .returned (t0 + 24000)⟩,
        trace := [⟨t0, .master, .setAddr A⟩, ⟨t0, .master, .setData D⟩,
          ⟨t0 + 5000, .master, .notify .ready⟩, ⟨t0 + 5000, .slave, .checkAddr A⟩,
          ⟨t0 + 24000, .slave, .notify .ack⟩] } := by
  simp [run, step, evaluate, settle, Thread.turn, Thread.isRunnable, Thread.wakeTime, Thread.wake, Thread.timeout,
    firedEvents, earliest, Bus.idle, Effect.update, Effect.immediate, Effect.notified,
    HardwareBusProtocolTLM.masterWrite, HardwareBusProtocolTLM.slaveRead, Nat.add_assoc,
    Sim.start, tlmWrite]

/-- C8: for every address `A` and data word `D`, in the pin-accurate and in the
transaction-level variant, when `masterWrite(A, D)` is paired with a slave already
suspended in `slaveRead(A, d)`, the slave makes one address check, the address it
finds there is `A`, and the value it returns in `d` is `D`, whatever address and word
an earlier transfer left on the bus and in whatever order the kernel evaluates the
two sides. -/
theorem C8_write_delivery (t0 A0 D0 A D d0 : Nat) (order : Nat → Bool) (n : Nat) (hn : 9 ≤ n) :
    ((run MasterHardwareBus.masterWrite SlaveHardwareBus.slaveRead order n
          (pinWrite t0 A0 D0 A D A d0)).slave = ⟨A, D, .returned (t0 + 34000)⟩ ∧
      effectsOf .slave (run MasterHardwareBus.masterWrite SlaveHardwareBus.slaveRead order n
          (pinWrite t0 A0 D0 A D A d0)).trace =
        [(t0 + 5000, .checkAddr A), (t0 + 17000, .writeAck true),
          (t0 + 34000, .writeAck false)]) ∧
    ((run HardwareBusProtocolTLM.masterWrite HardwareBusProtocolTLM.slaveRead order n
          (tlmWrite t0 A0 D0 A D A d0)).slave = ⟨A, D, .returned (t0 + 24000)⟩ ∧
      effectsOf .slave (run HardwareBusProtocolTLM.masterWrite
          HardwareBusProtocolTLM.slaveRead order n (tlmWrite t0 A0 D0 A D A d0)).trace =
        [(t0 + 5000, .checkAddr A), (t0 + 24000, .notify .ack)]) := by
  rw [run_of_quiet _ _ order _ _ 9 n (pinWrite_run t0 A0 D0 A D d0 order) rfl hn,
    run_of_quiet _ _ order _ _ 7 n (tlmWrite_run t0 A0 D0 A D d0 order) rfl (by omega)]
  simp [effectsOf]

/-- C8 at a concrete input: address `0x0010` and word `0x41424344` sent at time 0 over a
bus that still carries the address `0x0020` and the word `0xDEADBEEF`. -/
theorem C8_write_delivery_witness :
    ((run MasterHardwareBus.masterWrite SlaveHardwareBus.slaveRead (fun _ => true) 9
          (pinWrite 0 0x0020 0xDEADBEEF 0x0010 0x41424344 0x0010 0)).slave =
        ⟨0x0010, 0x41424344, .returned (0 + 34000)⟩ ∧
      effectsOf .slave (run MasterHardwareBus.masterWrite SlaveHardwareBus.slaveRead
          (fun _ => true) 9 (pinWrite 0 0x0020 0xDEADBEEF 0x0010 0x41424344 0x0010 0)).trace =
        [(0 + 5000, .checkAddr 0x0010), (0 + 17000, .writeAck true),
          (0 + 34000, .writeAck false)]) ∧
    ((run HardwareBusProtocolTLM.masterWrite HardwareBusProtocolTLM.slaveRead (fun _ => true) 9
          (tlmWrite 0 0x0020 0xDEADBEEF 0x0010 0x41424344 0x0010 0)).slave =
        ⟨0x0010, 0x41424344, .returned (0 + 24000)⟩ ∧
      effectsOf .slave (run HardwareBusProtocolTLM.masterWrite
          HardwareBusProtocolTLM.slaveRead (fun _ => true) 9
          (tlmWrite 0 0x0020 0xDEADBEEF 0x0010 0x41424344 0x0010 0)).trace =
        [(0 + 5000, .checkAddr 0x0010), (0 + 24000, .notify .ack)]) :=
  C8_write_delivery 0 0x0020 0xDEADBEEF 0x0010 0x41424344 0 (fun _ => true) 9 (by decide)

/-! ## Address mismatch -/

/-- In the effects `tr` of a slave call for address `a`, every assertion or notification
of `ack` comes after an address check that found `a`. -/
def AckOnlyAfterMatch (a : Nat) (tr : List Effect) : Prop :=
  ∀ pre e post, tr = pre ++ e :: post → e.assertsAck = true → Effect.checkAddr a ∈ pre

theorem ackOnlyAfterMatch_nil (a : Nat) : AckOnlyAfterMatch a [] := by
  intro pre e post h
  simp at h

theorem ackOnlyAfterMatch_check (a : Nat) (tr : List Effect) :
    AckOnlyAfterMatch a (Effect.checkAddr a :: tr) := by
  intro pre e post h he
  cases pre with
  | nil =>
    simp only [List.nil_append, List.cons.injEq] at h
    rw [← h.1] at he
    simp [Effect.assertsAck] at he
  | cons x pre =>
    simp only [List.cons_append, List.cons.injEq] at h
    rw [← h.1]
    exact List.mem_cons_self _ _

theorem ackOnlyAfterMatch_cons (a : Nat) (x : Effect) (tr : List Effect)
    (hx : x.assertsAck = false) (h : AckOnlyAfterMatch a tr) :
    AckOnlyAfterMatch a (x :: tr) := by
  intro pre e post heq he
  cases pre with
  | nil =>
    simp only [List.nil_append, List.cons.injEq] at heq
    rw [← heq.1, hx] at he
    cases he
  | cons y pre =>
    simp only [List.cons_append, List.cons.injEq] at heq
    exact List.mem_cons_of_mem _ (h pre e post heq.2 he)

theorem effectsAgainst_time {L : Type} (body : Body L) (a : Nat) (bus : Bus) (rest : List Bus)
    (k : L) (d : Nat) (effs : List Effect) (d' ps : Nat) (k' : L)
    (h : body k a d bus = ⟨effs, d', .time ps k'⟩) :
    effectsAgainst body a (bus :: rest) k d = effs ++ effectsAgainst body a rest k' d' := by
  rw [effectsAgainst, h]

theorem effectsAgainst_event {L : Type} (body : Body L) (a : Nat) (bus : Bus) (rest : List Bus)
    (k : L) (d : Nat) (effs : List Effect) (d' : Nat) (e : Event) (k' : L)
    (h : body k a d bus = ⟨effs, d', .event e k'⟩) :
    effectsAgainst body a (bus :: rest) k d = effs ++ effectsAgainst body a rest k' d' := by
  rw [effectsAgainst, h]

/-- From `t1`, whatever the environment does, the pin-accurate `slaveRead` asserts `ack`
only after a matching address check. -/
theorem slaveRead_ackOnlyAfterMatch (a : Nat) (envs : List Bus) (d : Nat) :
    AckOnlyAfterMatch a (effectsAgainst SlaveHardwareBus.slaveRead a envs .t1 d) := by
  induction envs generalizing d with
  | nil => exact ackOnlyAfterMatch_nil a
  | cons bus rest ih =>
    by_cases hr : bus.ready = true
    · by_cases ha : a = bus.A
      · rw [effectsAgainst_time SlaveHardwareBus.slaveRead a bus rest .t1 d [.checkAddr a] bus.D 12000 .matched
          (by simp [SlaveHardwareBus.slaveRead, hr, ← ha])]
        exact ackOnlyAfterMatch_check _ _
      · rw [effectsAgainst_time SlaveHardwareBus.slaveRead a bus rest .t1 d [.checkAddr bus.A] d 1000 .t1
          (by simp [SlaveHardwareBus.slaveRead, hr, ha])]
        exact ackOnlyAfterMatch_cons a _ _ rfl (ih d)
    · rw [effectsAgainst_event SlaveHardwareBus.slaveRead a bus rest .t1 d [] d .readyChanged .t1
        (by simp [SlaveHardwareBus.slaveRead, hr])]
      exact ih d

/-- From `t1`, whatever the environment does, the pin-accurate `slaveWrite` asserts
`ack` only after a matching address check. -/
theorem slaveWrite_ackOnlyAfterMatch (a : Nat) (envs : List Bus) (d : Nat) :
    AckOnlyAfterMatch a (effectsAgainst SlaveHardwareBus.slaveWrite a envs .t1 d) := by
  induction envs generalizing d with
  | nil => exact ackOnlyAfterMatch_nil a
  | cons bus rest ih =>
    by_cases hr : bus.ready = true
    · by_cases ha : a = bus.A
      · rw [effectsAgainst_time SlaveHardwareBus.slaveWrite a bus rest .t1 d [.checkAddr a, .writeD d] d 12000 .matched
          (by simp [SlaveHardwareBus.slaveWrite, hr, ← ha])]
        exact ackOnlyAfterMatch_check _ _
      · rw [effectsAgainst_time SlaveHardwareBus.slaveWrite a bus rest .t1 d [.checkAddr bus.A] d 1000 .t1
          (by simp [SlaveHardwareBus.slaveWrite, hr, ha])]
        exact ackOnlyAfterMatch_cons a _ _ rfl (ih d)
    · rw [effectsAgainst_event SlaveHardwareBus.slaveWrite a bus rest .t1 d [] d .readyChanged .t1
        (by simp [SlaveHardwareBus.slaveWrite, hr])]
      exact ih d

/-- After its `wait(ready)`, whatever the environment does, the transaction-level
`slaveRead` notifies `ack` only after a matching address check. -/
theorem tlmSlaveRead_ackOnlyAfterMatch (a : Nat) (envs : List Bus) (d : Nat) :
    AckOnlyAfterMatch a (effectsAgainst HardwareBusProtocolTLM.slaveRead a envs .t1 d) := by
  induction envs generalizing d with
  | nil => exact ackOnlyAfterMatch_nil a
  | cons bus rest ih =>
    by_cases ha : a = bus.bus_addr
    · rw [effectsAgainst_time HardwareBusProtocolTLM.slaveRead a bus rest .t1 d [.checkAddr a] bus.bus_data 12000 .matched
        (by simp [HardwareBusProtocolTLM.slaveRead, ← ha])]
      exact ackOnlyAfterMatch_check _ _
    · rw [effectsAgainst_event HardwareBusProtocolTLM.slaveRead a bus rest .t1 d [.checkAddr bus.bus_addr] d .ready .t1
        (by simp [HardwareBusProtocolTLM.slaveRead, ha])]
      exact ackOnlyAfterMatch_cons a _ _ rfl (ih d)

/-- After its `wait(ready)`, whatever the environment does, the transaction-level
`slaveWrite` notifies `ack` only after a matching address check. -/
theorem tlmSlaveWrite_ackOnlyAfterMatch (a : Nat) (envs : List Bus) (d : Nat) :
    AckOnlyAfterMatch a (effectsAgainst HardwareBusProtocolTLM.slaveWrite a envs .t1 d) := by
  induction envs generalizing d with
  | nil => exact ackOnlyAfterMatch_nil a
  | cons bus rest ih =>
    by_cases ha : a = bus.bus_addr
    · rw [effectsAgainst_time HardwareBusProtocolTLM.slaveWrite a bus rest .t1 d [.checkAddr a, .setData d] d 12000 .matched
        (by simp [HardwareBusProtocolTLM.slaveWrite, ← ha])]
      exact ackOnlyAfterMatch_check _ _
    · rw [effectsAgainst_event HardwareBusProtocolTLM.slaveWrite a bus rest .t1 d [.checkAddr bus.bus_addr] d .ready .t1
        (by simp [HardwareBusProtocolTLM.slaveWrite, ha])]
      exact ackOnlyAfterMatch_cons a _ _ rfl (ih d)

theorem tlmSlave_entry (body : Body TlmSlavePoint) (a : Nat) (envs : List Bus) (d : Nat)
    (h : ∀ bus, body .entry a d bus = ⟨[], d, .event .ready .t1⟩) :
    effectsAgainst body a envs .entry d = effectsAgainst body a envs.tail .t1 d := by
  cases envs with
  | nil => rfl
  | cons bus rest =>
    rw [effectsAgainst_event body a bus rest .entry d [] d .ready .t1 (h bus)]
    rfl

/-- C9: in `slaveRead` and `slaveWrite` of both variants, a slave called for address `a`
that finds a different address `b` driven when it sees `ready` makes no effect other
than the read of the address (no `ack`, no write of the data line or data cell),
leaves `d` as it was, and goes back to `t1` to await `ready` (in the pin-accurate
variant after its wait of 1000 ps); and on every execution, whatever the rest of the
system does, `ack` is asserted or notified only after an address check that found `a`. -/
theorem C9_mismatch_retry (a b d : Nat) (bus : Bus) (hb : b ≠ a) (hr : bus.ready = true)
    (hA : bus.A = b) (hcell : bus.bus_addr = b) :
    (SlaveHardwareBus.slaveRead .t1 a d bus = ⟨[.checkAddr b], d, .time 1000 .t1⟩ ∧
      SlaveHardwareBus.slaveWrite .t1 a d bus = ⟨[.checkAddr b], d, .time 1000 .t1⟩ ∧
      HardwareBusProtocolTLM.slaveRead .t1 a d bus = ⟨[.checkAddr b], d, .event .ready .t1⟩ ∧
      HardwareBusProtocolTLM.slaveWrite .t1 a d bus =
        ⟨[.checkAddr b], d, .event .ready .t1⟩) ∧
    ∀ (envs : List Bus) (d0 : Nat),
      AckOnlyAfterMatch a (effectsAgainst SlaveHardwareBus.slaveRead a envs .t1 d0) ∧
      AckOnlyAfterMatch a (effectsAgainst SlaveHardwareBus.slaveWrite a envs .t1 d0) ∧
      AckOnlyAfterMatch a (effectsAgainst HardwareBusProtocolTLM.slaveRead a envs .entry d0) ∧
      AckOnlyAfterMatch a (effectsAgainst HardwareBusProtocolTLM.slaveWrite a envs .entry d0) := by
  have hne : ¬ a = b := fun h => hb h.symm
  refine ⟨⟨?_, ?_, ?_, ?_⟩, fun envs d0 => ⟨?_, ?_, ?_, ?_⟩⟩
  · simp [SlaveHardwareBus.slaveRead, hr, hA, hne]
  · simp [SlaveHardwareBus.slaveWrite, hr, hA, hne]
  · simp [HardwareBusProtocolTLM.slaveRead, hcell, hne]
  · simp [HardwareBusProtocolTLM.slaveWrite, hcell, hne]
  · exact slaveRead_ackOnlyAfterMatch a envs d0
  · exact slaveWrite_ackOnlyAfterMatch a envs d0
  · rw [tlmSlave_entry _ a envs d0 (fun _ => rfl)]
    exact tlmSlaveRead_ackOnlyAfterMatch a envs.tail d0
  · rw [tlmSlave_entry _ a envs d0 (fun _ => rfl)]
    exact tlmSlaveWrite_ackOnlyAfterMatch a envs.tail d0

/-- C9 at a concrete input: a slave called for address `0x0010` sees `ready` while the
address `0x0020` is driven. -/
theorem C9_mismatch_retry_witness :
    (SlaveHardwareBus.slaveRead .t1 0x0010 7
        { ready := true, ack := false, A := 0x0020, D := 9, intr := false, bus_addr := 0x0020,
          bus_data := 9 } = ⟨[.checkAddr 0x0020], 7, .time 1000 .t1⟩ ∧
      SlaveHardwareBus.slaveWrite .t1 0x0010 7
        { ready := true, ack := false, A := 0x0020, D := 9, intr := false, bus_addr := 0x0020,
          bus_data := 9 } = ⟨[.checkAddr 0x0020], 7, .time 1000 .t1⟩ ∧
      HardwareBusProtocolTLM.slaveRead .t1 0x0010 7
        { ready := true, ack := false, A := 0x0020, D := 9, intr := false, bus_addr := 0x0020,
          bus_data := 9 } = ⟨[.checkAddr 0x0020], 7, .event .ready .t1⟩ ∧
      HardwareBusProtocolTLM.slaveWrite .t1 0x0010 7
        { ready := true, ack := false, A := 0x0020, D := 9, intr := false, bus_addr := 0x0020,
          bus_data := 9 } = ⟨[.checkAddr 0x0020], 7, .event .ready .t1⟩) ∧
    ∀ (envs : List Bus) (d0 : Nat),
      AckOnlyAfterMatch 0x0010 (effectsAgainst SlaveHardwareBus.slaveRead 0x0010 envs .t1 d0) ∧
      AckOnlyAfterMatch 0x0010 (effectsAgainst SlaveHardwareBus.slaveWrite 0x0010 envs .t1 d0) ∧
      AckOnlyAfterMatch 0x0010
        (effectsAgainst HardwareBusProtocolTLM.slaveRead 0x0010 envs .entry d0) ∧
      AckOnlyAfterMatch 0x0010
        (effectsAgainst HardwareBusProtocolTLM.slaveWrite 0x0010 envs .entry d0) :=
  C9_mismatch_retry 0x0010 0x0020 7
    { ready := true, ack := false, A := 0x0020, D := 9, intr := false, bus_addr := 0x0020,
      bus_data := 9 } (by decide) rfl rfl rfl

/-! ## Master-side timing against a zero-delay responder -/

set_option maxHeartbeats 1000000 in
theorem pinIdeal_write_run (t0 A0 D0 a d : Nat) (order : Nat → Bool) :
    run MasterHardwareBus.masterWrite zeroDelayAck order 7 (pinIdeal t0 A0 D0 a d) =
      { now := t0 + 15000,
        bus := { ready := false, ack := false, A := a, D := d, intr := false, bus_addr := A0,
                 bus_data := D0 },
        master := ⟨a, d, .returned (t0 + 15000)⟩,
        slave := ⟨0, 0, .waiting .readyChanged .awaitReady⟩,
        trace := [⟨t0, .master, .writeA a⟩, ⟨t0, .master, .writeD d⟩,
          ⟨t0 + 5000, .master, .writeReady true⟩, ⟨t0 + 5000, .slave, .writeAck true⟩,
          ⟨t0 + 15000, .master, .writeReady false⟩, ⟨t0 + 15000, .slave, .writeAck false⟩] } := by
  simp [run, step, evaluate, settle, Thread.turn, Thread.isRunnable, Thread.wakeTime,
    Thread.wake, Thread.timeout, firedEvents, earliest, Bus.idle, Effect.update,
    Effect.immediate, Effect.notified, Nat.add_assoc, Sim.start,
    MasterHardwareBus.masterWrite, zeroDelayAck, pinIdeal]

set_option maxHeartbeats 1000000 in
theorem pinIdeal_read_run (t0 A0 D0 a d : Nat) (order : Nat → Bool) :
    run MasterHardwareBus.masterRead zeroDelayAck order 7 (pinIdeal t0 A0 D0 a d) =
      { now := t0 + 20000,
        bus := { ready := false, ack := false, A := a, D := D0, intr := false, bus_addr := A0,
                 bus_data := D0 },
        master := ⟨a, D0, .returned (t0 + 20000)⟩,
        slave := ⟨0, 0, .waiting .readyChanged .awaitReady⟩,
        trace := [⟨t0, .master, .writeA a⟩,
          ⟨t0 + 5000, .master, .writeReady true⟩, ⟨t0 + 5000, .slave, .writeAck true⟩,
          ⟨t0 + 20000, .master, .writeReady false⟩, ⟨t0 + 20000, .slave, .writeAck false⟩] } := by
  simp [run, step, evaluate, settle, Thread.turn, Thread.isRunnable, Thread.wakeTime,
    Thread.wake, Thread.timeout, firedEvents, earliest, Bus.idle, Effect.update,
    Effect.immediate, Effect.notified, Nat.add_assoc, Sim.start,
    MasterHardwareBus.masterRead, zeroDelayAck, pinIdeal]

set_option maxHeartbeats 1000000 in
theorem tlmIdeal_write_run (t0 A0 D0 a d : Nat) (order : Nat → Bool) :
    run HardwareBusProtocolTLM.masterWrite zeroDelayAckTLM order 5 (tlmIdeal t0 A0 D0 a d) =
      { now := t0 + 15000,
        bus := { ready := false, ack := false, A := A0, D := D0, intr := false, bus_addr := a,
                 bus_data := d },
        master := ⟨a, d, .returned (t0 + 15000)⟩,
        slave := ⟨0, 0, .waiting .ready ()⟩,
        trace := [⟨t0, .master, .setAddr a⟩, ⟨t0, .master, .setData d⟩,
          ⟨t0 + 5000, .master, .notify .ready⟩, ⟨t0 + 5000, .slave, .notify .ack⟩] } := by
  simp [run, step, evaluate, settle, Thread.turn, Thread.isRunnable, Thread.wakeTime,
    Thread.wake, Thread.timeout, firedEvents, earliest, Bus.idle, Effect.update,
    Effect.immediate, Effect.notified, Nat.add_assoc, Sim.start,
    HardwareBusProtocolTLM.masterWrite, zeroDelayAckTLM, tlmIdeal]

set_option maxHeartbeats 1000000 in
theorem tlmIdeal_read_run (t0 A0 D0 a d : Nat) (order : Nat → Bool) :
    run HardwareBusProtocolTLM.masterRead zeroDelayAckTLM order 5 (tlmIdeal t0 A0 D0 a d) =
      { now := t0 + 20000,
        bus := { ready := false, ack := false, A := A0, D := D0, intr := false, bus_addr := a,
                 bus_data := D0 },
        master := ⟨a, D0, .returned (t0 + 20000)⟩,
        slave := ⟨0, 0, .waiting .ready ()⟩,
        trace := [⟨t0, .master, .setAddr a⟩,
          ⟨t0 + 5000, .master, .notify .ready⟩, ⟨t0 + 5000, .slave, .notify .ack⟩] } := by
  simp [run, step, evaluate, settle, Thread.turn, Thread.isRunnable, Thread.wakeTime,
    Thread.wake, Thread.timeout, firedEvents, earliest, Bus.idle, Effect.update,
    Effect.immediate, Effect.notified, Nat.add_assoc, Sim.start,
    HardwareBusProtocolTLM.masterRead, zeroDelayAckTLM, tlmIdeal]

/-- C10: when `ack` answers `ready` with no delay of its own (pin level: `ack` goes high
at the instant `ready` is asserted and low at the instant `ready` is deasserted;
transaction level: `ack` is notified at the instant `ready` is notified), a
`masterWrite` call made at time `t0` returns at `t0 + 15000` ps and a `masterRead` call
at `t0 + 20000` ps, in the pin-accurate and in the transaction-level variant. -/
theorem C10_master_timing (t0 A0 D0 a d : Nat) (order : Nat → Bool) (n : Nat) (hn : 7 ≤ n) :
    (run MasterHardwareBus.masterWrite zeroDelayAck order n
        (pinIdeal t0 A0 D0 a d)).master.status = .returned (t0 + 15000) ∧
    (run MasterHardwareBus.masterRead zeroDelayAck order n
        (pinIdeal t0 A0 D0 a d)).master.status = .returned (t0 + 20000) ∧
    (run HardwareBusProtocolTLM.masterWrite zeroDelayAckTLM order n
        (tlmIdeal t0 A0 D0 a d)).master.status = .returned (t0 + 15000) ∧
    (run HardwareBusProtocolTLM.masterRead zeroDelayAckTLM order n
        (tlmIdeal t0 A0 D0 a d)).master.status = .returned (t0 + 20000) := by
  rw [run_of_quiet _ _ order _ _ 7 n (pinIdeal_write_run t0 A0 D0 a d order) rfl hn,
    run_of_quiet _ _ order _ _ 7 n (pinIdeal_read_run t0 A0 D0 a d order) rfl hn,
    run_of_quiet _ _ order _ _ 5 n (tlmIdeal_write_run t0 A0 D0 a d order) rfl (by omega),
    run_of_quiet _ _ order _ _ 5 n (tlmIdeal_read_run t0 A0 D0 a d order) rfl (by omega)]
  exact ⟨rfl, rfl, rfl, rfl⟩

/-- C10 at a concrete input: calls made at time 1000 return at 16000 and 21000. -/
theorem C10_master_timing_witness :
    (run MasterHardwareBus.masterWrite zeroDelayAck (fun _ => true) 7
        (pinIdeal 1000 0 0 0x0010 0x41424344)).master.status = .returned (1000 + 15000) ∧
    (run MasterHardwareBus.masterRead zeroDelayAck (fun _ => true) 7
        (pinIdeal 1000 0 0 0x0010 0x41424344)).master.status = .returned (1000 + 20000) ∧
    (run HardwareBusProtocolTLM.masterWrite zeroDelayAckTLM (fun _ => true) 7
        (tlmIdeal 1000 0 0 0x0010 0x41424344)).master.status = .returned (1000 + 15000) ∧
    (run HardwareBusProtocolTLM.masterRead zeroDelayAckTLM (fun _ => true) 7
        (tlmIdeal 1000 0 0 0x0010 0x41424344)).master.status = .returned (1000 + 20000) :=
  C10_master_timing 1000 0 0 0x0010 0x41424344 (fun _ => true) 7 (by decide)

/-! ## Read transfers, both variants -/

set_option maxHeartbeats 1000000 in
/-- The pin-accurate read transfer with matching addresses comes to rest after nine
delta cycles. -/
theorem pinRead_run (t0 A0 D0 A d0 D : Nat) (order : Nat → Bool) :
    run MasterHardwareBus.masterRead SlaveHardwareBus.slaveWrite order 9
        (pinRead t0 A0 D0 A d0 A D) =
      { now := t0 + 39000,
        bus := { ready := false, ack := false, A := A, D := D, intr := false, bus_addr := A0,
                 bus_data := D0 },
        master := ⟨A, D, .returned (t0 + 39000)⟩,
        slave := ⟨A, D, .returned (t0 + 39000)⟩,
        trace := [⟨t0, .master, .writeA A⟩,
          ⟨t0 + 5000, .master, .writeReady true⟩, ⟨t0 + 5000, .slave, .checkAddr A⟩,
          ⟨t0 + 5000, .slave, .writeD D⟩, ⟨t0 + 17000, .slave, .writeAck true⟩,
          ⟨t0 + 32000, .master, .writeReady false⟩, ⟨t0 + 39000, .slave, .writeAck false⟩] } := by
  simp [run, step, evaluate, settle, Thread.turn, Thread.isRunnable, Thread.wakeTime,
    Thread.wake, Thread.timeout, firedEvents, earliest, Bus.idle, Effect.update,
    Effect.immediate, Effect.notified, Nat.add_assoc, Sim.start,
    MasterHardwareBus.masterRead, SlaveHardwareBus.slaveWrite, pinRead]

set_option maxHeartbeats 1000000 in
/-- The transaction-level read transfer with matching addresses comes to rest after
seven delta cycles. -/
theorem tlmRead_run (t0 A0 D0 A d0 D : Nat) (order : Nat → Bool) :
    run HardwareBusProtocolTLM.masterRead HardwareBusProtocolTLM.slaveWrite order 7
        (tlmRead t0 A0 D0 A d0 A D) =
      { now := t0 + 39000,
        bus := { ready := false, ack := false, A := A0, D := D0, intr := false, bus_addr := A,
                 bus_data := D },
        master := ⟨A, D, .returned (t0 + 39000)⟩,
        slave := ⟨A, D, .returned (t0 + 24000)⟩,
        trace := [⟨t0, .master, .setAddr A⟩,
          ⟨t0 + 5000, .master, .notify .ready⟩, ⟨t0 + 5000, .slave, .checkAddr A⟩,
          ⟨t0 + 5000, .slave, .setData D⟩, ⟨t0 + 24000, .slave, .notify .ack⟩] } := by
  simp [run, step, evaluate, settle, Thread.turn, Thread.isRunnable, Thread.wakeTime,
    Thread.wake, Thread.timeout, firedEvents, earliest, Bus.idle, Effect.update,
    Effect.immediate, Effect.notified, Nat.add_assoc, Sim.start,
    HardwareBusProtocolTLM.masterRead, HardwareBusProtocolTLM.slaveWrite, tlmRead]

/-- The four matched transfers at rest, from any number of delta cycles `n ≥ 9`. -/
theorem matched_runs (t0 A0 D0 A D d0 : Nat) (order : Nat → Bool) (n : Nat) (hn : 9 ≤ n) :
    run MasterHardwareBus.masterWrite SlaveHardwareBus.slaveRead order n
        (pinWrite t0 A0 D0 A D A d0) =
      run MasterHardwareBus.masterWrite SlaveHardwareBus.slaveRead order 9
        (pinWrite t0 A0 D0 A D A d0) ∧
    run HardwareBusProtocolTLM.masterWrite HardwareBusProtocolTLM.slaveRead order n
        (tlmWrite t0 A0 D0 A D A d0) =
      run HardwareBusProtocolTLM.masterWrite HardwareBusProtocolTLM.slaveRead order 7
        (tlmWrite t0 A0 D0 A D A d0) ∧
    run MasterHardwareBus.masterRead SlaveHardwareBus.slaveWrite order n
        (pinRead t0 A0 D0 A d0 A D) =
      run MasterHardwareBus.masterRead SlaveHardwareBus.slaveWrite order 9
        (pinRead t0 A0 D0 A d0 A D) ∧
    run HardwareBusProtocolTLM.masterRead HardwareBusProtocolTLM.slaveWrite order n
        (tlmRead t0 A0 D0 A d0 A D) =
      run HardwareBusProtocolTLM.masterRead HardwareBusProtocolTLM.slaveWrite order 7
        (tlmRead t0 A0 D0 A d0 A D) := by
  refine ⟨?_, ?_, ?_, ?_⟩
  · rw [pinWrite_run]
    exact run_of_quiet _ _ order _ _ 9 n (pinWrite_run t0 A0 D0 A D d0 order) rfl hn
  · rw [tlmWrite_run]
    exact run_of_quiet _ _ order _ _ 7 n (tlmWrite_run t0 A0 D0 A D d0 order) rfl (by omega)
  · rw [pinRead_run]
    exact run_of_quiet _ _ order _ _ 9 n (pinRead_run t0 A0 D0 A d0 D order) rfl hn
  · rw [tlmRead_run]
    exact run_of_quiet _ _ order _ _ 7 n (tlmRead_run t0 A0 D0 A d0 D order) rfl (by omega)

/-- C11: for a matched-address transfer with the slave already suspended awaiting
`ready` when the master call starts, the master call returns at the same simulated time
in the transaction-level variant as in the pin-accurate variant: `masterWrite` (paired
with `slaveRead`) 34000 ps after its invocation, `masterRead` (paired with `slaveWrite`)
39000 ps after it. -/
theorem C11_master_timing_equivalence (t0 A0 D0 A D d0 : Nat) (order : Nat → Bool) (n : Nat)
    (hn : 9 ≤ n) :
    ((run HardwareBusProtocolTLM.masterWrite HardwareBusProtocolTLM.slaveRead order n
          (tlmWrite t0 A0 D0 A D A d0)).master.returnTime =
        (run MasterHardwareBus.masterWrite SlaveHardwareBus.slaveRead order n
          (pinWrite t0 A0 D0 A D A d0)).master.returnTime ∧
      (run MasterHardwareBus.masterWrite SlaveHardwareBus.slaveRead order n
          (pinWrite t0 A0 D0 A D A d0)).master.returnTime = some (t0 + 34000)) ∧
    ((run HardwareBusProtocolTLM.masterRead HardwareBusProtocolTLM.slaveWrite order n
          (tlmRead t0 A0 D0 A d0 A D)).master.returnTime =
        (run MasterHardwareBus.masterRead SlaveHardwareBus.slaveWrite order n
          (pinRead t0 A0 D0 A d0 A D)).master.returnTime ∧
      (run MasterHardwareBus.masterRead SlaveHardwareBus.slaveWrite order n
          (pinRead t0 A0 D0 A d0 A D)).master.returnTime = some (t0 + 39000)) := by
  obtain ⟨h1, h2, h3, h4⟩ := matched_runs t0 A0 D0 A D d0 order n hn
  rw [h1, h2, h3, h4, pinWrite_run, tlmWrite_run, pinRead_run, tlmRead_run]
  exact ⟨⟨rfl, rfl⟩, rfl, rfl⟩

/-- C11 at a concrete input: calls made at time 1000 for address `0x0010`. -/
theorem C11_master_timing_equivalence_witness :
    ((run HardwareBusProtocolTLM.masterWrite HardwareBusProtocolTLM.slaveRead (fun _ => true) 9
          (tlmWrite 1000 0 0 0x0010 0x41424344 0x0010 0)).master.returnTime =
        (run MasterHardwareBus.masterWrite SlaveHardwareBus.slaveRead (fun _ => true) 9
          (pinWrite 1000 0 0 0x0010 0x41424344 0x0010 0)).master.returnTime ∧
      (run MasterHardwareBus.masterWrite SlaveHardwareBus.slaveRead (fun _ => true) 9
          (pinWrite 1000 0 0 0x0010 0x41424344 0x0010 0)).master.returnTime =
        some (1000 + 34000)) ∧
    ((run HardwareBusProtocolTLM.masterRead HardwareBusProtocolTLM.slaveWrite (fun _ => true) 9
          (tlmRead 1000 0 0 0x0010 0 0x0010 0x41424344)).master.returnTime =
        (run MasterHardwareBus.masterRead SlaveHardwareBus.slaveWrite (fun _ => true) 9
          (pinRead 1000 0 0 0x0010 0 0x0010 0x41424344)).master.returnTime ∧
      (run MasterHardwareBus.masterRead SlaveHardwareBus.slaveWrite (fun _ => true) 9
          (pinRead 1000 0 0 0x0010 0 0x0010 0x41424344)).master.returnTime =
        some (1000 + 39000)) :=
  C11_master_timing_equivalence 1000 0 0 0x0010 0x41424344 0 (fun _ => true) 9 (by decide)

/-- C12 (as amended): for a matched-address transfer with the slave already suspended
awaiting `ready` when the master call starts, the slave call of the transaction-level
variant returns 24000 ps after the master's invocation, `slaveRead` and `slaveWrite`
alike, while the slave call of the pin-accurate variant returns together with the
master call, 34000 ps (`slaveRead`) and 39000 ps (`slaveWrite`) after the invocation. -/
theorem C12_slave_return_times (t0 A0 D0 A D d0 : Nat) (order : Nat → Bool) (n : Nat)
    (hn : 9 ≤ n) :
    ((run HardwareBusProtocolTLM.masterWrite HardwareBusProtocolTLM.slaveRead order n
          (tlmWrite t0 A0 D0 A D A d0)).slave.returnTime = some (t0 + 24000) ∧
      (run MasterHardwareBus.masterWrite SlaveHardwareBus.slaveRead order n
          (pinWrite t0 A0 D0 A D A d0)).slave.returnTime = some (t0 + 34000)) ∧
    ((run HardwareBusProtocolTLM.masterRead HardwareBusProtocolTLM.slaveWrite order n
          (tlmRead t0 A0 D0 A d0 A D)).slave.returnTime = some (t0 + 24000) ∧
      (run MasterHardwareBus.masterRead SlaveHardwareBus.slaveWrite order n
          (pinRead t0 A0 D0 A d0 A D)).slave.returnTime = some (t0 + 39000)) := by
  obtain ⟨h1, h2, h3, h4⟩ := matched_runs t0 A0 D0 A D d0 order n hn
  rw [h1, h2, h3, h4, pinWrite_run, tlmWrite_run, pinRead_run, tlmRead_run]
  exact ⟨⟨rfl, rfl⟩, rfl, rfl⟩

/-- C12 (as amended) at a concrete input: calls made at time 0 for address `0x0010`. -/
theorem C12_slave_return_times_witness :
    ((run HardwareBusProtocolTLM.masterWrite HardwareBusProtocolTLM.slaveRead (fun _ => true) 9
          (tlmWrite 0 0 0 0x0010 0x41424344 0x0010 0)).slave.returnTime = some (0 + 24000) ∧
      (run MasterHardwareBus.masterWrite SlaveHardwareBus.slaveRead (fun _ => true) 9
          (pinWrite 0 0 0 0x0010 0x41424344 0x0010 0)).slave.returnTime = some (0 + 34000)) ∧
    ((run HardwareBusProtocolTLM.masterRead HardwareBusProtocolTLM.slaveWrite (fun _ => true) 9
          (tlmRead 0 0 0 0x0010 0 0x0010 0x41424344)).slave.returnTime = some (0 + 24000) ∧
      (run MasterHardwareBus.masterRead SlaveHardwareBus.slaveWrite (fun _ => true) 9
          (pinRead 0 0 0 0x0010 0 0x0010 0x41424344)).slave.returnTime = some (0 + 39000)) :=
  C12_slave_return_times 0 0 0 0x0010 0x41424344 0 (fun _ => true) 9 (by decide)

/-- C12 as stated fails: in the write transfer of word `0x41424344` to address `0x0010`
started at time 0, `slaveRead` returns at 34000 ps in the pin-accurate variant and at
24000 ps in the transaction-level variant. -/
theorem C12_slave_timing_counterexample :
    (run HardwareBusProtocolTLM.masterWrite HardwareBusProtocolTLM.slaveRead (fun _ => true) 9
        (tlmWrite 0 0 0 0x0010 0x41424344 0x0010 0)).slave.returnTime ≠
      (run MasterHardwareBus.masterWrite SlaveHardwareBus.slaveRead (fun _ => true) 9
        (pinWrite 0 0 0 0x0010 0x41424344 0x0010 0)).slave.returnTime := by
  decide

/-- C18: for every address `A` and data word `D`, in the pin-accurate and in the
transaction-level variant, when `masterRead(A, d)` is paired with a slave already
suspended in `slaveWrite(A, D)`, the master returns `d = D`: the slave puts `D` on the
data line, respectively in the data cell, before it asserts or notifies `ack`, and
`masterRead` assigns `d` only in a segment entered with `ack` observed. -/
theorem C18_read_delivery (t0 A0 D0 A D d0 : Nat) (order : Nat → Bool) (n : Nat) (hn : 9 ≤ n) :
    ((run MasterHardwareBus.masterRead SlaveHardwareBus.slaveWrite order n
          (pinRead t0 A0 D0 A d0 A D)).master = ⟨A, D, .returned (t0 + 39000)⟩ ∧
      effectsOf .slave (run MasterHardwareBus.masterRead SlaveHardwareBus.slaveWrite order n
          (pinRead t0 A0 D0 A d0 A D)).trace =
        [(t0 + 5000, .checkAddr A), (t0 + 5000, .writeD D), (t0 + 17000, .writeAck true),
          (t0 + 39000, .writeAck false)]) ∧
    ((run HardwareBusProtocolTLM.masterRead HardwareBusProtocolTLM.slaveWrite order n
          (tlmRead t0 A0 D0 A d0 A D)).master = ⟨A, D, .returned (t0 + 39000)⟩ ∧
      effectsOf .slave (run HardwareBusProtocolTLM.masterRead
          HardwareBusProtocolTLM.slaveWrite order n (tlmRead t0 A0 D0 A d0 A D)).trace =
        [(t0 + 5000, .checkAddr A), (t0 + 5000, .setData D), (t0 + 24000, .notify .ack)]) ∧
    (∀ (k : MasterPoint) (a d : Nat) (bus : Bus),
      (MasterHardwareBus.masterRead k a d bus).d =
        if (k = .setupDone ∨ k = .awaitAck) ∧ bus.ack = true then bus.D else d) ∧
    (∀ (k : TlmMasterPoint) (a d : Nat) (bus : Bus),
      (HardwareBusProtocolTLM.masterRead k a d bus).d =
        if k = .acked then bus.bus_data else d) := by
  obtain ⟨-, -, h3, h4⟩ := matched_runs t0 A0 D0 A D d0 order n hn
  rw [h3, h4, pinRead_run, tlmRead_run]
  refine ⟨by simp [effectsOf], by simp [effectsOf], ?_, ?_⟩
  · intro k a d bus
    cases k <;> cases h : bus.ack <;> simp [MasterHardwareBus.masterRead, h]
  · intro k a d bus
    cases k <;> simp [HardwareBusProtocolTLM.masterRead]

/-- C18 at a concrete input: the word `0x41424344` read from address `0x0010` over a bus
that still carries the word `0xDEADBEEF`. -/
theorem C18_read_delivery_witness :
    ((run MasterHardwareBus.masterRead SlaveHardwareBus.slaveWrite (fun _ => true) 9
          (pinRead 0 0x0020 0xDEADBEEF 0x0010 0 0x0010 0x41424344)).master =
        ⟨0x0010, 0x41424344, .returned (0 + 39000)⟩ ∧
      effectsOf .slave (run MasterHardwareBus.masterRead SlaveHardwareBus.slaveWrite
          (fun _ => true) 9 (pinRead 0 0x0020 0xDEADBEEF 0x0010 0 0x0010 0x41424344)).trace =
        [(0 + 5000, .checkAddr 0x0010), (0 + 5000, .writeD 0x41424344),
          (0 + 17000, .writeAck true), (0 + 39000, .writeAck false)]) ∧
    ((run HardwareBusProtocolTLM.masterRead HardwareBusProtocolTLM.slaveWrite (fun _ => true) 9
          (tlmRead 0 0x0020 0xDEADBEEF 0x0010 0 0x0010 0x41424344)).master =
        ⟨0x0010, 0x41424344, .returned (0 + 39000)⟩ ∧
      effectsOf .slave (run HardwareBusProtocolTLM.masterRead
          HardwareBusProtocolTLM.slaveWrite (fun _ => true) 9
          (tlmRead 0 0x0020 0xDEADBEEF 0x0010 0 0x0010 0x41424344)).trace =
        [(0 + 5000, .checkAddr 0x0010), (0 + 5000, .setData 0x41424344),
          (0 + 24000, .notify .ack)]) ∧
    (∀ (k : MasterPoint) (a d : Nat) (bus : Bus),
      (MasterHardwareBus.masterRead k a d bus).d =
        if (k = .setupDone ∨ k = .awaitAck) ∧ bus.ack = true then bus.D else d) ∧
    (∀ (k : TlmMasterPoint) (a d : Nat) (bus : Bus),
      (HardwareBusProtocolTLM.masterRead k a d bus).d =
        if k = .acked then bus.bus_data else d) :=
  C18_read_delivery 0 0x0020 0xDEADBEEF 0x0010 0x41424344 0 (fun _ => true) 9 (by decide)

/-! ## A slave call that starts after the master has signalled `ready` -/

theorem late_min (t0 g : Nat) : min (t0 + 5000) (t0 + (5001 + g)) = t0 + 5000 := by
  omega

theorem late_min_lit (g : Nat) : min 5000 (5001 + g) = 5000 := by
  omega

theorem late_ne (t0 g : Nat) : (t0 + (5001 + g) = t0 + 5000) = False := by
  simp only [eq_iff_iff, iff_false]
  omega

theorem late_ne_lit (g : Nat) : (5001 + g = 5000) = False := by
  simp only [eq_iff_iff, iff_false]
  omega

theorem late_ne_lit_symm (g : Nat) : (5000 = 5001 + g) = False := by
  simp only [eq_iff_iff, iff_false]
  omega

set_option maxHeartbeats 1000000 in
/-- Transaction level, write direction: the late slave call waits for a `ready` that has
already been notified, and the master for an `ack` that never comes. -/
theorem tlmLate_write_run (t0 A0 D0 A D d0 g : Nat) (order : Nat → Bool) :
    run HardwareBusProtocolTLM.masterWrite HardwareBusProtocolTLM.slaveRead order 3
        (lateSlave .entry .entry t0 A0 D0 A D A d0 g) =
      { now := t0 + 5001 + g,
        bus := { ready := false, ack := false, A := A0, D := D0, intr := false, bus_addr := A,
                 bus_data := D },
        master := ⟨A, D, .waiting .ack .acked⟩,
        slave := ⟨A, d0, .waiting .ready .t1⟩,
        trace := [⟨t0, .master, .setAddr A⟩, ⟨t0, .master, .setData D⟩,
          ⟨t0 + 5000, .master, .notify .ready⟩] } := by
  simp [run, step, evaluate, settle, Thread.turn, Thread.isRunnable, Thread.wakeTime,
    Thread.wake, Thread.timeout, firedEvents, earliest, Bus.idle, Effect.update,
    Effect.immediate, Effect.notified, Nat.add_assoc, Sim.start, lateSlave, late_min, late_ne,
    late_min_lit, late_ne_lit, late_ne_lit_symm,
    HardwareBusProtocolTLM.masterWrite, HardwareBusProtocolTLM.slaveRead]

set_option maxHeartbeats 1000000 in
/-- Transaction level, read direction: the same deadlock. -/
theorem tlmLate_read_run (t0 A0 D0 A D d0 g : Nat) (order : Nat → Bool) :
    run HardwareBusProtocolTLM.masterRead HardwareBusProtocolTLM.slaveWrite order 3
        (lateSlave .entry .entry t0 A0 D0 A d0 A D g) =
      { now := t0 + 5001 + g,
        bus := { ready := false, ack := false, A := A0, D := D0, intr := false, bus_addr := A,
                 bus_data := D0 },
        master := ⟨A, d0, .waiting .ack .acked⟩,
        slave := ⟨A, D, .waiting .ready .t1⟩,
        trace := [⟨t0, .master, .setAddr A⟩, ⟨t0 + 5000, .master, .notify .ready⟩] } := by
  simp [run, step, evaluate, settle, Thread.turn, Thread.isRunnable, Thread.wakeTime,
    Thread.wake, Thread.timeout, firedEvents, earliest, Bus.idle, Effect.update,
    Effect.immediate, Effect.notified, Nat.add_assoc, Sim.start, lateSlave, late_min, late_ne,
    late_min_lit, late_ne_lit, late_ne_lit_symm,
    HardwareBusProtocolTLM.masterRead, HardwareBusProtocolTLM.slaveWrite]

set_option maxHeartbeats 1000000 in
/-- Pin-accurate, write direction: the late slave call finds `ready` still high and the
transfer completes. -/
theorem pinLate_write_run (t0 A0 D0 A D d0 g : Nat) (order : Nat → Bool) :
    run MasterHardwareBus.masterWrite SlaveHardwareBus.slaveRead order 9
        (lateSlave .entry .t1 t0 A0 D0 A D A d0 g) =
      { now := t0 + 5001 + g + 29000,
        bus := { ready := false, ack := false, A := A, D := D, intr := false, bus_addr := A0,
                 bus_data := D0 },
        master := ⟨A, D, .returned (t0 + 5001 + g + 29000)⟩,
        slave := ⟨A, D, .returned (t0 + 5001 + g + 29000)⟩,
        trace := [⟨t0, .master, .writeA A⟩, ⟨t0, .master, .writeD D⟩,
          ⟨t0 + 5000, .master, .writeReady true⟩, ⟨t0 + 5001 + g, .slave, .checkAddr A⟩,
          ⟨t0 + 5001 + g + 12000, .slave, .writeAck true⟩,
          ⟨t0 + 5001 + g + 22000, .master, .writeReady false⟩,
          ⟨t0 + 5001 + g + 29000, .slave, .writeAck false⟩] } := by
  simp [run, step, evaluate, settle, Thread.turn, Thread.isRunnable, Thread.wakeTime,
    Thread.wake, Thread.timeout, firedEvents, earliest, Bus.idle, Effect.update,
    Effect.immediate, Effect.notified, Nat.add_assoc, Sim.start, lateSlave, late_min, late_ne,
    late_min_lit, late_ne_lit, late_ne_lit_symm,
    MasterHardwareBus.masterWrite, SlaveHardwareBus.slaveRead]

set_option maxHeartbeats 1000000 in
/-- Pin-accurate, read direction: the late slave call finds `ready` still high and the
transfer completes. -/
theorem pinLate_read_run (t0 A0 D0 A D d0 g : Nat) (order : Nat → Bool) :
    run MasterHardwareBus.masterRead SlaveHardwareBus.slaveWrite order 9
        (lateSlave .entry .t1 t0 A0 D0 A d0 A D g) =
      { now := t0 + 5001 + g + 34000,
        bus := { ready := false, ack := false, A := A, D := D, intr := false, bus_addr := A0,
                 bus_data := D0 },
        master := ⟨A, D, .returned (t0 + 5001 + g + 34000)⟩,
        slave := ⟨A, D, .returned (t0 + 5001 + g + 34000)⟩,
        trace := [⟨t0, .master, .writeA A⟩,
          ⟨t0 + 5000, .master, .writeReady true⟩, ⟨t0 + 5001 + g, .slave, .checkAddr A⟩,
          ⟨t0 + 5001 + g, .slave, .writeD D⟩,
          ⟨t0 + 5001 + g + 12000, .slave, .writeAck true⟩,
          ⟨t0 + 5001 + g + 27000, .master, .writeReady false⟩,
          ⟨t0 + 5001 + g + 34000, .slave, .writeAck false⟩] } := by
  simp [run, step, evaluate, settle, Thread.turn, Thread.isRunnable, Thread.wakeTime,
    Thread.wake, Thread.timeout, firedEvents, earliest, Bus.idle, Effect.update,
    Effect.immediate, Effect.notified, Nat.add_assoc, Sim.start, lateSlave, late_min, late_ne,
    late_min_lit, late_ne_lit, late_ne_lit_symm,
    MasterHardwareBus.masterRead, SlaveHardwareBus.slaveWrite]

/-- C19: in the transaction-level variant `ready` is an event without a stored level.
When the master's `ready` notification is delivered (at `t0 + 5000`) while no slave call
is suspended in `wait(ready)`, a `slaveRead(A)` or `slaveWrite(A)` invoked afterwards
stays in its `wait(ready)` for good, makes no address check and never notifies `ack`,
and the master stays in `wait(ack)`; only a further notification of `ready` would make
the slave runnable. In the pin-accurate variant under the same schedule `ready` stays
high, the late slave call passes its address check and asserts `ack`, and the transfer
completes. -/
theorem C19_lost_ready_notification (t0 A0 D0 A D d0 g : Nat) (order : Nat → Bool) (n : Nat)
    (hn : 9 ≤ n) :
    ((run HardwareBusProtocolTLM.masterWrite HardwareBusProtocolTLM.slaveRead order n
          (lateSlave .entry .entry t0 A0 D0 A D A d0 g)).slave = ⟨A, d0, .waiting .ready .t1⟩ ∧
      (run HardwareBusProtocolTLM.masterWrite HardwareBusProtocolTLM.slaveRead order n
          (lateSlave .entry .entry t0 A0 D0 A D A d0 g)).master = ⟨A, D, .waiting .ack .acked⟩ ∧
      effectsOf .slave (run HardwareBusProtocolTLM.masterWrite
          HardwareBusProtocolTLM.slaveRead order n
          (lateSlave .entry .entry t0 A0 D0 A D A d0 g)).trace = []) ∧
    ((run HardwareBusProtocolTLM.masterRead HardwareBusProtocolTLM.slaveWrite order n
          (lateSlave .entry .entry t0 A0 D0 A d0 A D g)).slave = ⟨A, D, .waiting .ready .t1⟩ ∧
      (run HardwareBusProtocolTLM.masterRead HardwareBusProtocolTLM.slaveWrite order n
          (lateSlave .entry .entry t0 A0 D0 A d0 A D g)).master = ⟨A, d0, .waiting .ack .acked⟩ ∧
      effectsOf .slave (run HardwareBusProtocolTLM.masterRead
          HardwareBusProtocolTLM.slaveWrite order n
          (lateSlave .entry .entry t0 A0 D0 A d0 A D g)).trace = []) ∧
    (∀ fired : List Event,
      (Thread.wake fired (⟨A, d0, .waiting .ready .t1⟩ : Thread TlmSlavePoint)).isRunnable = true ↔
        Event.ready ∈ fired) ∧
    ((run MasterHardwareBus.masterWrite SlaveHardwareBus.slaveRead order n
          (lateSlave .entry .t1 t0 A0 D0 A D A d0 g)).slave =
        ⟨A, D, .returned (t0 + 5001 + g + 29000)⟩ ∧
      effectsOf .slave (run MasterHardwareBus.masterWrite SlaveHardwareBus.slaveRead order n
          (lateSlave .entry .t1 t0 A0 D0 A D A d0 g)).trace =
        [(t0 + 5001 + g, .checkAddr A), (t0 + 5001 + g + 12000, .writeAck true),
          (t0 + 5001 + g + 29000, .writeAck false)]) ∧
    ((run MasterHardwareBus.masterRead SlaveHardwareBus.slaveWrite order n
          (lateSlave .entry .t1 t0 A0 D0 A d0 A D g)).slave =
        ⟨A, D, .returned (t0 + 5001 + g + 34000)⟩ ∧
      effectsOf .slave (run MasterHardwareBus.masterRead SlaveHardwareBus.slaveWrite order n
          (lateSlave .entry .t1 t0 A0 D0 A d0 A D g)).trace =
        [(t0 + 5001 + g, .checkAddr A), (t0 + 5001 + g, .writeD D),
          (t0 + 5001 + g + 12000, .writeAck true),
          (t0 + 5001 + g + 34000, .writeAck false)]) := by
  rw [run_of_quiet _ _ order _ _ 3 n (tlmLate_write_run t0 A0 D0 A D d0 g order) rfl (by omega),
    run_of_quiet _ _ order _ _ 3 n (tlmLate_read_run t0 A0 D0 A D d0 g order) rfl (by omega),
    run_of_quiet _ _ order _ _ 9 n (pinLate_write_run t0 A0 D0 A D d0 g order) rfl hn,
    run_of_quiet _ _ order _ _ 9 n (pinLate_read_run t0 A0 D0 A D d0 g order) rfl hn]
  refine ⟨by simp [effectsOf], by simp [effectsOf], ?_, by simp [effectsOf], by simp [effectsOf]⟩
  intro fired
  by_cases h : Event.ready ∈ fired <;> simp [Thread.wake, Thread.isRunnable, h]

/-- C19 at a concrete input: the master calls at time 0, the slave at time 6000. -/
theorem C19_lost_ready_notification_witness :
    ((run HardwareBusProtocolTLM.masterWrite HardwareBusProtocolTLM.slaveRead (fun _ => true) 9
          (lateSlave .entry .entry 0 0 0 0x0010 0x41424344 0x0010 0 999)).slave =
        ⟨0x0010, 0, .waiting .ready .t1⟩ ∧
      (run HardwareBusProtocolTLM.masterWrite HardwareBusProtocolTLM.slaveRead (fun _ => true) 9
          (lateSlave .entry .entry 0 0 0 0x0010 0x41424344 0x0010 0 999)).master =
        ⟨0x0010, 0x41424344, .waiting .ack .acked⟩ ∧
      effectsOf .slave (run HardwareBusProtocolTLM.masterWrite
          HardwareBusProtocolTLM.slaveRead (fun _ => true) 9
          (lateSlave .entry .entry 0 0 0 0x0010 0x41424344 0x0010 0 999)).trace = []) ∧
    ((run HardwareBusProtocolTLM.masterRead HardwareBusProtocolTLM.slaveWrite (fun _ => true) 9
          (lateSlave .entry .entry 0 0 0 0x0010 0 0x0010 0x41424344 999)).slave =
        ⟨0x0010, 0x41424344, .waiting .ready .t1⟩ ∧
      (run HardwareBusProtocolTLM.masterRead HardwareBusProtocolTLM.slaveWrite (fun _ => true) 9
          (lateSlave .entry .entry 0 0 0 0x0010 0 0x0010 0x41424344 999)).master =
        ⟨0x0010, 0, .waiting .ack .acked⟩ ∧
      effectsOf .slave (run HardwareBusProtocolTLM.masterRead
          HardwareBusProtocolTLM.slaveWrite (fun _ => true) 9
          (lateSlave .entry .entry 0 0 0 0x0010 0 0x0010 0x41424344 999)).trace = []) ∧
    (∀ fired : List Event,
      (Thread.wake fired (⟨0x0010, 0, .waiting .ready .t1⟩ : Thread TlmSlavePoint)).isRunnable =
          true ↔ Event.ready ∈ fired) ∧
    ((run MasterHardwareBus.masterWrite SlaveHardwareBus.slaveRead (fun _ => true) 9
          (lateSlave .entry .t1 0 0 0 0x0010 0x41424344 0x0010 0 999)).slave =
        ⟨0x0010, 0x41424344, .returned (0 + 5001 + 999 + 29000)⟩ ∧
      effectsOf .slave (run MasterHardwareBus.masterWrite SlaveHardwareBus.slaveRead
          (fun _ => true) 9 (lateSlave .entry .t1 0 0 0 0x0010 0x41424344 0x0010 0 999)).trace =
        [(0 + 5001 + 999, .checkAddr 0x0010), (0 + 5001 + 999 + 12000, .writeAck true),
          (0 + 5001 + 999 + 29000, .writeAck false)]) ∧
    ((run MasterHardwareBus.masterRead SlaveHardwareBus.slaveWrite (fun _ => true) 9
          (lateSlave .entry .t1 0 0 0 0x0010 0 0x0010 0x41424344 999)).slave =
        ⟨0x0010, 0x41424344, .returned (0 + 5001 + 999 + 34000)⟩ ∧
      effectsOf .slave (run MasterHardwareBus.masterRead SlaveHardwareBus.slaveWrite
          (fun _ => true) 9 (lateSlave .entry .t1 0 0 0 0x0010 0 0x0010 0x41424344 999)).trace =
        [(0 + 5001 + 999, .checkAddr 0x0010), (0 + 5001 + 999, .writeD 0x41424344),
          (0 + 5001 + 999 + 12000, .writeAck true),
          (0 + 5001 + 999 + 34000, .writeAck false)]) :=
  C19_lost_ready_notification 0 0 0 0x0010 0x41424344 0 999 (fun _ => true) 9 (by decide)

/-! ## The two link access classes against each other -/

/-- C16: the slave link layer mirrors the master link layer. On the same arguments
`SlaveWrite` issues the same sequence of words to the same address as `MasterWrite`, as
protocol `slaveWrite` calls instead of `masterWrite` calls; and `SlaveRead`, given the
same sequence of words by its protocol reads, leaves the same bytes in the output
buffer as `MasterRead`. -/
theorem C16_slave_mirrors_master (cfg : DataWidth) (feed : Nat → Nat) (addr : Int)
    (data : Nat → Byte) (len : Nat) :
    (∃ ws : List Nat,
      (MasterWrite cfg (recMaster feed) addr data len Recorder.init).calls =
          ws.map (Call.masterWrite (toAddr addr)) ∧
        (SlaveWrite cfg (recSlave feed) addr data len Recorder.init).calls =
          ws.map (Call.slaveWrite (toAddr addr))) ∧
    (SlaveRead cfg (recSlave feed) addr data len Recorder.init).1 =
      (MasterRead cfg (recMaster feed) addr data len Recorder.init).1 := by
  refine ⟨⟨wordsOf cfg data len, MasterWrite_calls cfg feed addr data len,
    SlaveWrite_calls cfg feed addr data len⟩, ?_⟩
  funext j
  rw [SlaveRead_eq_MasterRead]
  have hs := (MasterRead_spec cfg (asMaster (recSlave feed)) addr data len Recorder.init).2 j
  have hm := (MasterRead_spec cfg (recMaster feed) addr data len Recorder.init).2 j
  by_cases hj : j < len
  · apply Fin.ext
    rw [hs.1 hj, hm.1 hj, readWord_recSlave, readWord_recMaster]
  · rw [hs.2 (by omega), hm.2 (by omega)]

theorem wordsOf_getElem_tail (cfg : DataWidth) (data : Nat → Byte) (len : Nat)
    (hr : len % DATA_BYTES cfg ≠ 0) :
    (wordsOf cfg data len)[len / DATA_BYTES cfg]? = some (tailWord cfg data len) := by
  unfold wordsOf fullWords
  rw [List.getElem?_append_right (by simp)]
  simp [hr]

/-- Unpacking what was packed: byte `i % DATA_BYTES` of word `i / DATA_BYTES` of a
transfer of `len > i` bytes is byte `i` of the buffer. -/
theorem byteOf_wordsOf (cfg : DataWidth) (data : Nat → Byte) (len i : Nat) (hi : i < len) :
    byteOf cfg ((wordsOf cfg data len).getD (i / DATA_BYTES cfg) 0) (i % DATA_BYTES cfg) =
      (data i).val := by
  have hpos := DATA_BYTES_pos cfg
  have hmod : i % DATA_BYTES cfg < DATA_BYTES cfg := Nat.mod_lt _ hpos
  have hi' : i / DATA_BYTES cfg * DATA_BYTES cfg + i % DATA_BYTES cfg = i := Nat.div_add_mod' _ _
  have hl' : len / DATA_BYTES cfg * DATA_BYTES cfg + len % DATA_BYTES cfg = len :=
    Nat.div_add_mod' _ _
  have hle : i / DATA_BYTES cfg ≤ len / DATA_BYTES cfg := Nat.div_le_div_right (Nat.le_of_lt hi)
  rw [List.getD_eq_getElem?_getD]
  rcases Nat.lt_or_eq_of_le hle with hlt | heq
  · rw [wordsOf_getElem cfg data len _ hlt, Option.getD_some]
    have := byteOf_bigEndian cfg data (i / DATA_BYTES cfg * DATA_BYTES cfg) (DATA_BYTES cfg)
      (i % DATA_BYTES cfg) (Nat.le_refl _) hmod
    rw [Nat.sub_self, pow_zero, Nat.mul_one, hi'] at this
    exact this
  · have hrlt : i % DATA_BYTES cfg < len % DATA_BYTES cfg := by
      rw [heq] at hi'
      omega
    have hr : len % DATA_BYTES cfg ≠ 0 := by omega
    rw [heq, wordsOf_getElem_tail cfg data len hr, Option.getD_some]
    have := byteOf_bigEndian cfg data (len / DATA_BYTES cfg * DATA_BYTES cfg)
      (len % DATA_BYTES cfg) (i % DATA_BYTES cfg) (Nat.le_of_lt (Nat.mod_lt _ hpos)) hrlt
    rw [← heq, hi'] at this
    rw [tailWord, ← heq]
    exact this

theorem replay_masterWrite (a : Nat) (ws : List Nat) :
    replay (ws.map (Call.masterWrite a)) = fun k => ws.getD k 0 := by
  funext k
  simp [replay, Function.comp_def, Call.data]

theorem replay_slaveWrite (a : Nat) (ws : List Nat) :
    replay (ws.map (Call.slaveWrite a)) = fun k => ws.getD k 0 := by
  funext k
  simp [replay, Function.comp_def, Call.data]

/-- C17: when the words issued in order by `MasterWrite(addr, in, len)` are returned, one
per call and in the same order, to the protocol reads of `SlaveRead(addr, out, len)`,
then `out[i] = in[i]` for every `i < len`, whether or not `len` is a multiple of
`DATA_BYTES`; and the same for `SlaveWrite` feeding `MasterRead`. -/
theorem C17_unpack_after_pack (cfg : DataWidth) (feed : Nat → Nat) (addr : Int)
    (inp out : Nat → Byte) (len i : Nat) (hi : i < len) :
    (SlaveRead cfg
        (recSlave (replay (MasterWrite cfg (recMaster feed) addr inp len Recorder.init).calls))
        addr out len Recorder.init).1 i = inp i ∧
    (MasterRead cfg
        (recMaster (replay (SlaveWrite cfg (recSlave feed) addr inp len Recorder.init).calls))
        addr out len Recorder.init).1 i = inp i := by
  constructor
  · apply Fin.ext
    rw [SlaveRead_eq_MasterRead, ((MasterRead_spec cfg _ addr out len Recorder.init).2 i).1 hi,
      readWord_recSlave, MasterWrite_calls, replay_masterWrite]
    simpa [Recorder.init] using byteOf_wordsOf cfg inp len i hi
  · apply Fin.ext
    rw [((MasterRead_spec cfg _ addr out len Recorder.init).2 i).1 hi,
      readWord_recMaster, SlaveWrite_calls, replay_slaveWrite]
    simpa [Recorder.init] using byteOf_wordsOf cfg inp len i hi

/-- C17 at a concrete input: six bytes with 32-bit words, a full word and a partial
one; output index 5 receives `0x46`. -/
theorem C17_unpack_after_pack_witness :
    (SlaveRead .w32
        (recSlave (replay (MasterWrite .w32 (recMaster fun _ => 0) 0x0010
          (bufOf [0x41, 0x42, 0x43, 0x44, 0x45, 0x46]) 6 Recorder.init).calls))
        0x0010 (fun _ => 0) 6 Recorder.init).1 5 = bufOf [0x41, 0x42, 0x43, 0x44, 0x45, 0x46] 5 ∧
    (MasterRead .w32
        (recMaster (replay (SlaveWrite .w32 (recSlave fun _ => 0) 0x0010
          (bufOf [0x41, 0x42, 0x43, 0x44, 0x45, 0x46]) 6 Recorder.init).calls))
        0x0010 (fun _ => 0) 6 Recorder.init).1 5 = bufOf [0x41, 0x42, 0x43, 0x44, 0x45, 0x46] 5 :=
  C17_unpack_after_pack .w32 (fun _ => 0) 0x0010 (bufOf [0x41, 0x42, 0x43, 0x44, 0x45, 0x46])
    (fun _ => 0) 6 5 (by decide)

/-! ## The interrupt pulse -/

/-- One delta cycle after the call of `send()`: the line is high, time has not moved. -/
theorem pulse_run_one (t0 : Nat) (order : Nat → Bool) :
    run MasterHardwareSyncDetect.receive SlaveHardwareSyncGenerate.send order 1 (pulse t0) =
      { now := t0,
        bus := { ready := false, ack := false, A := 0, D := 0, intr := true, bus_addr := 0,
                 bus_data := 0 },
        master := ⟨0, 0, .runnable .edge⟩,
        slave := ⟨0, 0, .sleeping (t0 + 5000) .pulsed⟩,
        trace := [⟨t0, .slave, .writeIntr true⟩] } := by
  simp [run, step, evaluate, settle, Thread.turn, Thread.isRunnable, Thread.wakeTime,
    Thread.wake, Thread.timeout, firedEvents, earliest, Bus.idle, Effect.update,
    Effect.immediate, Effect.notified, Nat.add_assoc, Sim.start,
    MasterHardwareSyncDetect.receive, SlaveHardwareSyncGenerate.send, pulse]

/-- Two delta cycles after the call: time has advanced by the 5000 ps of the wait and
the line is still high. -/
theorem pulse_run_two (t0 : Nat) (order : Nat → Bool) :
    run MasterHardwareSyncDetect.receive SlaveHardwareSyncGenerate.send order 2 (pulse t0) =
      { now := t0 + 5000,
        bus := { ready := false, ack := false, A := 0, D := 0, intr := true, bus_addr := 0,
                 bus_data := 0 },
        master := ⟨0, 0, .returned t0⟩,
        slave := ⟨0, 0, .runnable .pulsed⟩,
        trace := [⟨t0, .slave, .writeIntr true⟩] } := by
  simp [run, step, evaluate, settle, Thread.turn, Thread.isRunnable, Thread.wakeTime,
    Thread.wake, Thread.timeout, firedEvents, earliest, Bus.idle, Effect.update,
    Effect.immediate, Effect.notified, Nat.add_assoc, Sim.start,
    MasterHardwareSyncDetect.receive, SlaveHardwareSyncGenerate.send, pulse]

/-- Three delta cycles after the call: `send()` has returned and the line is low. -/
theorem pulse_run_three (t0 : Nat) (order : Nat → Bool) :
    run MasterHardwareSyncDetect.receive SlaveHardwareSyncGenerate.send order 3 (pulse t0) =
      { now := t0 + 5000,
        bus := { ready := false, ack := false, A := 0, D := 0, intr := false, bus_addr := 0,
                 bus_data := 0 },
        master := ⟨0, 0, .returned t0⟩,
        slave := ⟨0, 0, .returned (t0 + 5000)⟩,
        trace := [⟨t0, .slave, .writeIntr true⟩, ⟨t0 + 5000, .slave, .writeIntr false⟩] } := by
  simp [run, step, evaluate, settle, Thread.turn, Thread.isRunnable, Thread.wakeTime,
    Thread.wake, Thread.timeout, firedEvents, earliest, Bus.idle, Effect.update,
    Effect.immediate, Effect.notified, Nat.add_assoc, Sim.start,
    MasterHardwareSyncDetect.receive, SlaveHardwareSyncGenerate.send, pulse]

/-- C15: every `send()` call drives the interrupt line high, then waits exactly 5000 ps,
then drives it low, and does nothing else; so from a low line the line is high from the
time `t0` of the call until `t0 + 5000`, where `send()` returns and the line goes low. -/
theorem C15_interrupt_pulse (t0 : Nat) (order : Nat → Bool) (n : Nat) (hn : 3 ≤ n) :
    (∀ (a d : Nat) (bus : Bus),
      SlaveHardwareSyncGenerate.send .entry a d bus = ⟨[.writeIntr true], d, .time 5000 .pulsed⟩ ∧
      SlaveHardwareSyncGenerate.send .pulsed a d bus = ⟨[.writeIntr false], d, .ret⟩) ∧
    (∀ (a d : Nat) (b1 b2 : Bus) (rest : List Bus),
      effectsAgainst SlaveHardwareSyncGenerate.send a (b1 :: b2 :: rest) .entry d =
        [.writeIntr true, .writeIntr false]) ∧
    ((run MasterHardwareSyncDetect.receive SlaveHardwareSyncGenerate.send order 1
          (pulse t0)).bus.intr = true ∧
      (run MasterHardwareSyncDetect.receive SlaveHardwareSyncGenerate.send order 1
          (pulse t0)).now = t0) ∧
    ((run MasterHardwareSyncDetect.receive SlaveHardwareSyncGenerate.send order 2
          (pulse t0)).bus.intr = true ∧
      (run MasterHardwareSyncDetect.receive SlaveHardwareSyncGenerate.send order 2
          (pulse t0)).now = t0 + 5000) ∧
    ((run MasterHardwareSyncDetect.receive SlaveHardwareSyncGenerate.send order n
          (pulse t0)).bus.intr = false ∧
      (run MasterHardwareSyncDetect.receive SlaveHardwareSyncGenerate.send order n
          (pulse t0)).slave.returnTime = some (t0 + 5000) ∧
      effectsOf .slave (run MasterHardwareSyncDetect.receive SlaveHardwareSyncGenerate.send
          order n (pulse t0)).trace =
        [(t0, .writeIntr true), (t0 + 5000, .writeIntr false)]) := by
  rw [run_of_quiet _ _ order _ _ 3 n (pulse_run_three t0 order) rfl hn, pulse_run_one,
    pulse_run_two]
  refine ⟨fun a d bus => ⟨rfl, rfl⟩, fun a d b1 b2 rest => ?_, ⟨rfl, rfl⟩, ⟨rfl, rfl⟩, rfl, rfl,
    by simp [effectsOf]⟩
  simp [effectsAgainst, SlaveHardwareSyncGenerate.send]

/-- C15 at a concrete input: a `send()` at time 1000. -/
theorem C15_interrupt_pulse_witness :
    (∀ (a d : Nat) (bus : Bus),
      SlaveHardwareSyncGenerate.send .entry a d bus = ⟨[.writeIntr true], d, .time 5000 .pulsed⟩ ∧
      SlaveHardwareSyncGenerate.send .pulsed a d bus = ⟨[.writeIntr false], d, .ret⟩) ∧
    (∀ (a d : Nat) (b1 b2 : Bus) (rest : List Bus),
      effectsAgainst SlaveHardwareSyncGenerate.send a (b1 :: b2 :: rest) .entry d =
        [.writeIntr true, .writeIntr false]) ∧
    ((run MasterHardwareSyncDetect.receive SlaveHardwareSyncGenerate.send (fun _ => true) 1
          (pulse 1000)).bus.intr = true ∧
      (run MasterHardwareSyncDetect.receive SlaveHardwareSyncGenerate.send (fun _ => true) 1
          (pulse 1000)).now = 1000) ∧
    ((run MasterHardwareSyncDetect.receive SlaveHardwareSyncGenerate.send (fun _ => true) 2
          (pulse 1000)).bus.intr = true ∧
      (run MasterHardwareSyncDetect.receive SlaveHardwareSyncGenerate.send (fun _ => true) 2
          (pulse 1000)).now = 1000 + 5000) ∧
    ((run MasterHardwareSyncDetect.receive SlaveHardwareSyncGenerate.send (fun _ => true) 3
          (pulse 1000)).bus.intr = false ∧
      (run MasterHardwareSyncDetect.receive SlaveHardwareSyncGenerate.send (fun _ => true) 3
          (pulse 1000)).slave.returnTime = some (1000 + 5000) ∧
      effectsOf .slave (run MasterHardwareSyncDetect.receive SlaveHardwareSyncGenerate.send
          (fun _ => true) 3 (pulse 1000)).trace =
        [(1000, .writeIntr true), (1000 + 5000, .writeIntr false)]) :=
  C15_interrupt_pulse 1000 (fun _ => true) 3 (by decide)

/-! ## Who drives which line -/

theorem settle_trace {M S : Type} (now : Nat) (tr : List Entry) (e : Evaluated M S) :
    (settle now tr e).trace = tr ++ e.entries := by
  unfold settle
  simp only
  split
  · rfl
  · split <;> rfl

theorem turn_effects {L : Type} (body : Body L) (now : Nat) (bus : Bus) (t : Thread L)
    (allowed : List Line)
    (h : ∀ k a d b, (body k a d b).effects.all (Effect.drivesOnly allowed) = true) :
    (t.turn body now bus).effects.all (Effect.drivesOnly allowed) = true := by
  unfold Thread.turn
  split
  · exact h _ _ _ _
  · rfl

theorem all_map_master (now : Nat) (lm ls : List Line) (effs : List Effect)
    (h : effs.all (Effect.drivesOnly lm) = true) :
    (effs.map (Entry.mk now .master)).all (Entry.within lm ls) = true := by
  simp only [List.all_eq_true, List.mem_map, forall_exists_index, and_imp] at h ⊢
  intro x e he hx
  subst hx
  exact h e he

theorem all_map_slave (now : Nat) (lm ls : List Line) (effs : List Effect)
    (h : effs.all (Effect.drivesOnly ls) = true) :
    (effs.map (Entry.mk now .slave)).all (Entry.within lm ls) = true := by
  simp only [List.all_eq_true, List.mem_map, forall_exists_index, and_imp] at h ⊢
  intro x e he hx
  subst hx
  exact h e he

/-- A delta cycle adds to the trace only effects of the two method bodies. -/
theorem step_within {M S : Type} (mb : Body M) (sb : Body S) (lm ls : List Line)
    (hm : ∀ k a d b, (mb k a d b).effects.all (Effect.drivesOnly lm) = true)
    (hs : ∀ k a d b, (sb k a d b).effects.all (Effect.drivesOnly ls) = true)
    (b : Bool) (s : Sim M S) (h : s.trace.all (Entry.within lm ls) = true) :
    (step mb sb b s).trace.all (Entry.within lm ls) = true := by
  unfold step
  rw [settle_trace, List.all_append, h, Bool.true_and]
  unfold evaluate
  cases b
  · simp only [Bool.false_eq_true, if_false, List.all_append, Bool.and_eq_true]
    exact ⟨all_map_slave _ lm ls _ (turn_effects sb _ _ _ ls hs),
      all_map_master _ lm ls _ (turn_effects mb _ _ _ lm hm)⟩
  · simp only [if_true, List.all_append, Bool.and_eq_true]
    exact ⟨all_map_master _ lm ls _ (turn_effects mb _ _ _ lm hm),
      all_map_slave _ lm ls _ (turn_effects sb _ _ _ ls hs)⟩

/-- On every execution, each side writes only the lines its method body writes. -/
theorem run_within {M S : Type} (mb : Body M) (sb : Body S) (lm ls : List Line)
    (hm : ∀ k a d b, (mb k a d b).effects.all (Effect.drivesOnly lm) = true)
    (hs : ∀ k a d b, (sb k a d b).effects.all (Effect.drivesOnly ls) = true)
    (order : Nat → Bool) (n : Nat) (s : Sim M S) (h : s.trace.all (Entry.within lm ls) = true) :
    (run mb sb order n s).trace.all (Entry.within lm ls) = true := by
  induction n with
  | zero => exact h
  | succ n ih => exact step_within mb sb lm ls hm hs _ _ ih

theorem masterWrite_lines (k : MasterPoint) (a d : Nat) (bus : Bus) :
    (MasterHardwareBus.masterWrite k a d bus).effects.all
      (Effect.drivesOnly [.A, .D, .ready]) = true := by
  cases k <;> cases h : bus.ack <;>
    simp [MasterHardwareBus.masterWrite, h, Effect.drivesOnly, Effect.drives]

theorem masterRead_lines (k : MasterPoint) (a d : Nat) (bus : Bus) :
    (MasterHardwareBus.masterRead k a d bus).effects.all
      (Effect.drivesOnly [.A, .ready]) = true := by
  cases k <;> cases h : bus.ack <;>
    simp [MasterHardwareBus.masterRead, h, Effect.drivesOnly, Effect.drives]

theorem slaveWrite_lines (k : SlavePoint) (a d : Nat) (bus : Bus) :
    (SlaveHardwareBus.slaveWrite k a d bus).effects.all
      (Effect.drivesOnly [.D, .ack]) = true := by
  by_cases ha : a = bus.A <;> cases k <;> cases h : bus.ready <;>
    simp [SlaveHardwareBus.slaveWrite, h, ha, Effect.drivesOnly, Effect.drives]

theorem slaveRead_lines (k : SlavePoint) (a d : Nat) (bus : Bus) :
    (SlaveHardwareBus.slaveRead k a d bus).effects.all
      (Effect.drivesOnly [.ack]) = true := by
  by_cases ha : a = bus.A <;> cases k <;> cases h : bus.ready <;>
    simp [SlaveHardwareBus.slaveRead, h, ha, Effect.drivesOnly, Effect.drives]

theorem all_imp {α : Type} (p q : α → Bool) (l : List α) (h : ∀ x, p x = true → q x = true)
    (hl : l.all p = true) : l.all q = true := by
  simp only [List.all_eq_true] at hl ⊢
  exact fun x hx => h x (hl x hx)

/-- C14: in the pin-accurate variant `masterRead` writes only the address line and
`ready`, `slaveRead` writes only `ack`, `masterWrite` writes only the address line, the
data line and `ready`, and `slaveWrite` writes only the data line and `ack`. Hence on
every execution of a `masterWrite`/`slaveRead` pairing every write of the data line is
the master's, and on every execution of a `masterRead`/`slaveWrite` pairing every write
of the data line is the slave's. -/
theorem C14_single_writer (k : MasterPoint) (j : SlavePoint) (a d : Nat) (bus : Bus)
    (order : Nat → Bool) (n : Nat) (s : Sim MasterPoint SlavePoint) :
    ((MasterHardwareBus.masterRead k a d bus).effects.all
        (Effect.drivesOnly [.A, .ready]) = true ∧
      (SlaveHardwareBus.slaveRead j a d bus).effects.all (Effect.drivesOnly [.ack]) = true ∧
      (MasterHardwareBus.masterWrite k a d bus).effects.all
        (Effect.drivesOnly [.A, .D, .ready]) = true ∧
      (SlaveHardwareBus.slaveWrite j a d bus).effects.all
        (Effect.drivesOnly [.D, .ack]) = true) ∧
    (run MasterHardwareBus.masterWrite SlaveHardwareBus.slaveRead order n
        { s with trace := [] }).trace.all
      (fun e => e.side == .master || e.effect.drives != some .D) = true ∧
    (run MasterHardwareBus.masterRead SlaveHardwareBus.slaveWrite order n
        { s with trace := [] }).trace.all
      (fun e => e.side == .slave || e.effect.drives != some .D) = true := by
  refine ⟨⟨masterRead_lines k a d bus, slaveRead_lines j a d bus, masterWrite_lines k a d bus,
    slaveWrite_lines j a d bus⟩, ?_, ?_⟩
  · refine all_imp _ _ _ ?_ (run_within _ _ [.A, .D, .ready] [.ack] masterWrite_lines
      slaveRead_lines order n _ rfl)
    rintro ⟨t, side, eff⟩ h
    cases side <;> cases eff <;> simp_all [Entry.within, Effect.drivesOnly, Effect.drives]
  · refine all_imp _ _ _ ?_ (run_within _ _ [.A, .ready] [.D, .ack] masterRead_lines
      slaveWrite_lines order n _ rfl)
    rintro ⟨t, side, eff⟩ h
    cases side <;> cases eff <;> simp_all [Entry.within, Effect.drivesOnly, Effect.drives]

/-! ## Strict alternation of the pin-accurate handshake -/

set_option maxHeartbeats 4000000 in
/-- A delta cycle takes every shape of the alternation to a shape of the alternation,
whatever calls the two callers make and in whatever order the two sides are evaluated. -/
theorem alternates_step (mw sw : Nat → Bool) (ma md mg sa sd sg : Nat → Nat) (b : Bool)
    (s : Sim (Nat × MasterPoint) (Nat × SlavePoint)) (h : Alternates s.shape) :
    Alternates (step (masterCaller mw ma md mg).thread (slaveCaller sw sa sd sg).thread b
      s).shape := by
  obtain ⟨now, ⟨r, k, A, D, intr, ba, bd⟩, ⟨ta, td, mst⟩, ⟨ua, ud, sst⟩, tr⟩ := s
  simp only [Sim.shape] at h
  cases h with
  | idleEntry i j =>
    cases hw : mw i <;> cases hs : sw j <;>
      simp [Sim.shape, step, evaluate, settle, Thread.turn, Thread.isRunnable, Thread.wakeTime,
        Thread.wake, Thread.timeout, firedEvents, earliest, Effect.update, Effect.immediate,
        Effect.notified, Caller.thread, masterCaller, slaveCaller, Suspend.inCall,
        MasterHardwareBus.masterWrite, MasterHardwareBus.masterRead,
        SlaveHardwareBus.slaveWrite, SlaveHardwareBus.slaveRead, hw, hs] <;>
      constructor
  | idleEntryWaiting i j =>
    cases hw : mw i <;>
      simp [Sim.shape, step, evaluate, settle, Thread.turn, Thread.isRunnable, Thread.wakeTime,
        Thread.wake, Thread.timeout, firedEvents, earliest, Effect.update, Effect.immediate,
        Effect.notified, Caller.thread, masterCaller, slaveCaller, Suspend.inCall,
        MasterHardwareBus.masterWrite, MasterHardwareBus.masterRead,
        SlaveHardwareBus.slaveWrite, SlaveHardwareBus.slaveRead, hw] <;>
      constructor
  | idleEntrySleeping i j w =>
    rcases Nat.lt_trichotomy (now + 5000) w with hlt | heq | hgt
    · have hmin : min (now + 5000) w = now + 5000 := Nat.min_eq_left (Nat.le_of_lt hlt)
      have hne : ¬ w = now + 5000 := by omega
      cases hw : mw i <;>
        simp [Sim.shape, step, evaluate, settle, Thread.turn, Thread.isRunnable, Thread.wakeTime,
        Thread.wake, Thread.timeout, firedEvents, earliest, Effect.update, Effect.immediate,
        Effect.notified, Caller.thread, masterCaller, slaveCaller, Suspend.inCall,
        MasterHardwareBus.masterWrite, MasterHardwareBus.masterRead,
        SlaveHardwareBus.slaveWrite, SlaveHardwareBus.slaveRead, hw, hmin, hne] <;>
        constructor
    · subst heq
      cases hw : mw i <;>
        simp [Sim.shape, step, evaluate, settle, Thread.turn, Thread.isRunnable, Thread.wakeTime,
        Thread.wake, Thread.timeout, firedEvents, earliest, Effect.update, Effect.immediate,
        Effect.notified, Caller.thread, masterCaller, slaveCaller, Suspend.inCall,
        MasterHardwareBus.masterWrite, MasterHardwareBus.masterRead,
        SlaveHardwareBus.slaveWrite, SlaveHardwareBus.slaveRead, hw] <;>
        constructor
    · have hmin : min (now + 5000) w = w := Nat.min_eq_right (Nat.le_of_lt hgt)
      have hne : ¬ now + 5000 = w := by omega
      cases hw : mw i <;>
        simp [Sim.shape, step, evaluate, settle, Thread.turn, Thread.isRunnable, Thread.wakeTime,
        Thread.wake, Thread.timeout, firedEvents, earliest, Effect.update, Effect.immediate,
        Effect.notified, Caller.thread, masterCaller, slaveCaller, Suspend.inCall,
        MasterHardwareBus.masterWrite, MasterHardwareBus.masterRead,
        SlaveHardwareBus.slaveWrite, SlaveHardwareBus.slaveRead, hw, hmin, hne] <;>
        constructor
  | gapSlaveEntering i j w =>
    cases hs : sw j <;>
      simp [Sim.shape, step, evaluate, settle, Thread.turn, Thread.isRunnable, Thread.wakeTime,
        Thread.wake, Thread.timeout, firedEvents, earliest, Effect.update, Effect.immediate,
        Effect.notified, Caller.thread, masterCaller, slaveCaller, Suspend.inCall,
        MasterHardwareBus.masterWrite, MasterHardwareBus.masterRead,
        SlaveHardwareBus.slaveWrite, SlaveHardwareBus.slaveRead, hs] <;>
      constructor
  | setupSlaveEntering i j w =>
    cases hs : sw j <;>
      simp [Sim.shape, step, evaluate, settle, Thread.turn, Thread.isRunnable, Thread.wakeTime,
        Thread.wake, Thread.timeout, firedEvents, earliest, Effect.update, Effect.immediate,
        Effect.notified, Caller.thread, masterCaller, slaveCaller, Suspend.inCall,
        MasterHardwareBus.masterWrite, MasterHardwareBus.masterRead,
        SlaveHardwareBus.slaveWrite, SlaveHardwareBus.slaveRead, hs] <;>
      constructor
  | setup i j =>
    cases hw : mw i <;> cases hs : sw j <;>
      simp [Sim.shape, step, evaluate, settle, Thread.turn, Thread.isRunnable, Thread.wakeTime,
        Thread.wake, Thread.timeout, firedEvents, earliest, Effect.update, Effect.immediate,
        Effect.notified, Caller.thread, masterCaller, slaveCaller, Suspend.inCall,
        MasterHardwareBus.masterWrite, MasterHardwareBus.masterRead,
        SlaveHardwareBus.slaveWrite, SlaveHardwareBus.slaveRead, hw, hs] <;>
      constructor
  | setupWaiting i j =>
    cases hw : mw i <;>
      simp [Sim.shape, step, evaluate, settle, Thread.turn, Thread.isRunnable, Thread.wakeTime,
        Thread.wake, Thread.timeout, firedEvents, earliest, Effect.update, Effect.immediate,
        Effect.notified, Caller.thread, masterCaller, slaveCaller, Suspend.inCall,
        MasterHardwareBus.masterWrite, MasterHardwareBus.masterRead,
        SlaveHardwareBus.slaveWrite, SlaveHardwareBus.slaveRead, hw] <;>
      constructor
  | setupSleeping i j w =>
    cases hw : mw i <;>
      simp [Sim.shape, step, evaluate, settle, Thread.turn, Thread.isRunnable, Thread.wakeTime,
        Thread.wake, Thread.timeout, firedEvents, earliest, Effect.update, Effect.immediate,
        Effect.notified, Caller.thread, masterCaller, slaveCaller, Suspend.inCall,
        MasterHardwareBus.masterWrite, MasterHardwareBus.masterRead,
        SlaveHardwareBus.slaveWrite, SlaveHardwareBus.slaveRead, hw] <;>
      constructor
  | check i j =>
    by_cases ha : sa j = A <;> cases hs : sw j <;>
      simp [Sim.shape, step, evaluate, settle, Thread.turn, Thread.isRunnable, Thread.wakeTime,
        Thread.wake, Thread.timeout, firedEvents, earliest, Effect.update, Effect.immediate,
        Effect.notified, Caller.thread, masterCaller, slaveCaller, Suspend.inCall,
        MasterHardwareBus.masterWrite, MasterHardwareBus.masterRead,
        SlaveHardwareBus.slaveWrite, SlaveHardwareBus.slaveRead, hs, ha] <;>
      constructor
  | matched i j =>
    cases hs : sw j <;>
      simp [Sim.shape, step, evaluate, settle, Thread.turn, Thread.isRunnable, Thread.wakeTime,
        Thread.wake, Thread.timeout, firedEvents, earliest, Effect.update, Effect.immediate,
        Effect.notified, Caller.thread, masterCaller, slaveCaller, Suspend.inCall,
        MasterHardwareBus.masterWrite, MasterHardwareBus.masterRead,
        SlaveHardwareBus.slaveWrite, SlaveHardwareBus.slaveRead, hs] <;>
      constructor
  | acked i j =>
    cases hw : mw i <;>
      simp [Sim.shape, step, evaluate, settle, Thread.turn, Thread.isRunnable, Thread.wakeTime,
        Thread.wake, Thread.timeout, firedEvents, earliest, Effect.update, Effect.immediate,
        Effect.notified, Caller.thread, masterCaller, slaveCaller, Suspend.inCall,
        MasterHardwareBus.masterWrite, MasterHardwareBus.masterRead,
        SlaveHardwareBus.slaveWrite, SlaveHardwareBus.slaveRead, hw] <;>
      constructor
  | hold i j =>
    cases hw : mw i <;>
      simp [Sim.shape, step, evaluate, settle, Thread.turn, Thread.isRunnable, Thread.wakeTime,
        Thread.wake, Thread.timeout, firedEvents, earliest, Effect.update, Effect.immediate,
        Effect.notified, Caller.thread, masterCaller, slaveCaller, Suspend.inCall,
        MasterHardwareBus.masterWrite, MasterHardwareBus.masterRead,
        SlaveHardwareBus.slaveWrite, SlaveHardwareBus.slaveRead, hw] <;>
      constructor
  | lowered i j =>
    cases hs : sw j <;>
      simp [Sim.shape, step, evaluate, settle, Thread.turn, Thread.isRunnable, Thread.wakeTime,
        Thread.wake, Thread.timeout, firedEvents, earliest, Effect.update, Effect.immediate,
        Effect.notified, Caller.thread, masterCaller, slaveCaller, Suspend.inCall,
        MasterHardwareBus.masterWrite, MasterHardwareBus.masterRead,
        SlaveHardwareBus.slaveWrite, SlaveHardwareBus.slaveRead, hs] <;>
      constructor
  | release i j =>
    by_cases hg : sg (j + 1) = 0 <;> cases hs : sw j <;> cases hs' : sw (j + 1) <;>
      simp [Sim.shape, step, evaluate, settle, Thread.turn, Thread.isRunnable, Thread.wakeTime,
        Thread.wake, Thread.timeout, firedEvents, earliest, Effect.update, Effect.immediate,
        Effect.notified, Caller.thread, masterCaller, slaveCaller, Suspend.inCall,
        MasterHardwareBus.masterWrite, MasterHardwareBus.masterRead,
        SlaveHardwareBus.slaveWrite, SlaveHardwareBus.slaveRead, hs, hs', hg] <;>
      constructor
  | done i j =>
    by_cases hg : mg (i + 1) = 0 <;> cases hw : mw i <;> cases hw' : mw (i + 1) <;>
      simp [Sim.shape, step, evaluate, settle, Thread.turn, Thread.isRunnable, Thread.wakeTime,
        Thread.wake, Thread.timeout, firedEvents, earliest, Effect.update, Effect.immediate,
        Effect.notified, Caller.thread, masterCaller, slaveCaller, Suspend.inCall,
        MasterHardwareBus.masterWrite, MasterHardwareBus.masterRead,
        SlaveHardwareBus.slaveWrite, SlaveHardwareBus.slaveRead, hw, hw', hg] <;>
      constructor
  | doneSleeping i j w =>
    by_cases hg : mg (i + 1) = 0
    · rcases Nat.lt_trichotomy (now + 5000) w with hlt | heq | hgt
      · have hmin : min (now + 5000) w = now + 5000 := Nat.min_eq_left (Nat.le_of_lt hlt)
        have hne : ¬ w = now + 5000 := by omega
        cases hw : mw i <;> cases hw' : mw (i + 1) <;>
          simp [Sim.shape, step, evaluate, settle, Thread.turn, Thread.isRunnable, Thread.wakeTime,
        Thread.wake, Thread.timeout, firedEvents, earliest, Effect.update, Effect.immediate,
        Effect.notified, Caller.thread, masterCaller, slaveCaller, Suspend.inCall,
        MasterHardwareBus.masterWrite, MasterHardwareBus.masterRead,
        SlaveHardwareBus.slaveWrite, SlaveHardwareBus.slaveRead, hw, hw', hg, hmin, hne] <;>
          constructor
      · subst heq
        cases hw : mw i <;> cases hw' : mw (i + 1) <;>
          simp [Sim.shape, step, evaluate, settle, Thread.turn, Thread.isRunnable, Thread.wakeTime,
        Thread.wake, Thread.timeout, firedEvents, earliest, Effect.update, Effect.immediate,
        Effect.notified, Caller.thread, masterCaller, slaveCaller, Suspend.inCall,
        MasterHardwareBus.masterWrite, MasterHardwareBus.masterRead,
        SlaveHardwareBus.slaveWrite, SlaveHardwareBus.slaveRead, hw, hw', hg] <;>
          constructor
      · have hmin : min (now + 5000) w = w := Nat.min_eq_right (Nat.le_of_lt hgt)
        have hne : ¬ now + 5000 = w := by omega
        cases hw : mw i <;> cases hw' : mw (i + 1) <;>
          simp [Sim.shape, step, evaluate, settle, Thread.turn, Thread.isRunnable, Thread.wakeTime,
        Thread.wake, Thread.timeout, firedEvents, earliest, Effect.update, Effect.immediate,
        Effect.notified, Caller.thread, masterCaller, slaveCaller, Suspend.inCall,
        MasterHardwareBus.masterWrite, MasterHardwareBus.masterRead,
        SlaveHardwareBus.slaveWrite, SlaveHardwareBus.slaveRead, hw, hw', hg, hmin, hne] <;>
          constructor
    · rcases Nat.lt_trichotomy (now + mg (i + 1)) w with hlt | heq | hgt
      · have hmin : min (now + mg (i + 1)) w = now + mg (i + 1) :=
          Nat.min_eq_left (Nat.le_of_lt hlt)
        have hne : ¬ w = now + mg (i + 1) := by omega
        cases hw : mw i <;>
          simp [Sim.shape, step, evaluate, settle, Thread.turn, Thread.isRunnable, Thread.wakeTime,
        Thread.wake, Thread.timeout, firedEvents, earliest, Effect.update, Effect.immediate,
        Effect.notified, Caller.thread, masterCaller, slaveCaller, Suspend.inCall,
        MasterHardwareBus.masterWrite, MasterHardwareBus.masterRead,
        SlaveHardwareBus.slaveWrite, SlaveHardwareBus.slaveRead, hw, hg, hmin, hne] <;>
          constructor
      · subst heq
        cases hw : mw i <;>
          simp [Sim.shape, step, evaluate, settle, Thread.turn, Thread.isRunnable, Thread.wakeTime,
        Thread.wake, Thread.timeout, firedEvents, earliest, Effect.update, Effect.immediate,
        Effect.notified, Caller.thread, masterCaller, slaveCaller, Suspend.inCall,
        MasterHardwareBus.masterWrite, MasterHardwareBus.masterRead,
        SlaveHardwareBus.slaveWrite, SlaveHardwareBus.slaveRead, hw, hg] <;>
          constructor
      · have hmin : min (now + mg (i + 1)) w = w := Nat.min_eq_right (Nat.le_of_lt hgt)
        have hne : ¬ now + mg (i + 1) = w := by omega
        cases hw : mw i <;>
          simp [Sim.shape, step, evaluate, settle, Thread.turn, Thread.isRunnable, Thread.wakeTime,
        Thread.wake, Thread.timeout, firedEvents, earliest, Effect.update, Effect.immediate,
        Effect.notified, Caller.thread, masterCaller, slaveCaller, Suspend.inCall,
        MasterHardwareBus.masterWrite, MasterHardwareBus.masterRead,
        SlaveHardwareBus.slaveWrite, SlaveHardwareBus.slaveRead, hw, hg, hmin, hne] <;>
          constructor

/-- Every state two callers reach from the start has a shape of the alternation. -/
theorem alternates_run (mw sw : Nat → Bool) (ma md mg sa sd sg : Nat → Nat)
    (order : Nat → Bool) (t0 A0 D0 : Nat) (n : Nat) :
    Alternates (run (masterCaller mw ma md mg).thread (slaveCaller sw sa sd sg).thread order n
      (callersStart t0 A0 D0 md sd)).shape := by
  induction n with
  | zero => exact Alternates.idleEntry 0 0
  | succ n ih => exact alternates_step mw sw ma md mg sa sd sg _ _ ih

/-- In a shape of the alternation, a master that is at the start of a call, about to
assert `ready`, or about to return finds `ready` and `ack` low. -/
theorem alternates_low (sh : Shape) (h : Alternates sh) (i : Nat) (k : MasterPoint)
    (hk : k = .entry ∨ k = .setupDone ∨ k = .awaitAckLow) (hm : sh.master = .runnable (i, k)) :
    sh.ready = false ∧ sh.ack = false := by
  rcases hk with rfl | rfl | rfl <;> cases h <;> cases hm <;> exact ⟨rfl, rfl⟩

/-! ## What a call has done when it returns -/

theorem visits_ret {L : Type} (body : Body L) (a : Nat) (bus : Bus) (rest : List Bus) (k : L)
    (d : Nat) (h : (body k a d bus).next = .ret) :
    visitsAgainst body a (bus :: rest) k d = ([⟨bus, (body k a d bus).effects⟩], true) := by
  rw [visitsAgainst, h]

theorem visits_time {L : Type} (body : Body L) (a : Nat) (bus : Bus) (rest : List Bus) (k : L)
    (d ps : Nat) (k' : L) (h : (body k a d bus).next = .time ps k') :
    visitsAgainst body a (bus :: rest) k d =
      (⟨bus, (body k a d bus).effects⟩ :: (visitsAgainst body a rest k' (body k a d bus).d).1,
        (visitsAgainst body a rest k' (body k a d bus).d).2) := by
  rw [visitsAgainst, h]

theorem visits_event {L : Type} (body : Body L) (a : Nat) (bus : Bus) (rest : List Bus) (k : L)
    (d : Nat) (e : Event) (k' : L) (h : (body k a d bus).next = .event e k') :
    visitsAgainst body a (bus :: rest) k d =
      (⟨bus, (body k a d bus).effects⟩ :: (visitsAgainst body a rest k' (body k a d bus).d).1,
        (visitsAgainst body a rest k' (body k a d bus).d).2) := by
  rw [visitsAgainst, h]

theorem releasedThenAckLow_cons (x : Visit) (vs : List Visit) (h : ReleasedThenAckLow vs) :
    ReleasedThenAckLow (x :: vs) := by
  obtain ⟨pre, v, post, last, h1, h2, h3, h4, h5⟩ := h
  exact ⟨x :: pre, v, post, last, by rw [h1]; rfl, h2, h3, h4, h5⟩

theorem readyLowThenReleased_cons (x : Visit) (vs : List Visit) (h : ReadyLowThenReleased vs) :
    ReadyLowThenReleased (x :: vs) := by
  obtain ⟨pre, v, last, h1, h2, h3⟩ := h
  exact ⟨x :: pre, v, last, by rw [h1]; rfl, h2, h3⟩

theorem masterWrite_flow : MasterFlow MasterHardwareBus.masterWrite where
  entry a d bus := ⟨5000, rfl⟩
  setup a d bus := by cases h : bus.ack <;> simp [MasterHardwareBus.masterWrite, h]
  awaitAck a d bus := by cases h : bus.ack <;> simp [MasterHardwareBus.masterWrite, h]
  hold a d bus := by cases h : bus.ack <;> simp [MasterHardwareBus.masterWrite, h]
  low a d bus := by cases h : bus.ack <;> simp [MasterHardwareBus.masterWrite, h]

theorem masterRead_flow : MasterFlow MasterHardwareBus.masterRead where
  entry a d bus := ⟨5000, rfl⟩
  setup a d bus := by cases h : bus.ack <;> simp [MasterHardwareBus.masterRead, h]
  awaitAck a d bus := by cases h : bus.ack <;> simp [MasterHardwareBus.masterRead, h]
  hold a d bus := by cases h : bus.ack <;> simp [MasterHardwareBus.masterRead, h]
  low a d bus := by cases h : bus.ack <;> simp [MasterHardwareBus.masterRead, h]

theorem slaveWrite_flow : SlaveFlow SlaveHardwareBus.slaveWrite where
  t1 a d bus := by
    by_cases ha : a = bus.A <;> cases h : bus.ready <;>
      simp [SlaveHardwareBus.slaveWrite, h, ha]
  matched a d bus := by cases h : bus.ready <;> simp [SlaveHardwareBus.slaveWrite, h]
  awaitReadyLow a d bus := by cases h : bus.ready <;> simp [SlaveHardwareBus.slaveWrite, h]
  release a d bus := ⟨rfl, rfl⟩

theorem slaveRead_flow : SlaveFlow SlaveHardwareBus.slaveRead where
  t1 a d bus := by
    by_cases ha : a = bus.A <;> cases h : bus.ready <;>
      simp [SlaveHardwareBus.slaveRead, h, ha]
  matched a d bus := by cases h : bus.ready <;> simp [SlaveHardwareBus.slaveRead, h]
  awaitReadyLow a d bus := by cases h : bus.ready <;> simp [SlaveHardwareBus.slaveRead, h]
  release a d bus := ⟨rfl, rfl⟩

/-- From the wait for `ack` low: a call that returns made no effect there and found
`ack` low at last. -/
theorem masterFlow_low {body : Body MasterPoint} (hf : MasterFlow body) (a : Nat)
    (envs : List Bus) (d : Nat) (hret : (visitsAgainst body a envs .awaitAckLow d).2 = true) :
    (∀ u ∈ (visitsAgainst body a envs .awaitAckLow d).1, u.effects = []) ∧
      ∃ last, (visitsAgainst body a envs .awaitAckLow d).1.getLast? = some last ∧
        last.seen.ack = false := by
  induction envs generalizing d with
  | nil => simp [visitsAgainst] at hret
  | cons bus rest ih =>
    obtain ⟨heff, ⟨hack, e, hnext⟩ | ⟨hack, hnext⟩⟩ := hf.low a d bus
    · rw [visits_event body a bus rest _ d e _ hnext] at hret ⊢
      obtain ⟨h1, last, h2, h3⟩ := ih _ hret
      refine ⟨?_, last, ?_, h3⟩
      · intro u hu
        rcases List.mem_cons.mp hu with rfl | hu
        · exact heff
        · exact h1 u hu
      · rw [List.getLast?_cons, h2]; rfl
    · rw [visits_ret body a bus rest _ d hnext]
      refine ⟨?_, ⟨bus, _⟩, rfl, hack⟩
      intro u hu
      rcases List.mem_singleton.mp hu with rfl
      exact heff

theorem masterFlow_hold {body : Body MasterPoint} (hf : MasterFlow body) (a : Nat)
    (envs : List Bus) (d : Nat) (hret : (visitsAgainst body a envs .holdDone d).2 = true) :
    ReleasedThenAckLow (visitsAgainst body a envs .holdDone d).1 := by
  cases envs with
  | nil => simp [visitsAgainst] at hret
  | cons bus rest =>
    obtain ⟨heff, ⟨hack, e, hnext⟩ | ⟨hack, hnext⟩⟩ := hf.hold a d bus
    · rw [visits_event body a bus rest _ d e _ hnext] at hret ⊢
      obtain ⟨h1, last, h2, h3⟩ := masterFlow_low hf a rest _ hret
      exact ⟨[], ⟨bus, _⟩, _, last, rfl, heff, h1, by rw [List.getLast?_cons, h2]; rfl, h3⟩
    · rw [visits_ret body a bus rest _ d hnext]
      exact ⟨[], ⟨bus, _⟩, [], ⟨bus, _⟩, rfl, heff, by simp, rfl, hack⟩

theorem masterFlow_awaitAck {body : Body MasterPoint} (hf : MasterFlow body) (a : Nat)
    (envs : List Bus) (d : Nat) (hret : (visitsAgainst body a envs .awaitAck d).2 = true) :
    ReleasedThenAckLow (visitsAgainst body a envs .awaitAck d).1 := by
  induction envs generalizing d with
  | nil => simp [visitsAgainst] at hret
  | cons bus rest ih =>
    rcases hf.awaitAck a d bus with ⟨e, hnext⟩ | ⟨ps, hnext⟩
    · rw [visits_event body a bus rest _ d e _ hnext] at hret ⊢
      exact releasedThenAckLow_cons _ _ (ih _ hret)
    · rw [visits_time body a bus rest _ d ps _ hnext] at hret ⊢
      exact releasedThenAckLow_cons _ _ (masterFlow_hold hf a rest _ hret)

/-- A master call that returns has driven `ready` low and then found `ack` low. -/
theorem masterFlow_entry {body : Body MasterPoint} (hf : MasterFlow body) (a : Nat)
    (envs : List Bus) (d : Nat) (hret : (visitsAgainst body a envs .entry d).2 = true) :
    ReleasedThenAckLow (visitsAgainst body a envs .entry d).1 := by
  cases envs with
  | nil => simp [visitsAgainst] at hret
  | cons bus rest =>
    obtain ⟨ps, hnext⟩ := hf.entry a d bus
    rw [visits_time body a bus rest _ d ps _ hnext] at hret ⊢
    apply releasedThenAckLow_cons
    cases rest with
    | nil => simp [visitsAgainst] at hret
    | cons bus' rest' =>
      rcases hf.setup a (body .entry a d bus).d bus' with ⟨e, hnext'⟩ | ⟨ps', hnext'⟩
      · rw [visits_event body a bus' rest' _ _ e _ hnext'] at hret ⊢
        exact releasedThenAckLow_cons _ _ (masterFlow_awaitAck hf a rest' _ hret)
      · rw [visits_time body a bus' rest' _ _ ps' _ hnext'] at hret ⊢
        exact releasedThenAckLow_cons _ _ (masterFlow_hold hf a rest' _ hret)

theorem slaveFlow_release {body : Body SlavePoint} (hf : SlaveFlow body) (a : Nat)
    (envs : List Bus) (d : Nat) (hret : (visitsAgainst body a envs .releaseDone d).2 = true) :
    ∃ last, (visitsAgainst body a envs .releaseDone d).1 = [last] ∧
      last.effects = [Effect.writeAck false] := by
  cases envs with
  | nil => simp [visitsAgainst] at hret
  | cons bus rest =>
    rw [visits_ret body a bus rest _ d (hf.release a d bus).2]
    exact ⟨_, rfl, (hf.release a d bus).1⟩

theorem slaveFlow_awaitReadyLow {body : Body SlavePoint} (hf : SlaveFlow body) (a : Nat)
    (envs : List Bus) (d : Nat)
    (hret : (visitsAgainst body a envs .awaitReadyLow d).2 = true) :
    ReadyLowThenReleased (visitsAgainst body a envs .awaitReadyLow d).1 := by
  induction envs generalizing d with
  | nil => simp [visitsAgainst] at hret
  | cons bus rest ih =>
    rcases hf.awaitReadyLow a d bus with ⟨-, e, hnext⟩ | ⟨hlow, ps, hnext⟩
    · rw [visits_event body a bus rest _ d e _ hnext] at hret ⊢
      exact readyLowThenReleased_cons _ _ (ih _ hret)
    · rw [visits_time body a bus rest _ d ps _ hnext] at hret ⊢
      obtain ⟨last, h1, h2⟩ := slaveFlow_release hf a rest _ hret
      exact ⟨[], ⟨bus, _⟩, last, by rw [h1]; rfl, hlow, h2⟩

theorem slaveFlow_matched {body : Body SlavePoint} (hf : SlaveFlow body) (a : Nat)
    (envs : List Bus) (d : Nat) (hret : (visitsAgainst body a envs .matched d).2 = true) :
    ReadyLowThenReleased (visitsAgainst body a envs .matched d).1 := by
  cases envs with
  | nil => simp [visitsAgainst] at hret
  | cons bus rest =>
    rcases hf.matched a d bus with ⟨-, e, hnext⟩ | ⟨hlow, ps, hnext⟩
    · rw [visits_event body a bus rest _ d e _ hnext] at hret ⊢
      exact readyLowThenReleased_cons _ _ (slaveFlow_awaitReadyLow hf a rest _ hret)
    · rw [visits_time body a bus rest _ d ps _ hnext] at hret ⊢
      obtain ⟨last, h1, h2⟩ := slaveFlow_release hf a rest _ hret
      exact ⟨[], ⟨bus, _⟩, last, by rw [h1]; rfl, hlow, h2⟩

/-- A slave call that returns has found `ready` low and then driven `ack` low. -/
theorem slaveFlow_t1 {body : Body SlavePoint} (hf : SlaveFlow body) (a : Nat)
    (envs : List Bus) (d : Nat) (hret : (visitsAgainst body a envs .t1 d).2 = true) :
    ReadyLowThenReleased (visitsAgainst body a envs .t1 d).1 := by
  induction envs generalizing d with
  | nil => simp [visitsAgainst] at hret
  | cons bus rest ih =>
    rcases hf.t1 a d bus with ⟨e, hnext⟩ | ⟨ps, hnext⟩ | ⟨ps, hnext⟩
    · rw [visits_event body a bus rest _ d e _ hnext] at hret ⊢
      exact readyLowThenReleased_cons _ _ (ih _ hret)
    · rw [visits_time body a bus rest _ d ps _ hnext] at hret ⊢
      exact readyLowThenReleased_cons _ _ (ih _ hret)
    · rw [visits_time body a bus rest _ d ps _ hnext] at hret ⊢
      exact readyLowThenReleased_cons _ _ (slaveFlow_matched hf a rest _ hret)

theorem ready_asserted_at_setup (k : MasterPoint) (a d : Nat) (bus : Bus)
    (h : Effect.writeReady true ∈ (MasterHardwareBus.masterWrite k a d bus).effects ∨
      Effect.writeReady true ∈ (MasterHardwareBus.masterRead k a d bus).effects) :
    k = .setupDone := by
  cases k <;> cases hb : bus.ack <;>
    simp [MasterHardwareBus.masterWrite, MasterHardwareBus.masterRead, hb] at h ⊢

/-- C13: strict alternation in the pin-accurate variant. Whatever the rest of the system
does, a `masterWrite` or `masterRead` call that returns has driven `ready` low and
afterwards found `ack` low, and a `slaveWrite` or `slaveRead` call that returns has
found `ready` low and afterwards driven `ack` low. Hence, for a master-side and a
slave-side thread that make any calls one after the other, at once or after any gaps,
from a bus with `ready` and `ack` low: in every state reached, a master that is at the
start of a call, about to assert `ready` (which it does only after its setup wait), or
about to return finds `ready` and `ack` low. -/
theorem C13_strict_alternation (mw sw : Nat → Bool) (ma md mg sa sd sg : Nat → Nat)
    (order : Nat → Bool) (t0 A0 D0 n a d : Nat) (envs : List Bus) :
    ((visitsAgainst MasterHardwareBus.masterWrite a envs .entry d).2 = true →
      ReleasedThenAckLow (visitsAgainst MasterHardwareBus.masterWrite a envs .entry d).1) ∧
    ((visitsAgainst MasterHardwareBus.masterRead a envs .entry d).2 = true →
      ReleasedThenAckLow (visitsAgainst MasterHardwareBus.masterRead a envs .entry d).1) ∧
    ((visitsAgainst SlaveHardwareBus.slaveWrite a envs .t1 d).2 = true →
      ReadyLowThenReleased (visitsAgainst SlaveHardwareBus.slaveWrite a envs .t1 d).1) ∧
    ((visitsAgainst SlaveHardwareBus.slaveRead a envs .t1 d).2 = true →
      ReadyLowThenReleased (visitsAgainst SlaveHardwareBus.slaveRead a envs .t1 d).1) ∧
    (∀ (i : Nat) (k : MasterPoint), k = .entry ∨ k = .setupDone ∨ k = .awaitAckLow →
      (run (masterCaller mw ma md mg).thread (slaveCaller sw sa sd sg).thread order n
          (callersStart t0 A0 D0 md sd)).master.status = .runnable (i, k) →
        (run (masterCaller mw ma md mg).thread (slaveCaller sw sa sd sg).thread order n
          (callersStart t0 A0 D0 md sd)).bus.ready = false ∧
        (run (masterCaller mw ma md mg).thread (slaveCaller sw sa sd sg).thread order n
          (callersStart t0 A0 D0 md sd)).bus.ack = false) ∧
    (∀ (k : MasterPoint) (a' d' : Nat) (bus : Bus),
      Effect.writeReady true ∈ (MasterHardwareBus.masterWrite k a' d' bus).effects ∨
        Effect.writeReady true ∈ (MasterHardwareBus.masterRead k a' d' bus).effects →
      k = .setupDone) :=
  ⟨masterFlow_entry masterWrite_flow a envs d, masterFlow_entry masterRead_flow a envs d,
    slaveFlow_t1 slaveWrite_flow a envs d, slaveFlow_t1 slaveRead_flow a envs d,
    fun i k hk hm =>
      alternates_low _ (alternates_run mw sw ma md mg sa sd sg order t0 A0 D0 n) i k hk hm,
    ready_asserted_at_setup⟩

/-- C13 at a concrete input. A `masterWrite` that finds `ack` high at its third and
fourth resumption and low at its fifth returns there, having driven `ready` low; and
with a master that alternates `masterWrite` and `masterRead` and a slave that alternates
`slaveRead` and `slaveWrite`, all at address `0x0010` and back to back, the master is
about to assert `ready` for its second call after nine delta cycles, with `ready` and
`ack` low. -/
theorem C13_strict_alternation_witness :
    ReleasedThenAckLow
        (visitsAgainst MasterHardwareBus.masterWrite 0x0010
          [Bus.idle 0 0, Bus.idle 0 0, { Bus.idle 0 0 with ack := true },
            { Bus.idle 0 0 with ack := true }, Bus.idle 0 0] .entry 5).1 ∧
      (run (masterCaller (fun i => i % 2 == 0) (fun _ => 0x0010) (fun i => 100 + i)
            (fun _ => 0)).thread
          (slaveCaller (fun j => j % 2 == 1) (fun _ => 0x0010) (fun j => 200 + j)
            (fun _ => 0)).thread
          (fun _ => true) 9
          (callersStart 0 0 0 (fun i => 100 + i) (fun j => 200 + j))).bus.ready = false ∧
      (run (masterCaller (fun i => i % 2 == 0) (fun _ => 0x0010) (fun i => 100 + i)
            (fun _ => 0)).thread
          (slaveCaller (fun j => j % 2 == 1) (fun _ => 0x0010) (fun j => 200 + j)
            (fun _ => 0)).thread
          (fun _ => true) 9
          (callersStart 0 0 0 (fun i => 100 + i) (fun j => 200 + j))).bus.ack = false :=
  ⟨(C13_strict_alternation (fun i => i % 2 == 0) (fun j => j % 2 == 1) (fun _ => 0x0010)
      (fun i => 100 + i) (fun _ => 0) (fun _ => 0x0010) (fun j => 200 + j) (fun _ => 0)
      (fun _ => true) 0 0 0 9 0x0010 5
      [Bus.idle 0 0, Bus.idle 0 0, { Bus.idle 0 0 with ack := true },
        { Bus.idle 0 0 with ack := true }, Bus.idle 0 0]).1 (by decide),
    (C13_strict_alternation (fun i => i % 2 == 0) (fun j => j % 2 == 1) (fun _ => 0x0010)
      (fun i => 100 + i) (fun _ => 0) (fun _ => 0x0010) (fun j => 200 + j) (fun _ => 0)
      (fun _ => true) 0 0 0 9 0x0010 5 []).2.2.2.2.1 1 .setupDone (Or.inr (Or.inl rfl))
      (by rfl)⟩

end HWBus
